import Mathlib

/-!
Verification development for the QALoader staging pipeline
(backend/app: validation_service, id_generator, staging_service,
duplicate_service_fallback).

Python strings are modelled as Lean `String` (`len` = number of
characters, `strip` = `String.trim`, `lower` = character-wise
`Char.toLower`, `in` = decidable membership); machine floats produced
by `difflib` ratios are modelled as exact rationals `ℚ`; database
tables are modelled as Lean lists of rows, and the unique-key
constraint of the store as an explicit membership test.  Fallible
operations return `Except`.
-/

namespace QALoader

/-- Python `str.lower()` (character-wise; all inputs of interest are
ASCII). -/
def pyLower (s : String) : String := String.mk (s.data.map Char.toLower)

/-- Python `str.strip()`: drop leading and trailing whitespace. -/
def pyStrip (s : String) : String :=
  String.mk (((s.data.dropWhile Char.isWhitespace).reverse.dropWhile
    Char.isWhitespace).reverse)

/-! ## Validation service (`validation_service.py`) -/

namespace ValidationService

/-- `ParsedQuestion` model from `validation_service.py`. -/
structure ParsedQuestion where
  topic : String
  subtopic : String
  difficulty : String
  type : String
  question : String
  answer : String
  notes_for_tutor : Option String := none
  deriving Repr, DecidableEq

/-- `ValidationResult` model from `validation_service.py` (the
`line_numbers` field is irrelevant to the claims and omitted). -/
structure ValidationResult where
  is_valid : Bool
  errors : List String
  warnings : List String
  parsed_count : Nat
  deriving Repr, DecidableEq

def VALID_DIFFICULTIES : List String := ["Basic", "Advanced"]

def VALID_TYPES : List String :=
  ["Definition", "Problem", "GenConcept", "Calculation", "Analysis", "Question"]

def MAX_SUBTOPIC_LENGTH : Nat := 100
def MAX_QUESTION_LENGTH : Nat := 5000
def MAX_ANSWER_LENGTH : Nat := 10000

/-- The errors `validate_question_content` accumulates for question
number `i` (1-based), in source order.  The message texts carry the
question number; the wording is abbreviated from the Python format
strings, their number and order are preserved. -/
def questionErrors (i : Nat) (q : ParsedQuestion) : List String :=
  (if q.difficulty ∈ VALID_DIFFICULTIES then []
   else [s!"Question {i}: Invalid difficulty"])
  ++ (if q.type ∈ VALID_TYPES then []
   else [s!"Question {i}: Invalid type"])
  ++ (if q.subtopic.length > MAX_SUBTOPIC_LENGTH then
      [s!"Question {i}: Subtopic exceeds 100 characters"] else [])
  ++ (if q.question.length > MAX_QUESTION_LENGTH then
      [s!"Question {i}: Question text exceeds 5000 characters"] else [])
  ++ (if q.answer.length > MAX_ANSWER_LENGTH then
      [s!"Question {i}: Answer text exceeds 10000 characters"] else [])
  ++ (if q.question.trim = "" then
      [s!"Question {i}: Question text cannot be empty"] else [])
  ++ (if q.answer.trim = "" then
      [s!"Question {i}: Answer text cannot be empty"] else [])

/-- The warnings `validate_question_content` accumulates for question
number `i` (1-based). -/
def questionWarnings (i : Nat) (q : ParsedQuestion) : List String :=
  (if q.question.length > 1000 then
    [s!"Question {i}: Question text is very long"] else [])
  ++ (if q.answer.length > 2000 then
    [s!"Question {i}: Answer text is very long"] else [])

/-- Accumulate per-question lists over `enumerate(questions, 1)`. -/
def enumBind (f : Nat → ParsedQuestion → List String) :
    Nat → List ParsedQuestion → List String
  | _, [] => []
  | i, q :: qs => f i q ++ enumBind f (i + 1) qs

/-- `ValidationService.validate_question_content`. -/
def validate_question_content (questions : List ParsedQuestion) : ValidationResult :=
  let errors := enumBind questionErrors 1 questions
  let warnings := enumBind questionWarnings 1 questions
  { is_valid := errors.isEmpty
    errors := errors
    warnings := warnings
    parsed_count := questions.length }

/-- Spec-side restatement of the per-question error conditions of the
claim: difficulty and type in the fixed sets, subtopic ≤ 100 chars,
question ≤ 5000, answer ≤ 10000, question/answer non-empty after
trimming. -/
def contentOk (q : ParsedQuestion) : Prop :=
  q.difficulty ∈ VALID_DIFFICULTIES ∧ q.type ∈ VALID_TYPES ∧
  q.subtopic.length ≤ MAX_SUBTOPIC_LENGTH ∧
  q.question.length ≤ MAX_QUESTION_LENGTH ∧
  q.answer.length ≤ MAX_ANSWER_LENGTH ∧
  q.question.trim ≠ "" ∧ q.answer.trim ≠ ""

instance (q : ParsedQuestion) : Decidable (contentOk q) := by
  unfold contentOk; infer_instance

lemma iteNil_eq_nil_iff (c : Prop) [Decidable c] (x : String) :
    ((if c then [] else [x]) = ([] : List String)) ↔ c := by
  split_ifs with h <;> simp [h]

lemma iteCons_eq_nil_iff (c : Prop) [Decidable c] (x : String) :
    ((if c then [x] else []) = ([] : List String)) ↔ ¬ c := by
  split_ifs with h <;> simp [h]

lemma questionErrors_eq_nil_iff (i : Nat) (q : ParsedQuestion) :
    questionErrors i q = [] ↔ contentOk q := by
  simp only [questionErrors, contentOk, List.append_eq_nil,
    iteNil_eq_nil_iff, iteCons_eq_nil_iff, gt_iff_lt, Nat.not_lt, and_assoc]

lemma questionWarnings_eq_nil_iff (i : Nat) (q : ParsedQuestion) :
    questionWarnings i q = [] ↔ q.question.length ≤ 1000 ∧ q.answer.length ≤ 2000 := by
  simp only [questionWarnings, List.append_eq_nil, iteCons_eq_nil_iff,
    gt_iff_lt, Nat.not_lt]

lemma enumBind_eq_nil_iff (f : Nat → ParsedQuestion → List String)
    (h : ∀ i j q, f i q = [] → f j q = []) :
    ∀ i qs, enumBind f i qs = [] ↔ ∀ q ∈ qs, f i q = [] := by
  intro i qs
  induction qs generalizing i with
  | nil => simp [enumBind]
  | cons q qs ih =>
    simp only [enumBind, List.append_eq_nil, List.mem_cons]
    constructor
    · rintro ⟨hq, hrest⟩
      rintro p (rfl | hp)
      · exact hq
      · exact h (i + 1) i p ((ih (i + 1)).1 hrest p hp)
    · intro hall
      refine ⟨hall q (Or.inl rfl), (ih (i + 1)).2 ?_⟩
      intro p hp
      exact h i (i + 1) p (hall p (Or.inr hp))

lemma validate_errors_eq (qs : List ParsedQuestion) :
    (validate_question_content qs).errors = enumBind questionErrors 1 qs := rfl

lemma validate_warnings_eq (qs : List ParsedQuestion) :
    (validate_question_content qs).warnings = enumBind questionWarnings 1 qs := rfl

lemma validate_is_valid_eq (qs : List ParsedQuestion) :
    (validate_question_content qs).is_valid = (enumBind questionErrors 1 qs).isEmpty := rfl

end ValidationService

/-! ## Identifier generator (`utils/id_generator.py`)

The two stores are modelled by their lists of `question_id` strings.
Postgres `LIKE 'base-%'` is prefix matching, `ORDER BY question_id
DESC` is the lexicographic order on strings (byte order; all ids are
ASCII), and `LIMIT 50` is `List.take 50`. -/

namespace IDGenerator

/-- Decimal digits of `n`, most significant first; fuel-structured so
the kernel can evaluate it (`fuel > n` always suffices since `n/10`
shrinks at every step). -/
def decDigitsFuel : Nat → Nat → List Char → List Char
  | 0, _, acc => acc
  | fuel + 1, n, acc =>
      if n < 10 then Nat.digitChar n :: acc
      else decDigitsFuel fuel (n / 10) (Nat.digitChar (n % 10) :: acc)

/-- Decimal representation of a natural number. -/
def decDigits (n : Nat) : List Char := decDigitsFuel (n + 1) n []

/-- `f"{seq:03d}"`: decimal, zero-padded to at least three digits. -/
def pad3 (n : Nat) : String :=
  if (String.mk (decDigits n)).length < 3 then
    String.mk (List.replicate (3 - (String.mk (decDigits n)).length) '0')
      ++ String.mk (decDigits n)
  else String.mk (decDigits n)

/-- `f"{base_id}-{sequence:03d}"`. -/
def fmtId (base : String) (seq : Nat) : String := base ++ "-" ++ pad3 seq

/-- Decimal digit run to `Nat` (`int(...)` on the regex group). -/
def digitsToNat (ds : List Char) : Nat :=
  ds.foldl (fun n c => n * 10 + (c.toNat - '0'.toNat)) 0

/-- Model of `re.search(r'-(\d+)$', question_id)`: the maximal run of
trailing digits, required to be non-empty and preceded by `'-'`. -/
def extractSeq (id : String) : Option Nat :=
  let rev := id.data.reverse
  let ds := rev.takeWhile Char.isDigit
  if ds = [] then none
  else match rev.drop ds.length with
    | '-' :: _ => some (digitsToNat ds.reverse)
    | _ => none

/-- Lexicographic `≤` on character lists by code point (the byte order
Postgres uses on these ASCII ids). -/
def listLexLe : List Char → List Char → Bool
  | [], _ => true
  | _ :: _, [] => false
  | a :: as, b :: bs =>
      if a.toNat < b.toNat then true
      else if b.toNat < a.toNat then false
      else listLexLe as bs

/-- Lexicographic `≤` on strings. -/
def strLe (a b : String) : Bool := listLexLe a.data b.data

/-- Insert into a lexicographically descending list. -/
def insertDesc (x : String) : List String → List String
  | [] => [x]
  | y :: ys => if strLe y x then x :: y :: ys else y :: insertDesc x ys

/-- Lexicographically descending sort (`ORDER BY question_id DESC`),
as a structurally recursive insertion sort. -/
def sortDesc (l : List String) : List String := l.foldr insertDesc []

/-- Max sequence found when scanning one table's rows in order. -/
def scanMax (rows : List String) (acc : Nat) : Nat :=
  rows.foldl (fun m id => match extractSeq id with
    | some s => max m s
    | none => m) acc

/-- `IDGenerator.get_next_sequence`: per table, select ids `LIKE
'base-%'`, order descending, take 50, extract each trailing sequence,
and return the overall maximum plus one. -/
def get_next_sequence (base : String) (all_questions staged_questions : List String) : Nat :=
  let pattern := fun id : String => (base ++ "-").data.isPrefixOf id.data
  let m1 := scanMax ((sortDesc (all_questions.filter pattern)).take 50) 0
  let m2 := scanMax ((sortDesc (staged_questions.filter pattern)).take 50) m1
  m2 + 1

/-- The bounded `while attempt < max_attempts` loop of
`ensure_unique_id`, fuel = remaining attempts: return the candidate as
soon as it is in neither table, otherwise advance the sequence; when
the attempts are exhausted the current (never checked) candidate is
returned. -/
def ensureLoop (all staged : List String) (base : String) : Nat → Nat → String
  | 0, seq => fmtId base seq
  | n + 1, seq =>
      let candidate := fmtId base seq
      if candidate ∈ all ∨ candidate ∈ staged then ensureLoop all staged base n (seq + 1)
      else candidate

/-- `IDGenerator.ensure_unique_id` with `max_attempts = 10`. -/
def ensure_unique_id (base : String) (all_questions staged_questions : List String) : String :=
  ensureLoop all_questions staged_questions base 10
    (get_next_sequence base all_questions staged_questions)

/-- ASCII `[A-Za-z0-9]`. -/
def isAsciiAlnum (c : Char) : Bool :=
  (65 ≤ c.toNat && c.toNat ≤ 90) || (97 ≤ c.toNat && c.toNat ≤ 122) ||
  (48 ≤ c.toNat && c.toNat ≤ 57)

/-- `str.strip()` on a character list. -/
def stripL (l : List Char) : List Char :=
  ((l.dropWhile Char.isWhitespace).reverse.dropWhile Char.isWhitespace).reverse

/-- `str.split()` (split on whitespace runs, no empty words). -/
def pyWordsAux : List Char → List Char → List (List Char)
  | [], acc => if acc = [] then [] else [acc.reverse]
  | c :: rest, acc =>
      if c.isWhitespace then
        if acc = [] then pyWordsAux rest [] else acc.reverse :: pyWordsAux rest []
      else pyWordsAux rest (c :: acc)

def pyWords (l : List Char) : List (List Char) := pyWordsAux l []

/-- `str.ljust(w, c)`. -/
def ljust (s : String) (w : Nat) (c : Char) : String :=
  if s.length < w then s ++ String.mk (List.replicate (w - s.length) c) else s

/-- `re.search(r'\(([^)]+)\)', ·)`: group 1 of the first match — the
run of non-`')'` characters after a `'('`, required non-empty and
followed by a `')'`; on failure the scan restarts one position
later. -/
def firstParenGroup : List Char → Option (List Char)
  | [] => none
  | c :: rest =>
      if c = '(' then
        if rest.takeWhile (fun d => d ≠ ')') ≠ [] ∧
            rest.drop (rest.takeWhile (fun d => d ≠ ')')).length ≠ [] then
          some (rest.takeWhile (fun d => d ≠ ')'))
        else firstParenGroup rest
      else firstParenGroup rest

/-- `re.sub(r'\([^)]*\)', '', ·)`: drop every leftmost-first
`(…)` group (a `'('` with no later `')'` stays).  Fuel-structured
(fuel = remaining length) so the kernel can evaluate it. -/
def removeParensFuel : Nat → List Char → List Char
  | 0, l => l
  | _ + 1, [] => []
  | fuel + 1, c :: rest =>
      if c = '(' then
        match rest.dropWhile (fun d => d ≠ ')') with
        | [] => c :: rest
        | _ :: after => removeParensFuel fuel after
      else c :: removeParensFuel fuel rest

def removeParens (l : List Char) : List Char := removeParensFuel l.length l

/-- `re.sub(r'\s+', ' ', ·)`, fuel-structured. -/
def collapseWSFuel : Nat → List Char → List Char
  | 0, l => l
  | _ + 1, [] => []
  | fuel + 1, c :: rest =>
      if c.isWhitespace then ' ' :: collapseWSFuel fuel (rest.dropWhile Char.isWhitespace)
      else c :: collapseWSFuel fuel rest

def collapseWS (l : List Char) : List Char := collapseWSFuel l.length l

def TOPIC_ABBREVIATIONS : List (String × String) :=
  [("accounting", "ACC"), ("finance", "FIN"), ("economics", "ECON"),
   ("business", "BUS"), ("marketing", "MKT"), ("operations", "OPS"),
   ("strategy", "STRAT"), ("management", "MGMT"), ("dcf", "DCF"),
   ("valuation", "VAL"), ("financial modeling", "FINMOD"),
   ("mergers and acquisitions", "MA"), ("m&a", "MA")]

def TYPE_CODES : List (String × String) :=
  [("Question", "Q"), ("Problem", "P"), ("GenConcept", "Q"),
   ("Definition", "Q"), ("Calculation", "P"), ("Analysis", "Q")]

/-- Tail of `normalize_topic` after the lookup-table and parenthesis
shortcuts fall through. -/
def normalize_topic_rest (topic : String) : String :=
  let topic_clean := stripL ((removeParens topic.data).filter
    (fun c => isAsciiAlnum c || c.isWhitespace))
  if topic_clean.length ≤ 3 then
    ljust (String.mk (topic_clean.map Char.toUpper)) 3 'X'
  else
    let words := pyWords topic_clean
    if words = [] then "UNK"
    else if words.length = 1 then
      String.mk (((words.headD []).take 3).map Char.toUpper)
    else
      let abb := (words.take 3).map (fun w => (w.headD ' ').toUpper)
      let abb2 :=
        if abb.length < 3 ∧ (words.headD []).length > 1 then
          abb ++ (((words.headD []).drop 1).take (3 - abb.length)).map Char.toUpper
        else abb
      ljust (String.mk (abb2.take 3)) 3 'X'

/-- `IDGenerator.normalize_topic`. -/
def normalize_topic (topic : String) : String :=
  match TOPIC_ABBREVIATIONS.lookup (pyStrip (pyLower topic)) with
  | some code => code
  | none =>
      match firstParenGroup topic.data with
      | some abb =>
          if abb.filter isAsciiAlnum ≠ [] ∧ (abb.filter isAsciiAlnum).length ≤ 4 then
            String.mk (((abb.filter isAsciiAlnum).map Char.toUpper).take 3)
          else normalize_topic_rest topic
      | none => normalize_topic_rest topic

/-- `IDGenerator.normalize_subtopic`. -/
def normalize_subtopic (subtopic : String) : String :=
  if pyLower (pyStrip subtopic) ∈ ["undefined", "unknown", "misc", "general"] then "UND"
  else
    let clean_subtopic := collapseWS (stripL ((pyStrip subtopic).data.filter
      (fun c => isAsciiAlnum c || c.isWhitespace)))
    if clean_subtopic = [] then "UND"
    else
      let words := pyWords clean_subtopic
      if words = [] then "UND"
      else if words.length = 1 then
        if (words.headD []).length ≤ 3 then
          ljust (String.mk ((words.headD []).map Char.toUpper)) 3 'X'
        else String.mk (((words.headD []).take 3).map Char.toUpper)
      else
        let abb := (words.take 3).map (fun w => (w.headD ' ').toUpper)
        let abb2 :=
          if abb.length < 3 ∧ (words.headD []).length > 1 then
            abb ++ (((words.headD []).drop 1).take (3 - abb.length)).map Char.toUpper
          else abb
        ljust (String.mk (abb2.take 3)) 3 'X'

/-- `IDGenerator.get_type_code` with default `'Q'`. -/
def get_type_code (question_type : String) : String :=
  (TYPE_CODES.lookup question_type).getD "Q"

/-- `IDGenerator.generate_question_id`:
`{TOPIC}-{SUBTOPIC}-{DIFFICULTY}-{TYPE}` (no sequence).  The pydantic
model guarantees a non-empty difficulty (`Basic`/`Advanced`); on an
empty string Python would raise where this model falls back to
`'X'`. -/
def generate_question_id (topic subtopic difficulty question_type : String) : String :=
  normalize_topic topic ++ "-" ++ normalize_subtopic subtopic ++ "-"
    ++ String.mk [(difficulty.data.headD 'X').toUpper] ++ "-"
    ++ get_type_code question_type

/-- The staged store of the C3 counterexample: fifty two-digit ids
`DCF-WAC-B-Q-50 … DCF-WAC-B-Q-99` (which fill the 50-row descending
window, hiding the numerically larger ids from `get_next_sequence`)
plus `DCF-WAC-B-Q-100 … DCF-WAC-B-Q-110`. -/
def exhaustedStore : List String :=
  (List.range 50).map (fun k => "DCF-WAC-B-Q-" ++ toString (50 + k))
  ++ (List.range 11).map (fun k => fmtId "DCF-WAC-B-Q" (100 + k))

lemma ensureLoop_spec (all staged : List String) (base : String) :
    ∀ n seq, (ensureLoop all staged base n seq ∉ all ∧
        ensureLoop all staged base n seq ∉ staged) ∨
      ensureLoop all staged base n seq = fmtId base (seq + n) := by
  intro n
  induction n with
  | zero => intro seq; exact Or.inr rfl
  | succ n ih =>
    intro seq
    by_cases h : fmtId base seq ∈ all ∨ fmtId base seq ∈ staged
    · rcases ih (seq + 1) with h' | h'
      · exact Or.inl (by simpa [ensureLoop, h] using h')
      · refine Or.inr ?_
        rw [show ensureLoop all staged base (n + 1) seq
            = ensureLoop all staged base n (seq + 1) by simp [ensureLoop, h], h']
        ring_nf
    · push_neg at h
      exact Or.inl (by simpa [ensureLoop, not_or.2 h] using h)

/-- Well-founded twin of `decDigitsFuel` for proofs. -/
def decDigitsSpec (n : Nat) : List Char :=
  if n < 10 then [Nat.digitChar n]
  else decDigitsSpec (n / 10) ++ [Nat.digitChar (n % 10)]
termination_by n
decreasing_by exact Nat.div_lt_self (by omega) (by omega)

lemma decDigitsFuel_eq : ∀ fuel n acc, n < fuel →
    decDigitsFuel fuel n acc = decDigitsSpec n ++ acc := by
  intro fuel
  induction fuel with
  | zero => intro n acc h; omega
  | succ fuel ih =>
    intro n acc h
    unfold decDigitsFuel
    split
    · next h10 =>
      rw [decDigitsSpec, if_pos h10]
      rfl
    · next h10 =>
      have hlt : n / 10 < fuel := by
        have := Nat.div_lt_self (show 0 < n by omega) (show 1 < 10 by omega)
        omega
      rw [ih (n / 10) _ hlt,
        show decDigitsSpec n = decDigitsSpec (n / 10) ++ [Nat.digitChar (n % 10)] from by
          rw [decDigitsSpec, if_neg h10],
        List.append_assoc]
      rfl

lemma decDigits_eq (n : Nat) : decDigits n = decDigitsSpec n := by
  rw [decDigits, decDigitsFuel_eq (n + 1) n [] (by omega), List.append_nil]

lemma digitChar_good : ∀ k, k < 10 →
    (Nat.digitChar k).isDigit = true ∧ Nat.digitChar k ≠ '-' ∧
    (Nat.digitChar k).toNat - '0'.toNat = k := by decide

lemma digitsToNat_append (xs : List Char) (c : Char) :
    digitsToNat (xs ++ [c]) = digitsToNat xs * 10 + (c.toNat - '0'.toNat) := by
  unfold digitsToNat
  rw [List.foldl_append]
  rfl

lemma decDigitsSpec_val (n : Nat) : digitsToNat (decDigitsSpec n) = n := by
  induction n using Nat.strong_induction_on with
  | _ n ih =>
    rw [decDigitsSpec]
    split
    · next h =>
      show digitsToNat [Nat.digitChar n] = n
      have hv := (digitChar_good n h).2.2
      unfold digitsToNat
      simpa using hv
    · next h =>
      rw [digitsToNat_append,
        ih (n / 10) (Nat.div_lt_self (by omega) (by omega)),
        (digitChar_good (n % 10) (Nat.mod_lt _ (by omega))).2.2]
      omega

lemma decDigitsSpec_no_dash (n : Nat) : ∀ c ∈ decDigitsSpec n, c ≠ '-' := by
  induction n using Nat.strong_induction_on with
  | _ n ih =>
    rw [decDigitsSpec]
    split
    · next h =>
      intro c hc
      rw [List.mem_singleton.1 hc]
      exact (digitChar_good n h).2.1
    · next h =>
      intro c hc
      rcases List.mem_append.1 hc with hc | hc
      · exact ih (n / 10) (Nat.div_lt_self (by omega) (by omega)) c hc
      · rw [List.mem_singleton.1 hc]
        exact (digitChar_good (n % 10) (Nat.mod_lt _ (by omega))).2.1

lemma digitsToNat_replicate_zero (k : Nat) (ds : List Char) :
    digitsToNat (List.replicate k '0' ++ ds) = digitsToNat ds := by
  induction k with
  | zero => rfl
  | succ k ih =>
    rw [List.replicate_succ, List.cons_append]
    show (List.replicate k '0' ++ ds).foldl
      (fun n c => n * 10 + (c.toNat - '0'.toNat)) (0 * 10 + ('0'.toNat - '0'.toNat)) = _
    simpa [digitsToNat] using ih

lemma pad3_data (n : Nat) :
    (pad3 n).data = List.replicate (3 - (decDigits n).length) '0' ++ decDigits n := by
  unfold pad3
  split
  · rfl
  · next h =>
    have hlen : (decDigits n).length ≥ 3 := by
      simpa [String.length] using h
    rw [show 3 - (decDigits n).length = 0 by omega]
    rfl

lemma pad3_val (n : Nat) : digitsToNat (pad3 n).data = n := by
  rw [pad3_data, digitsToNat_replicate_zero, decDigits_eq, decDigitsSpec_val]

lemma pad3_inj {a b : Nat} (h : pad3 a = pad3 b) : a = b := by
  have := congrArg (fun s : String => digitsToNat s.data) h
  simpa [pad3_val] using this

lemma pad3_no_dash (n : Nat) : ∀ c ∈ (pad3 n).data, c ≠ '-' := by
  rw [pad3_data]
  intro c hc
  rcases List.mem_append.1 hc with hc | hc
  · rw [List.eq_of_mem_replicate hc]
    decide
  · rw [decDigits_eq] at hc
    exact decDigitsSpec_no_dash n c hc

lemma append_dash_inj : ∀ (u1 u2 v1 v2 : List Char), ('-' ∉ u1) → ('-' ∉ u2) →
    u1 ++ '-' :: v1 = u2 ++ '-' :: v2 → u1 = u2 ∧ v1 = v2 := by
  intro u1
  induction u1 with
  | nil =>
    intro u2 v1 v2 _ h2 heq
    cases u2 with
    | nil => exact ⟨rfl, by simpa using heq⟩
    | cons c u2 =>
      exfalso
      have : c = '-' := by
        have := congrArg (fun l => l.headI) heq
        simpa using this.symm
      exact h2 (this ▸ List.mem_cons_self c u2)
  | cons c u1 ih =>
    intro u2 v1 v2 h1 h2 heq
    cases u2 with
    | nil =>
      exfalso
      have : c = '-' := by
        have := congrArg (fun l => l.headI) heq
        simpa using this
      exact h1 (this ▸ List.mem_cons_self c u1)
    | cons c2 u2 =>
      have hc : c = c2 := by
        have := congrArg (fun l => l.headI) heq
        simpa using this
      have htail : u1 ++ '-' :: v1 = u2 ++ '-' :: v2 := by
        have := congrArg List.tail heq
        simpa using this
      obtain ⟨hu, hv⟩ := ih u2 v1 v2 (fun hm => h1 (List.mem_cons_of_mem _ hm))
        (fun hm => h2 (List.mem_cons_of_mem _ hm)) htail
      exact ⟨by rw [hc, hu], hv⟩

lemma string_data_inj {s1 s2 : String} (h : s1.data = s2.data) : s1 = s2 := by
  cases s1
  cases s2
  exact congrArg String.mk h

lemma fmtId_data (b : String) (s : Nat) :
    (fmtId b s).data = b.data ++ '-' :: (pad3 s).data := by
  show (b.data ++ "-".data) ++ (pad3 s).data = _
  simp

/-- The id format `base-SSS` decomposes uniquely at the final dash,
because the sequence part contains no dash. -/
lemma fmtId_inj {b1 b2 : String} {s1 s2 : Nat} (h : fmtId b1 s1 = fmtId b2 s2) :
    b1 = b2 ∧ s1 = s2 := by
  have hdata := congrArg String.data h
  rw [fmtId_data, fmtId_data] at hdata
  have hrev := congrArg List.reverse hdata
  rw [List.reverse_append, List.reverse_cons, List.reverse_append, List.reverse_cons,
    List.append_assoc, List.append_assoc] at hrev
  simp only [List.singleton_append] at hrev
  obtain ⟨hp, hb⟩ := append_dash_inj _ _ _ _
    (fun hm => pad3_no_dash s1 '-' (List.mem_reverse.1 hm) rfl)
    (fun hm => pad3_no_dash s2 '-' (List.mem_reverse.1 hm) rfl) hrev
  constructor
  · exact string_data_inj (List.reverse_injective hb)
  · exact pad3_inj (string_data_inj (List.reverse_injective hp))

end IDGenerator

/-! ## Staging workflow (`services/staging_service.py`,
`routers/staging.py`)

The three Supabase tables `upload_batches`, `staged_questions` and
`all_questions` (plus `staging_duplicates`) are modelled as lists of
rows; `UPDATE … eq(…)` is a map over the list, `INSERT` appends, and a
unique-key violation on insert is an explicit membership test.
Free-text/audit columns (reviewer, notes, timestamps) do not influence
any claim and are not carried; `review_started_at IS NULL` is carried
as a Boolean.  Operations that `raise` are modelled with `Option`
(`none` = exception propagated to the caller). -/

namespace StagingService

inductive BatchStatus
  | pending | reviewing | completed | cancelled
  deriving Repr, DecidableEq

inductive QuestionStatus
  | pending | approved | rejected | duplicate | imported
  deriving Repr, DecidableEq

inductive DuplicateResolution
  | keep_existing | replace | keep_both | pending
  deriving Repr, DecidableEq

structure UploadBatch where
  batch_id : String
  total_questions : Nat
  questions_pending : Nat
  questions_approved : Nat
  questions_rejected : Nat
  questions_duplicate : Nat
  status : BatchStatus
  review_started : Bool
  deriving Repr, DecidableEq

structure StagedQuestion where
  question_id : String
  upload_batch_id : String
  topic : String
  subtopic : String
  question : String
  answer : String
  status : QuestionStatus
  duplicate_of : Option String
  similarity_score : Option ℚ
  deriving Repr, DecidableEq

/-- A row of the production table `all_questions` (content fields that
no claim inspects are omitted). -/
structure ProductionQuestion where
  question_id : String
  question : String
  deriving Repr, DecidableEq

structure StagingDuplicate where
  duplicate_id : String
  staged_question_id : String
  existing_question_id : String
  similarity_score : ℚ
  resolution : DuplicateResolution
  deriving Repr, DecidableEq

structure DB where
  upload_batches : List UploadBatch
  staged_questions : List StagedQuestion
  all_questions : List ProductionQuestion
  staging_duplicates : List StagingDuplicate
  deriving Repr, DecidableEq

/-- Rows of a staged-question list belonging to one batch. -/
def rowsOfL (staged : List StagedQuestion) (batch_id : String) : List StagedQuestion :=
  staged.filter (fun q => q.upload_batch_id == batch_id)

/-- Rows of `staged_questions` belonging to one batch. -/
def rowsOf (db : DB) (batch_id : String) : List StagedQuestion :=
  rowsOfL db.staged_questions batch_id

def countStatus (rows : List StagedQuestion) (s : QuestionStatus) : Nat :=
  (rows.filter (fun q => q.status == s)).length

/-- Apply `f` to the batch row with the given id
(`table("upload_batches").update(...).eq("batch_id", …)`). -/
def updateBatch (db : DB) (batch_id : String) (f : UploadBatch → UploadBatch) : DB :=
  { db with upload_batches :=
      db.upload_batches.map (fun b => if b.batch_id == batch_id then f b else b) }

/-- Apply `f` to every staged row satisfying `p`. -/
def updateStaged (db : DB) (p : StagedQuestion → Bool) (f : StagedQuestion → StagedQuestion) : DB :=
  { db with staged_questions :=
      db.staged_questions.map (fun q => if p q then f q else q) }

/-- `StagingService.update_batch_counts`: recount the four
status-counters from the batch's staged rows — `Imported` rows are
counted by none of the four — and store them on the batch; if the
batch has no staged rows the function returns without touching the
batch. -/
def update_batch_counts (batch_id : String) (db : DB) : DB :=
  if (rowsOf db batch_id).isEmpty then db
  else updateBatch db batch_id (fun b =>
    { b with
      questions_pending := countStatus (rowsOf db batch_id) .pending
      questions_approved := countStatus (rowsOf db batch_id) .approved
      questions_rejected := countStatus (rowsOf db batch_id) .rejected
      questions_duplicate := countStatus (rowsOf db batch_id) .duplicate })

/-- Shared tail of `approve_questions`: move the batch to `Reviewing`
and mark review started if `review_started_at` was still null. -/
def markReviewStarted (batch_id : String) (db : DB) : DB :=
  match db.upload_batches.find? (fun b => b.batch_id == batch_id) with
  | some b =>
      if b.review_started then db
      else updateBatch db batch_id
        (fun b => { b with status := .reviewing, review_started := true })
  | none => db

/-- The row filter of `approve_questions`/`reject_questions`:
`eq("upload_batch_id", batch_id).in_("question_id", question_ids)`.
There is no condition on the row's current status. -/
def reviewTarget (bid : String) (ids : List String) (q : StagedQuestion) : Bool :=
  q.upload_batch_id == bid && ids.contains q.question_id

/-- `StagingService.approve_questions`: set every row of the batch
whose id is listed to `Approved` (no condition on its current status),
raise (`none`) if no row matched, then refresh the counters and mark
the review started. -/
def approve_questions (batch_id : String) (question_ids : List String) (db : DB) :
    Option DB :=
  if (db.staged_questions.filter (reviewTarget batch_id question_ids)).isEmpty then none
  else some (markReviewStarted batch_id (update_batch_counts batch_id
    (updateStaged db (reviewTarget batch_id question_ids)
      (fun q => { q with status := .approved }))))

/-- `StagingService.reject_questions`: as `approve_questions` with
status `Rejected` (and no review-started update). -/
def reject_questions (batch_id : String) (question_ids : List String) (db : DB) :
    Option DB :=
  if (db.staged_questions.filter (reviewTarget batch_id question_ids)).isEmpty then none
  else some (update_batch_counts batch_id
    (updateStaged db (reviewTarget batch_id question_ids)
      (fun q => { q with status := .rejected })))

/-- One `similar_result` row of the `find_similar_questions` RPC: an
existing question id and its similarity score.  The RPC itself is a
database-side function outside this repository, so `detect_duplicates`
is parametrised by it. -/
abbrev SimilarOracle := StagedQuestion → List (String × ℚ)

/-- The `Pending` rows of the batch, as selected by both detection
paths before their loops. -/
def pendingSnapshot (db : DB) (bid : String) : List StagedQuestion :=
  (rowsOf db bid).filter (fun q => q.status == .pending)

/-- Inner loop of `detect_duplicates`: one oracle match for `srow`
appends a `staging_duplicates` record and rewrites the staged row to
`Duplicate` with the match id and score (`round(…, 3)` on the float
score is not modelled — no claim inspects rounding). -/
def detectInner (srow : StagedQuestion)
    (acc2 : DB × List StagingDuplicate × List String) (simr : String × ℚ) :
    DB × List StagingDuplicate × List String :=
  (updateStaged acc2.1 (fun q => q.question_id == srow.question_id)
      (fun q => { q with status := .duplicate, duplicate_of := some simr.1,
                         similarity_score := some simr.2 }),
   acc2.2.1 ++ [{ duplicate_id := "dup_" ++ toString (acc2.2.1.length + 1)
                  staged_question_id := srow.question_id
                  existing_question_id := simr.1
                  similarity_score := simr.2
                  resolution := .pending }],
   acc2.2.2 ++ [srow.question_id])

/-- Outer loop of `detect_duplicates`: skip rows already marked in
this pass, otherwise process every oracle match. -/
def detectOuter (similar : SimilarOracle)
    (acc : DB × List StagingDuplicate × List String) (srow : StagedQuestion) :
    DB × List StagingDuplicate × List String :=
  if acc.2.2.contains srow.question_id then acc
  else (similar srow).foldl (detectInner srow) acc

/-- `StagingService.detect_duplicates` (primary path): walk the
snapshot of the batch's `Pending` rows, run the per-row oracle loop,
append the collected duplicate records, and refresh the batch
counters.  An empty snapshot returns before any write. -/
def detect_duplicates (batch_id : String) (similar : SimilarOracle) (db : DB) : DB :=
  if (pendingSnapshot db batch_id).isEmpty then db
  else
    update_batch_counts batch_id
      { ((pendingSnapshot db batch_id).foldl (detectOuter similar) (db, [], [])).1 with
        staging_duplicates :=
          ((pendingSnapshot db batch_id).foldl (detectOuter similar) (db, [], [])).1.staging_duplicates
          ++ ((pendingSnapshot db batch_id).foldl (detectOuter similar) (db, [], [])).2.1 }

/-- Loop body of `_detect_duplicates_fallback`: a staged row is marked
`Duplicate` (score fixed at `1.0`) against the first existing row
whose `question` text matches exactly after `lower().strip()`, and
the scan of further existing rows stops (`break`). -/
def fallbackBody (existing : List ProductionQuestion)
    (acc : DB × List StagingDuplicate) (srow : StagedQuestion) :
    DB × List StagingDuplicate :=
  match existing.find? (fun e =>
      pyStrip (pyLower srow.question) == pyStrip (pyLower e.question)) with
  | none => acc
  | some e =>
      (updateStaged acc.1 (fun q => q.question_id == srow.question_id)
          (fun q => { q with status := .duplicate, duplicate_of := some e.question_id,
                             similarity_score := some 1 }),
       acc.2 ++ [{ duplicate_id := "dup_" ++ toString (acc.2.length + 1)
                   staged_question_id := srow.question_id
                   existing_question_id := e.question_id
                   similarity_score := 1
                   resolution := .pending }])

/-- `StagingService._detect_duplicates_fallback`: the `threshold`
argument is accepted but unused.  An empty pending snapshot or an
empty `all_questions` table returns before any write; otherwise the
per-row exact-match loop runs, the collected duplicate records are
appended and the batch counters refreshed. -/
def detect_duplicates_fallback (batch_id : String) (_threshold : ℚ) (db : DB) : DB :=
  if (pendingSnapshot db batch_id).isEmpty then db
  else if db.all_questions.isEmpty then db
  else
    update_batch_counts batch_id
      { ((pendingSnapshot db batch_id).foldl (fallbackBody db.all_questions) (db, [])).1 with
        staging_duplicates :=
          ((pendingSnapshot db batch_id).foldl (fallbackBody db.all_questions) (db, [])).1.staging_duplicates
          ++ ((pendingSnapshot db batch_id).foldl (fallbackBody db.all_questions) (db, [])).2 }

/-- `resolve_duplicate`, record side: store the chosen resolution on
the duplicate record. -/
def resolveRecord (duplicate_id : String) (resolution : DuplicateResolution) (db : DB) : DB :=
  { db with staging_duplicates :=
      db.staging_duplicates.map (fun d =>
        if d.duplicate_id == duplicate_id then { d with resolution := resolution } else d) }

/-- `resolve_duplicate`, staged-row side: the resolution mapping
KeepExisting→Rejected, Replace→Approved, KeepBoth→Approved with the
duplicate link cleared; a `Pending` resolution leaves the row alone
(no `elif` branch matches). -/
def resolveRow (sid : String) (resolution : DuplicateResolution) (db : DB) : DB :=
  match resolution with
  | .keep_existing => updateStaged db (fun q => q.question_id == sid)
      (fun q => { q with status := .rejected })
  | .replace => updateStaged db (fun q => q.question_id == sid)
      (fun q => { q with status := .approved })
  | .keep_both => updateStaged db (fun q => q.question_id == sid)
      (fun q => { q with status := .approved, duplicate_of := none,
                         similarity_score := none })
  | .pending => db

/-- `resolve_duplicate` (staging router): 404 (`none`) when the
duplicate record is missing; otherwise store the resolution on the
record, rewrite the staged row per the resolution mapping, and refresh
the counters of the batch of the staged row.  A missing staged row
makes the batch lookup raise (`none`). -/
def resolve_duplicate (duplicate_id : String) (resolution : DuplicateResolution) (db : DB) :
    Option DB :=
  match db.staging_duplicates.find? (fun d => d.duplicate_id == duplicate_id) with
  | none => none
  | some dup =>
      match (resolveRow dup.staged_question_id resolution
          (resolveRecord duplicate_id resolution db)).staged_questions.find?
          (fun q => q.question_id == dup.staged_question_id) with
      | some row => some (update_batch_counts row.upload_batch_id
          (resolveRow dup.staged_question_id resolution
            (resolveRecord duplicate_id resolution db)))
      | none => none

/-- The summary `import_approved` returns. -/
structure ImportResult where
  imported_ids : List String
  failed_ids : List String
  errors : List (String × String)
  deriving Repr, DecidableEq

/-- One iteration of the import loop: insert the staged row into
`all_questions` — the insert violates the table's unique key iff the
id is already present, which is recorded as a failure and does not
stop the loop — and on success mark the staged row `Imported`. -/
def importRow (acc : DB × ImportResult) (srow : StagedQuestion) : DB × ImportResult :=
  if (acc.1.all_questions.map (fun e => e.question_id)).contains srow.question_id then
    (acc.1, { acc.2 with failed_ids := acc.2.failed_ids ++ [srow.question_id]
                         errors := acc.2.errors ++ [(srow.question_id, "Insert failed")] })
  else
    (updateStaged
        { acc.1 with all_questions := acc.1.all_questions ++
            [{ question_id := srow.question_id, question := srow.question }] }
        (fun q => q.question_id == srow.question_id)
        (fun q => { q with status := .imported }),
     { acc.2 with imported_ids := acc.2.imported_ids ++ [srow.question_id] })

/-- First write of `import_approved`: the batch is set to `Reviewing`
(and `import_started_at` stamped, not modelled). -/
def importReviewing (batch_id : String) (db : DB) : DB :=
  updateBatch db batch_id (fun b => { b with status := .reviewing })

/-- The batch's `Approved` rows, snapshot by `import_approved` (the
preceding batch-status write does not touch staged rows). -/
def approvedSnapshot (db : DB) (bid : String) : List StagedQuestion :=
  (rowsOf db bid).filter (fun q => q.status == .approved)

/-- `StagingService.import_approved`: set the batch to `Reviewing`,
snapshot the batch's `Approved` rows, and — if the snapshot is empty —
return a zero summary at once (leaving the batch `Reviewing` and the
counters untouched); otherwise run the per-row import loop, set the
final batch status (`Completed` iff no failure, else `Cancelled`) and
refresh the counters. -/
def import_approved (batch_id : String) (db : DB) : DB × ImportResult :=
  if (approvedSnapshot db batch_id).isEmpty then
    (importReviewing batch_id db, ⟨[], [], []⟩)
  else
    (update_batch_counts batch_id
      (updateBatch
        ((approvedSnapshot db batch_id).foldl importRow
          (importReviewing batch_id db, ⟨[], [], []⟩)).1
        batch_id
        (fun b => { b with status :=
          if ((approvedSnapshot db batch_id).foldl importRow
              (importReviewing batch_id db, ⟨[], [], []⟩)).2.failed_ids.isEmpty
          then .completed else .cancelled })),
     ((approvedSnapshot db batch_id).foldl importRow
        (importReviewing batch_id db, ⟨[], [], []⟩)).2)

/-- The staging-workflow operations that touch a batch's questions. -/
inductive Op
  | approve (batch_id : String) (question_ids : List String)
  | reject (batch_id : String) (question_ids : List String)
  | detect (batch_id : String) (similar : SimilarOracle)
  | detectFallback (batch_id : String) (threshold : ℚ)
  | resolve (duplicate_id : String) (resolution : DuplicateResolution)
  | importApproved (batch_id : String)

/-- Effect of one operation on the store (`none` = the Python call
raised). -/
def step : Op → DB → Option DB
  | .approve b ids, db => approve_questions b ids db
  | .reject b ids, db => reject_questions b ids db
  | .detect b similar, db => some (detect_duplicates b similar db)
  | .detectFallback b t, db => some (detect_duplicates_fallback b t db)
  | .resolve d r, db => resolve_duplicate d r db
  | .importApproved b, db => some (import_approved b db).1

/-- The store's primary keys: staged and production question ids are
each unique in their table. -/
def wellFormed (db : DB) : Prop :=
  (db.staged_questions.map (fun q => q.question_id)).Nodup ∧
  (db.all_questions.map (fun e => e.question_id)).Nodup

/-- The four counters of a batch row agree with the status counts of
its staged rows. -/
def goodCounts (staged : List StagedQuestion) (b : UploadBatch) : Prop :=
  b.questions_pending = countStatus (rowsOfL staged b.batch_id) .pending ∧
  b.questions_approved = countStatus (rowsOfL staged b.batch_id) .approved ∧
  b.questions_rejected = countStatus (rowsOfL staged b.batch_id) .rejected ∧
  b.questions_duplicate = countStatus (rowsOfL staged b.batch_id) .duplicate

/-- Every batch row's counters agree with its rows. -/
def countersInv (db : DB) : Prop :=
  ∀ b ∈ db.upload_batches, goodCounts db.staged_questions b

/-! ### Structural lemmas about the staging operations -/

lemma filter_map_of_pred_eq {α : Type} (l : List α) (g : α → α) (p : α → Bool)
    (h : ∀ a ∈ l, p (g a) = p a) : (l.map g).filter p = (l.filter p).map g := by
  induction l with
  | nil => simp
  | cons a l ih =>
    simp only [List.map_cons, List.filter_cons, h a (List.mem_cons_self a l)]
    cases hp : p a <;>
      simp [hp, ih (fun a ha => h a (List.mem_cons_of_mem _ ha))]

/-- A status-only rewrite of staged rows commutes with selecting a
batch's rows. -/
lemma rowsOfL_map (staged : List StagedQuestion) (g : StagedQuestion → StagedQuestion)
    (hg : ∀ q ∈ staged, (g q).upload_batch_id = q.upload_batch_id) (bid : String) :
    rowsOfL (staged.map g) bid = (rowsOfL staged bid).map g := by
  unfold rowsOfL
  exact filter_map_of_pred_eq staged g _ (fun a ha => by rw [hg a ha])

/-- An update whose predicate only selects rows of batch `bid` leaves
every other batch's rows untouched. -/
lemma rowsOfL_update_other (staged : List StagedQuestion)
    (p : StagedQuestion → Bool) (f : StagedQuestion → StagedQuestion)
    (hf : ∀ q, (f q).upload_batch_id = q.upload_batch_id)
    (hp : ∀ q ∈ staged, p q = true → q.upload_batch_id = bid)
    (hne : bid' ≠ bid) :
    rowsOfL (staged.map (fun q => if p q then f q else q)) bid' = rowsOfL staged bid' := by
  rw [rowsOfL_map staged _ (fun q _ => by by_cases h : p q <;> simp [h, hf])]
  have : ∀ q ∈ rowsOfL staged bid', (if p q then f q else q) = q := by
    intro q hq
    have hmem : q ∈ staged := List.mem_of_mem_filter hq
    have hbid' : q.upload_batch_id = bid' := by
      have := List.of_mem_filter hq
      simpa [beq_iff_eq] using this
    split
    · exact absurd (hp q hmem (by assumption)) (by simp [hbid', hne])
    · rfl
  calc (rowsOfL staged bid').map (fun q => if p q then f q else q)
      = (rowsOfL staged bid').map (fun q => q) := List.map_congr_left this
    _ = rowsOfL staged bid' := List.map_id' _

lemma update_batch_counts_staged (batch_id : String) (db : DB) :
    (update_batch_counts batch_id db).staged_questions = db.staged_questions := by
  unfold update_batch_counts
  split <;> rfl

lemma update_batch_counts_all (batch_id : String) (db : DB) :
    (update_batch_counts batch_id db).all_questions = db.all_questions := by
  unfold update_batch_counts
  split <;> rfl

/-- After `update_batch_counts`, every batch row whose other-batch
counters were already correct is correct, and the recounted batch is
correct whenever it has at least one staged row. -/
lemma countersInv_update_batch_counts (batch_id : String) (db : DB)
    (hother : ∀ b ∈ db.upload_batches, b.batch_id ≠ batch_id →
      goodCounts db.staged_questions b)
    (hbid : ∀ b ∈ db.upload_batches, b.batch_id = batch_id →
      rowsOf db batch_id = [] → goodCounts db.staged_questions b) :
    countersInv (update_batch_counts batch_id db) := by
  intro b hb
  rw [update_batch_counts_staged]
  unfold update_batch_counts at hb
  split at hb
  · next hempty =>
    rcases List.isEmpty_iff.1 (by simpa using hempty) with h
    by_cases hid : b.batch_id = batch_id
    · exact hbid b hb hid h
    · exact hother b hb hid
  · next hnonempty =>
    simp only [updateBatch, List.mem_map] at hb
    obtain ⟨b0, hb0, rfl⟩ := hb
    by_cases hid : b0.batch_id = batch_id
    · simp only [hid, beq_self_eq_true, if_pos]
      refine ⟨rfl, rfl, rfl, rfl⟩
    · rw [if_neg (by simpa using hid)]
      exact hother b0 hb0 hid

/-- `h` rewrites staged rows in place: ids and batch membership are
preserved, and rows of `staged` whose id is outside `ids` are
untouched. -/
structure RowTransform (staged : List StagedQuestion)
    (h : StagedQuestion → StagedQuestion) (ids : List String) : Prop where
  id_eq : ∀ q, (h q).question_id = q.question_id
  batch_eq : ∀ q, (h q).upload_batch_id = q.upload_batch_id
  off : ∀ q ∈ staged, q.question_id ∉ ids → h q = q

lemma RowTransform.id (staged : List StagedQuestion) (ids : List String) :
    RowTransform staged (fun q => q) ids :=
  ⟨fun _ => rfl, fun _ => rfl, fun _ _ _ => rfl⟩

/-- Composing a transform with one more id-targeted conditional update
(`updateStaged` by `question_id`) stays a transform, provided the
targeted id is in `ids`. -/
lemma RowTransform.comp {staged : List StagedQuestion}
    {h : StagedQuestion → StagedQuestion} {ids : List String}
    (ht : RowTransform staged h ids) (tid : String) (htid : tid ∈ ids)
    (f : StagedQuestion → StagedQuestion)
    (hfid : ∀ q, (f q).question_id = q.question_id)
    (hfb : ∀ q, (f q).upload_batch_id = q.upload_batch_id) :
    RowTransform staged (fun q => if (h q).question_id == tid then f (h q) else h q) ids := by
  refine ⟨?_, ?_, ?_⟩
  · intro q
    split
    · rw [hfid, ht.id_eq]
    · exact ht.id_eq q
  · intro q
    split
    · rw [hfb, ht.batch_eq]
    · exact ht.batch_eq q
  · intro q hmem hq
    have h1 : h q = q := ht.off q hmem hq
    have h2 : ¬ (q.question_id == tid) := by
      simp only [beq_iff_eq]
      rintro rfl
      exact hq htid
    simp [h1, h2]

/-- A transform that widens its set of touched ids stays a transform. -/
lemma RowTransform.mono {staged : List StagedQuestion}
    {h : StagedQuestion → StagedQuestion} {ids ids2 : List String}
    (ht : RowTransform staged h ids) (hsub : ∀ s ∈ ids, s ∈ ids2) :
    RowTransform staged h ids2 :=
  ⟨ht.id_eq, ht.batch_eq, fun q hm hq => ht.off q hm (fun hin => hq (hsub _ hin))⟩

lemma goodCounts_congr {staged1 staged2 : List StagedQuestion} (b : UploadBatch)
    (h : rowsOfL staged1 b.batch_id = rowsOfL staged2 b.batch_id) :
    goodCounts staged1 b ↔ goodCounts staged2 b := by
  unfold goodCounts
  rw [h]

/-- Under the staged primary key, an in-place transform whose touched
ids all belong to batch `bid` leaves every other batch's rows
untouched. -/
lemma rowsOfL_transform_other {staged : List StagedQuestion}
    {h : StagedQuestion → StagedQuestion} {S : List String}
    (ht : RowTransform staged h S)
    (hwf : (staged.map (fun q => q.question_id)).Nodup)
    (hS : ∀ s ∈ S, ∃ q ∈ rowsOfL staged bid, q.question_id = s)
    (hne : bid' ≠ bid) :
    rowsOfL (staged.map h) bid' = rowsOfL staged bid' := by
  rw [rowsOfL_map staged h (fun q _ => ht.batch_eq q)]
  have key : ∀ q ∈ rowsOfL staged bid', h q = q := by
    intro q hq
    have hmem : q ∈ staged := List.mem_of_mem_filter hq
    have hbid' : q.upload_batch_id = bid' := by
      simpa [beq_iff_eq] using (List.of_mem_filter hq)
    refine ht.off q hmem ?_
    intro hin
    obtain ⟨q0, hq0, hq0id⟩ := hS _ hin
    have hmem0 : q0 ∈ staged := List.mem_of_mem_filter hq0
    have hbid0 : q0.upload_batch_id = bid := by
      simpa [beq_iff_eq] using (List.of_mem_filter hq0)
    have : q = q0 :=
      List.inj_on_of_nodup_map hwf hmem hmem0 (by rw [hq0id])
    rw [this, hbid0] at hbid'
    exact hne hbid'.symm
  calc (rowsOfL staged bid').map h
      = (rowsOfL staged bid').map (fun q => q) := List.map_congr_left key
    _ = rowsOfL staged bid' := List.map_id' _

/-- Transforms keep the length of a batch's row list, hence its
(non-)emptiness. -/
lemma rowsOfL_transform_length {staged : List StagedQuestion}
    {h : StagedQuestion → StagedQuestion}
    (hb : ∀ q, (h q).upload_batch_id = q.upload_batch_id) (bid : String) :
    (rowsOfL (staged.map h) bid).length = (rowsOfL staged bid).length := by
  rw [rowsOfL_map staged h (fun q _ => hb q), List.length_map]

/-- The main counters lemma: starting from a store whose counters are
all correct, rewriting rows of batch `bid` in place and then running
`update_batch_counts bid` restores all counters, provided the batch
still has at least one row. -/
lemma countersInv_transform (db db2 : DB) (h : StagedQuestion → StagedQuestion)
    (S : List String) (bid : String)
    (hstaged : db2.staged_questions = db.staged_questions.map h)
    (hbatches : ∀ b ∈ db2.upload_batches, goodCounts db.staged_questions b)
    (ht : RowTransform db.staged_questions h S)
    (hwf : (db.staged_questions.map (fun q => q.question_id)).Nodup)
    (hS : ∀ s ∈ S, ∃ q ∈ rowsOf db bid, q.question_id = s)
    (hne : rowsOf db bid ≠ []) :
    countersInv (update_batch_counts bid db2) := by
  apply countersInv_update_batch_counts
  · intro b hb hbne
    rw [hstaged, goodCounts_congr b (rowsOfL_transform_other ht hwf hS hbne)]
    exact hbatches b hb
  · intro b _ _ hempty
    exfalso
    apply hne
    have hlen := @rowsOfL_transform_length db.staged_questions h ht.batch_eq bid
    have hempty' : rowsOfL (db.staged_questions.map h) bid = [] := by
      have : rowsOf db2 bid = rowsOfL (db.staged_questions.map h) bid := by
        unfold rowsOf
        rw [hstaged]
      rw [← this, hempty]
    rw [hempty'] at hlen
    exact List.length_eq_zero.1 hlen.symm

/-- Batch updates that keep id and the four counters keep the counter
invariant (relative to any staged list). -/
lemma goodCounts_updateBatch (db : DB) (bid : String) (g : UploadBatch → UploadBatch)
    (staged : List StagedQuestion)
    (hg : ∀ b, (g b).batch_id = b.batch_id ∧
      (g b).questions_pending = b.questions_pending ∧
      (g b).questions_approved = b.questions_approved ∧
      (g b).questions_rejected = b.questions_rejected ∧
      (g b).questions_duplicate = b.questions_duplicate)
    (hinv : ∀ b ∈ db.upload_batches, goodCounts staged b) :
    ∀ b ∈ (updateBatch db bid g).upload_batches, goodCounts staged b := by
  intro b hb
  simp only [updateBatch, List.mem_map] at hb
  obtain ⟨b0, hb0, rfl⟩ := hb
  split
  · obtain ⟨h1, h2, h3, h4, h5⟩ := hg b0
    unfold goodCounts at *
    rw [h1, h2, h3, h4, h5]
    exact hinv b0 hb0
  · exact hinv b0 hb0

lemma markReviewStarted_staged (bid : String) (db : DB) :
    (markReviewStarted bid db).staged_questions = db.staged_questions := by
  unfold markReviewStarted
  split <;> try rfl
  split <;> rfl

lemma markReviewStarted_all (bid : String) (db : DB) :
    (markReviewStarted bid db).all_questions = db.all_questions := by
  unfold markReviewStarted
  split <;> try rfl
  split <;> rfl

lemma countersInv_markReviewStarted (bid : String) (db : DB)
    (hinv : countersInv db) : countersInv (markReviewStarted bid db) := by
  unfold countersInv at *
  rw [markReviewStarted_staged]
  unfold markReviewStarted
  split
  · next b0 _ =>
    split
    · exact hinv
    · exact goodCounts_updateBatch db bid _ db.staged_questions
        (fun b => ⟨rfl, rfl, rfl, rfl, rfl⟩) hinv
  · exact hinv

lemma ids_map_map (staged : List StagedQuestion) (h : StagedQuestion → StagedQuestion)
    (hid : ∀ q, (h q).question_id = q.question_id) :
    (staged.map h).map (fun q => q.question_id) = staged.map (fun q => q.question_id) := by
  rw [List.map_map]
  exact List.map_congr_left (fun q _ => hid q)

/-! ### `approve_questions` / `reject_questions` -/

lemma reviewTarget_batch {bid : String} {ids : List String} {q : StagedQuestion}
    (h : reviewTarget bid ids q = true) : q.upload_batch_id = bid := by
  simp only [reviewTarget, Bool.and_eq_true, beq_iff_eq] at h
  exact h.1

lemma approve_questions_eq (bid : String) (ids : List String) (db db' : DB)
    (h : approve_questions bid ids db = some db') :
    db.staged_questions.filter (reviewTarget bid ids) ≠ [] ∧
    db' = markReviewStarted bid (update_batch_counts bid
      (updateStaged db (reviewTarget bid ids) (fun q => { q with status := .approved }))) := by
  unfold approve_questions at h
  split at h
  · exact absurd h (by simp)
  · next hne =>
    exact ⟨fun hc => hne (by simp [reviewTarget] at hc ⊢; exact hc), (Option.some.inj h).symm⟩

lemma reject_questions_eq (bid : String) (ids : List String) (db db' : DB)
    (h : reject_questions bid ids db = some db') :
    db.staged_questions.filter (reviewTarget bid ids) ≠ [] ∧
    db' = update_batch_counts bid
      (updateStaged db (reviewTarget bid ids) (fun q => { q with status := .rejected })) := by
  unfold reject_questions at h
  split at h
  · exact absurd h (by simp)
  · next hne =>
    exact ⟨fun hc => hne (by simp [reviewTarget] at hc ⊢; exact hc), (Option.some.inj h).symm⟩

/-- The batch-targeted conditional updates are row transforms touching
only ids of matching rows. -/
lemma reviewUpdate_transform (db : DB) (p : StagedQuestion → Bool)
    (f : StagedQuestion → StagedQuestion)
    (hid : ∀ q, (f q).question_id = q.question_id)
    (hb : ∀ q, (f q).upload_batch_id = q.upload_batch_id) :
    RowTransform db.staged_questions (fun q => if p q then f q else q)
      ((db.staged_questions.filter p).map (fun q => q.question_id)) := by
  refine ⟨?_, ?_, ?_⟩
  · intro q
    split
    · exact hid q
    · rfl
  · intro q
    split
    · exact hb q
    · rfl
  · intro q hmem hq
    have : ¬ p q = true := by
      intro hp
      exact hq (List.mem_map_of_mem _ (List.mem_filter.2 ⟨hmem, hp⟩))
    simp [this]

lemma countersInv_reviewUpdate (db : DB) (bid : String) (p : StagedQuestion → Bool)
    (f : StagedQuestion → StagedQuestion)
    (hid : ∀ q, (f q).question_id = q.question_id)
    (hb : ∀ q, (f q).upload_batch_id = q.upload_batch_id)
    (hp : ∀ q ∈ db.staged_questions, p q = true → q.upload_batch_id = bid)
    (hwf : wellFormed db) (hinv : countersInv db)
    (hne : db.staged_questions.filter p ≠ []) :
    countersInv (update_batch_counts bid (updateStaged db p f)) := by
  obtain ⟨q0, hq0⟩ := List.exists_mem_of_ne_nil _ hne
  have hq0s : q0 ∈ db.staged_questions := List.mem_of_mem_filter hq0
  have hq0p : p q0 = true := List.of_mem_filter hq0
  have hq0b : q0.upload_batch_id = bid := hp q0 hq0s hq0p
  apply countersInv_transform db (updateStaged db p f) _
    ((db.staged_questions.filter p).map (fun q => q.question_id)) bid
  · rfl
  · exact hinv
  · exact reviewUpdate_transform db p f hid hb
  · exact hwf.1
  · intro s hs
    obtain ⟨q1, hq1, rfl⟩ := List.mem_map.1 hs
    have hq1s : q1 ∈ db.staged_questions := List.mem_of_mem_filter hq1
    have hq1b : q1.upload_batch_id = bid := hp q1 hq1s (List.of_mem_filter hq1)
    exact ⟨q1, List.mem_filter.2 ⟨hq1s, by simp [hq1b]⟩, rfl⟩
  · intro hc
    have : q0 ∈ rowsOf db bid := List.mem_filter.2 ⟨hq0s, by simp [hq0b]⟩
    rw [hc] at this
    exact List.not_mem_nil q0 this

lemma wellFormed_reviewUpdate (db : DB) (bid : String) (p : StagedQuestion → Bool)
    (f : StagedQuestion → StagedQuestion)
    (hid : ∀ q, (f q).question_id = q.question_id)
    (hwf : wellFormed db) :
    wellFormed (update_batch_counts bid (updateStaged db p f)) := by
  constructor
  · rw [update_batch_counts_staged]
    show ((db.staged_questions.map
      (fun q => if p q then f q else q)).map (fun q => q.question_id)).Nodup
    rw [ids_map_map _ _ (fun q => by by_cases hc : p q <;> simp [hc, hid])]
    exact hwf.1
  · rw [update_batch_counts_all]
    exact hwf.2

/-! ### The duplicate-detection and import folds -/

/-- Invariant carried through the detection folds: batches and
production rows untouched, staged rows rewritten in place touching
only ids in `S`. -/
def DetectAcc (db : DB) (S : List String) (d : DB) : Prop :=
  d.upload_batches = db.upload_batches ∧
  d.all_questions = db.all_questions ∧
  ∃ h, RowTransform db.staged_questions h S ∧
    d.staged_questions = db.staged_questions.map h

lemma DetectAcc.init (db : DB) (S : List String) : DetectAcc db S db :=
  ⟨rfl, rfl, fun q => q, RowTransform.id _ _, (List.map_id' _).symm⟩

/-- One id-targeted `updateStaged` keeps the invariant when the
targeted id is in `S`. -/
lemma DetectAcc.update {db : DB} {S : List String} {d : DB}
    (hd : DetectAcc db S d) (tid : String) (htid : tid ∈ S)
    (f : StagedQuestion → StagedQuestion)
    (hfid : ∀ q, (f q).question_id = q.question_id)
    (hfb : ∀ q, (f q).upload_batch_id = q.upload_batch_id) :
    DetectAcc db S (updateStaged d (fun q => q.question_id == tid) f) := by
  obtain ⟨hb, ha, h, ht, hs⟩ := hd
  refine ⟨hb, ha, fun q => if (h q).question_id == tid then f (h q) else h q,
    ht.comp tid htid f hfid hfb, ?_⟩
  show d.staged_questions.map _ = _
  rw [hs, List.map_map]
  rfl

/-- Assembling lemma for both detection paths and the import loop:
after an in-place rewrite of rows of batch `bid`,
`update_batch_counts bid` restores every counter, keys stay unique,
and the final staged list is the rewrite itself. -/
lemma detect_post (db d : DB) (h : StagedQuestion → StagedQuestion)
    (S : List String) (bid : String)
    (hbat : ∀ b ∈ d.upload_batches, goodCounts db.staged_questions b)
    (ha : (d.all_questions.map (fun e => e.question_id)).Nodup)
    (ht : RowTransform db.staged_questions h S)
    (hsgd : d.staged_questions = db.staged_questions.map h)
    (hwf : wellFormed db) (_hinv : countersInv db)
    (hSmem : ∀ s ∈ S, ∃ q ∈ rowsOf db bid, q.question_id = s)
    (hrowsne : rowsOf db bid ≠ []) :
    countersInv (update_batch_counts bid d) ∧
    wellFormed (update_batch_counts bid d) ∧
    (update_batch_counts bid d).staged_questions = db.staged_questions.map h := by
  refine ⟨?_, ⟨?_, ?_⟩, ?_⟩
  · exact countersInv_transform db d h S bid hsgd hbat ht hwf.1 hSmem hrowsne
  · rw [update_batch_counts_staged, hsgd, ids_map_map _ _ ht.id_eq]
    exact hwf.1
  · rw [update_batch_counts_all]
    exact ha
  · rw [update_batch_counts_staged]
    exact hsgd

/-- Characterization of `detect_duplicates` (primary path): counters
and store keys stay coherent, and the staged rows are rewritten in
place touching only ids of the batch's pending rows. -/
lemma detect_duplicates_inv (bid : String) (sim : SimilarOracle) (db : DB)
    (hwf : wellFormed db) (hinv : countersInv db) :
    countersInv (detect_duplicates bid sim db) ∧
    wellFormed (detect_duplicates bid sim db) ∧
    ∃ h, RowTransform db.staged_questions h
        ((pendingSnapshot db bid).map (fun q => q.question_id)) ∧
      (detect_duplicates bid sim db).staged_questions = db.staged_questions.map h := by
  unfold detect_duplicates
  split
  · exact ⟨hinv, hwf, fun q => q, RowTransform.id _ _, (List.map_id' _).symm⟩
  · next hne =>
    have hsnapne : pendingSnapshot db bid ≠ [] := by
      intro hc
      exact hne (by rw [hc]; rfl)
    set acc := (pendingSnapshot db bid).foldl (detectOuter sim) (db, [], []) with hacc
    have hAcc : DetectAcc db ((pendingSnapshot db bid).map (fun q => q.question_id)) acc.1 := by
      rw [hacc]
      refine @List.foldlRecOn _ _
        (fun a : DB × List StagingDuplicate × List String =>
          DetectAcc db ((pendingSnapshot db bid).map (fun q => q.question_id)) a.1)
        (pendingSnapshot db bid) _ (db, [], []) (DetectAcc.init db _) ?_
      intro b hb srow hsrow
      unfold detectOuter
      split
      · exact hb
      · refine @List.foldlRecOn _ _
          (fun a : DB × List StagingDuplicate × List String =>
            DetectAcc db ((pendingSnapshot db bid).map (fun q => q.question_id)) a.1)
          (sim srow) _ b hb ?_
        intro b2 hb2 simr _
        exact hb2.update srow.question_id (List.mem_map_of_mem _ hsrow) _
          (fun q => rfl) (fun q => rfl)
    obtain ⟨hb, ha, h, ht, hs⟩ := hAcc
    have hpost := detect_post db
      { acc.1 with staging_duplicates := acc.1.staging_duplicates ++ acc.2.1 } h
      ((pendingSnapshot db bid).map (fun q => q.question_id)) bid
      (by
        show ∀ b ∈ acc.1.upload_batches, goodCounts db.staged_questions b
        rw [hb]
        exact hinv)
      (by
        show (acc.1.all_questions.map (fun e => e.question_id)).Nodup
        rw [ha]
        exact hwf.2)
      ht hs hwf hinv
      (fun s hsm => by
        obtain ⟨q1, hq1, rfl⟩ := List.mem_map.1 hsm
        exact ⟨q1, List.mem_of_mem_filter hq1, rfl⟩)
      (by
        intro hc
        obtain ⟨q1, hq1⟩ := List.exists_mem_of_ne_nil _ hsnapne
        have := List.mem_of_mem_filter hq1
        rw [hc] at this
        exact List.not_mem_nil q1 this)
    exact ⟨hpost.1, hpost.2.1, h, ht, hpost.2.2⟩

/-- Characterization of `_detect_duplicates_fallback`: same shape as
the primary path. -/
lemma detect_duplicates_fallback_inv (bid : String) (t : ℚ) (db : DB)
    (hwf : wellFormed db) (hinv : countersInv db) :
    countersInv (detect_duplicates_fallback bid t db) ∧
    wellFormed (detect_duplicates_fallback bid t db) ∧
    ∃ h, RowTransform db.staged_questions h
        ((pendingSnapshot db bid).map (fun q => q.question_id)) ∧
      (detect_duplicates_fallback bid t db).staged_questions = db.staged_questions.map h := by
  unfold detect_duplicates_fallback
  split
  · exact ⟨hinv, hwf, fun q => q, RowTransform.id _ _, (List.map_id' _).symm⟩
  · next hne =>
    split
    · exact ⟨hinv, hwf, fun q => q, RowTransform.id _ _, (List.map_id' _).symm⟩
    · have hsnapne : pendingSnapshot db bid ≠ [] := by
        intro hc
        exact hne (by rw [hc]; rfl)
      set acc := (pendingSnapshot db bid).foldl (fallbackBody db.all_questions) (db, [])
        with hacc
      have hAcc : DetectAcc db ((pendingSnapshot db bid).map (fun q => q.question_id))
          acc.1 := by
        rw [hacc]
        refine @List.foldlRecOn _ _
          (fun a : DB × List StagingDuplicate =>
            DetectAcc db ((pendingSnapshot db bid).map (fun q => q.question_id)) a.1)
          (pendingSnapshot db bid) _ (db, []) (DetectAcc.init db _) ?_
        intro b hb srow hsrow
        unfold fallbackBody
        split
        · exact hb
        · exact hb.update srow.question_id (List.mem_map_of_mem _ hsrow) _
            (fun q => rfl) (fun q => rfl)
      obtain ⟨hb, ha, h, ht, hs⟩ := hAcc
      have hpost := detect_post db
        { acc.1 with staging_duplicates := acc.1.staging_duplicates ++ acc.2 } h
        ((pendingSnapshot db bid).map (fun q => q.question_id)) bid
        (by
          show ∀ b ∈ acc.1.upload_batches, goodCounts db.staged_questions b
          rw [hb]
          exact hinv)
        (by
          show (acc.1.all_questions.map (fun e => e.question_id)).Nodup
          rw [ha]
          exact hwf.2)
        ht hs hwf hinv
        (fun s hsm => by
          obtain ⟨q1, hq1, rfl⟩ := List.mem_map.1 hsm
          exact ⟨q1, List.mem_of_mem_filter hq1, rfl⟩)
        (by
          intro hc
          obtain ⟨q1, hq1⟩ := List.exists_mem_of_ne_nil _ hsnapne
          have := List.mem_of_mem_filter hq1
          rw [hc] at this
          exact List.not_mem_nil q1 this)
      exact ⟨hpost.1, hpost.2.1, h, ht, hpost.2.2⟩

/-- The in-place row map of `resolveRow`. -/
def resolveMap (sid : String) (resolution : DuplicateResolution) (q : StagedQuestion) :
    StagedQuestion :=
  match resolution with
  | .keep_existing => if q.question_id == sid then { q with status := .rejected } else q
  | .replace => if q.question_id == sid then { q with status := .approved } else q
  | .keep_both => if q.question_id == sid then
      { q with status := .approved, duplicate_of := none, similarity_score := none } else q
  | .pending => q

lemma resolveRow_staged (sid : String) (res : DuplicateResolution) (db : DB) :
    (resolveRow sid res db).staged_questions = db.staged_questions.map (resolveMap sid res) := by
  cases res <;>
    simp only [resolveRow, resolveMap, updateStaged] <;>
    first
      | rfl
      | exact (List.map_id' _).symm

lemma resolveRow_batches (sid : String) (res : DuplicateResolution) (db : DB) :
    (resolveRow sid res db).upload_batches = db.upload_batches := by
  cases res <;> rfl

lemma resolveRow_all (sid : String) (res : DuplicateResolution) (db : DB) :
    (resolveRow sid res db).all_questions = db.all_questions := by
  cases res <;> rfl

lemma resolveMap_transform (staged : List StagedQuestion) (sid : String)
    (res : DuplicateResolution) :
    RowTransform staged (resolveMap sid res) [sid] := by
  refine ⟨?_, ?_, ?_⟩
  · intro q
    cases res <;> simp only [resolveMap] <;> split <;> rfl
  · intro q
    cases res <;> simp only [resolveMap] <;> split <;> rfl
  · intro q _ hq
    have : ¬ (q.question_id == sid) = true := by
      simp only [beq_iff_eq]
      rintro rfl
      exact hq (List.mem_singleton.2 rfl)
    cases res <;> simp only [resolveMap] <;> simp [this]

/-- Characterization of `resolve_duplicate`. -/
lemma resolve_duplicate_inv (did : String) (res : DuplicateResolution) (db db' : DB)
    (hwf : wellFormed db) (hinv : countersInv db)
    (h : resolve_duplicate did res db = some db') :
    countersInv db' ∧ wellFormed db' ∧
    ∃ sid, RowTransform db.staged_questions (resolveMap sid res) [sid] ∧
      db'.staged_questions = db.staged_questions.map (resolveMap sid res) := by
  unfold resolve_duplicate at h
  split at h
  · exact absurd h (by simp)
  · next dup _ =>
    split at h
    · next row hfind =>
      have hdb' := Option.some.inj h
      subst hdb'
      have hrowmem : row ∈ (resolveRow dup.staged_question_id res
          (resolveRecord did res db)).staged_questions :=
        List.mem_of_find?_eq_some hfind
      have hrowpred0 := List.find?_some hfind
      have hrowpred : (row.question_id == dup.staged_question_id) = true := hrowpred0
      rw [resolveRow_staged] at hrowmem
      obtain ⟨q0, hq0, hq0row⟩ := List.mem_map.1 hrowmem
      have hq0mem : q0 ∈ db.staged_questions := hq0
      have hq0id : q0.question_id = dup.staged_question_id := by
        have := (resolveMap_transform db.staged_questions dup.staged_question_id res).id_eq q0
        rw [hq0row] at this
        rw [← this]
        exact beq_iff_eq.1 hrowpred
      have hq0b : q0.upload_batch_id = row.upload_batch_id := by
        have := (resolveMap_transform db.staged_questions dup.staged_question_id res).batch_eq q0
        rw [hq0row] at this
        exact this.symm
      have hq0rows : q0 ∈ rowsOf db row.upload_batch_id :=
        List.mem_filter.2 ⟨hq0mem, by simp [hq0b]⟩
      have hpost := detect_post db
        (resolveRow dup.staged_question_id res (resolveRecord did res db))
        (resolveMap dup.staged_question_id res) [dup.staged_question_id]
        row.upload_batch_id
        (by
          rw [resolveRow_batches]
          show ∀ b ∈ db.upload_batches, goodCounts db.staged_questions b
          exact hinv)
        (by
          rw [resolveRow_all]
          exact hwf.2)
        (resolveMap_transform db.staged_questions dup.staged_question_id res)
        (by rw [resolveRow_staged]; rfl)
        hwf hinv
        (by
          intro s hsm
          rw [List.mem_singleton.1 hsm]
          exact ⟨q0, hq0rows, hq0id⟩)
        (by
          intro hc
          rw [hc] at hq0rows
          exact List.not_mem_nil q0 hq0rows)
      exact ⟨hpost.1, hpost.2.1, dup.staged_question_id,
        resolveMap_transform db.staged_questions dup.staged_question_id res, hpost.2.2⟩
    · exact absurd h (by simp)

/-- Invariant carried through the import loop: batches frozen at
their post-`Reviewing` value, production keys stay unique, staged rows
rewritten in place touching only ids of the approved snapshot. -/
def ImportAcc (db : DB) (S : List String) (batches0 : List UploadBatch) (d : DB) : Prop :=
  d.upload_batches = batches0 ∧
  (d.all_questions.map (fun e => e.question_id)).Nodup ∧
  ∃ h, RowTransform db.staged_questions h S ∧
    d.staged_questions = db.staged_questions.map h

lemma ImportAcc.step {db : DB} {S : List String} {batches0 : List UploadBatch}
    {d : DB} {r : ImportResult}
    (hd : ImportAcc db S batches0 d) (srow : StagedQuestion) (hsid : srow.question_id ∈ S) :
    ImportAcc db S batches0 (importRow (d, r) srow).1 := by
  obtain ⟨hb, ha, h, ht, hs⟩ := hd
  unfold importRow
  split
  · exact ⟨hb, ha, h, ht, hs⟩
  · next hnotin =>
    refine ⟨hb, ?_, ?_⟩
    · show ((d.all_questions ++
        [({ question_id := srow.question_id, question := srow.question } :
            ProductionQuestion)]).map (fun e => e.question_id)).Nodup
      rw [List.map_append, List.nodup_append_comm]
      simp only [List.map_cons, List.map_nil, List.singleton_append, List.nodup_cons]
      refine ⟨?_, ha⟩
      intro hc
      exact hnotin (by
        simpa [List.contains_iff_exists_mem_beq, beq_iff_eq] using hc)
    · refine ⟨fun q => if (h q).question_id == srow.question_id then
          { h q with status := .imported } else h q,
        ht.comp srow.question_id hsid
          (fun q => { q with status := .imported }) (fun q => rfl) (fun q => rfl), ?_⟩
      show (d.staged_questions.map _) = _
      rw [hs, List.map_map]
      rfl

/-- Characterization of `import_approved` (store side). -/
lemma import_approved_inv (bid : String) (db : DB)
    (hwf : wellFormed db) (hinv : countersInv db) :
    countersInv (import_approved bid db).1 ∧ wellFormed (import_approved bid db).1 ∧
    ∃ h, RowTransform db.staged_questions h
        ((approvedSnapshot db bid).map (fun q => q.question_id)) ∧
      (import_approved bid db).1.staged_questions = db.staged_questions.map h := by
  have hrev : ∀ b ∈ (importReviewing bid db).upload_batches,
      goodCounts db.staged_questions b :=
    goodCounts_updateBatch db bid _ db.staged_questions
      (fun b => ⟨rfl, rfl, rfl, rfl, rfl⟩) hinv
  unfold import_approved
  split
  · refine ⟨?_, ⟨hwf.1, hwf.2⟩, fun q => q, RowTransform.id _ _, (List.map_id' _).symm⟩
    intro b hb
    exact hrev b hb
  · next hne =>
    have hsnapne : approvedSnapshot db bid ≠ [] := by
      intro hc
      exact hne (by rw [hc]; rfl)
    set acc := (approvedSnapshot db bid).foldl importRow
      (importReviewing bid db, ⟨[], [], []⟩) with hacc
    have hAcc : ImportAcc db ((approvedSnapshot db bid).map (fun q => q.question_id))
        (importReviewing bid db).upload_batches acc.1 := by
      rw [hacc]
      refine @List.foldlRecOn _ _
        (fun a : DB × ImportResult =>
          ImportAcc db ((approvedSnapshot db bid).map (fun q => q.question_id))
            (importReviewing bid db).upload_batches a.1)
        (approvedSnapshot db bid) _ (importReviewing bid db, ⟨[], [], []⟩)
        ⟨rfl, hwf.2, fun q => q, RowTransform.id _ _, (List.map_id' _).symm⟩ ?_
      intro b hb srow hsrow
      exact ImportAcc.step hb srow (List.mem_map_of_mem _ hsrow)
    obtain ⟨hb, ha, h, ht, hs⟩ := hAcc
    have hbat2 : ∀ b ∈ (updateBatch acc.1 bid
        (fun b => { b with status :=
          if acc.2.failed_ids.isEmpty then .completed else .cancelled })).upload_batches,
        goodCounts db.staged_questions b := by
      apply goodCounts_updateBatch
      · exact fun b => ⟨rfl, rfl, rfl, rfl, rfl⟩
      · rw [hb]
        exact hrev
    have hpost := detect_post db
      (updateBatch acc.1 bid
        (fun b => { b with status :=
          if acc.2.failed_ids.isEmpty then .completed else .cancelled })) h
      ((approvedSnapshot db bid).map (fun q => q.question_id)) bid
      hbat2
      (by
        show (acc.1.all_questions.map (fun e => e.question_id)).Nodup
        exact ha)
      ht
      (by
        show acc.1.staged_questions = _
        exact hs)
      hwf hinv
      (fun s hsm => by
        obtain ⟨q1, hq1, rfl⟩ := List.mem_map.1 hsm
        exact ⟨q1, List.mem_of_mem_filter hq1, rfl⟩)
      (by
        intro hc
        obtain ⟨q1, hq1⟩ := List.exists_mem_of_ne_nil _ hsnapne
        have := List.mem_of_mem_filter hq1
        rw [hc] at this
        exact List.not_mem_nil q1 this)
    exact ⟨hpost.1, hpost.2.1, h, ht, hpost.2.2⟩

/-- The four counters sum to the number of non-`Imported` rows. -/
lemma countStatus_sum (rows : List StagedQuestion) :
    countStatus rows .pending + countStatus rows .approved +
      countStatus rows .rejected + countStatus rows .duplicate
    = (rows.filter (fun q => !(q.status == .imported))).length := by
  induction rows with
  | nil => rfl
  | cons r rows ih =>
    unfold countStatus at *
    simp only [List.filter_cons]
    cases hst : r.status <;> simp [hst, beq_iff_eq, ih] <;> omega

lemma wellFormed_markReviewStarted (bid : String) (db : DB)
    (hwf : wellFormed db) : wellFormed (markReviewStarted bid db) := by
  constructor
  · rw [markReviewStarted_staged]
    exact hwf.1
  · rw [markReviewStarted_all]
    exact hwf.2

/-- All five state-changing operations preserve counter correctness
and store keys. -/
lemma step_inv (op : Op) (db db' : DB) (hwf : wellFormed db) (hinv : countersInv db)
    (hstep : step op db = some db') : countersInv db' ∧ wellFormed db' := by
  cases op with
  | approve bid ids =>
    obtain ⟨hne, rfl⟩ := approve_questions_eq bid ids db db' hstep
    constructor
    · exact countersInv_markReviewStarted _ _
        (countersInv_reviewUpdate db bid _ _ (fun q => rfl) (fun q => rfl)
          (fun q _ hp => reviewTarget_batch hp) hwf hinv hne)
    · exact wellFormed_markReviewStarted _ _
        (wellFormed_reviewUpdate db bid _ _ (fun q => rfl) hwf)
  | reject bid ids =>
    obtain ⟨hne, rfl⟩ := reject_questions_eq bid ids db db' hstep
    constructor
    · exact countersInv_reviewUpdate db bid _ _ (fun q => rfl) (fun q => rfl)
        (fun q _ hp => reviewTarget_batch hp) hwf hinv hne
    · exact wellFormed_reviewUpdate db bid _ _ (fun q => rfl) hwf
  | detect bid sim =>
    have h := detect_duplicates_inv bid sim db hwf hinv
    have : db' = detect_duplicates bid sim db := (Option.some.inj hstep).symm
    rw [this]
    exact ⟨h.1, h.2.1⟩
  | detectFallback bid t =>
    have h := detect_duplicates_fallback_inv bid t db hwf hinv
    have : db' = detect_duplicates_fallback bid t db := (Option.some.inj hstep).symm
    rw [this]
    exact ⟨h.1, h.2.1⟩
  | resolve did res =>
    have h := resolve_duplicate_inv did res db db' hwf hinv hstep
    exact ⟨h.1, h.2.1⟩
  | importApproved bid =>
    have h := import_approved_inv bid db hwf hinv
    have : db' = (import_approved bid db).1 := (Option.some.inj hstep).symm
    rw [this]
    exact ⟨h.1, h.2.1⟩

instance (staged : List StagedQuestion) (b : UploadBatch) :
    Decidable (goodCounts staged b) := by
  unfold goodCounts
  infer_instance

instance (db : DB) : Decidable (countersInv db) := by
  unfold countersInv
  infer_instance

instance (db : DB) : Decidable (wellFormed db) := by
  unfold wellFormed
  infer_instance

/-- Store for the C1 witness: one batch with two pending rows and
correct counters. -/
def counterWitnessBatch : UploadBatch :=
  { batch_id := "b", total_questions := 2, questions_pending := 2,
    questions_approved := 0, questions_rejected := 0, questions_duplicate := 0,
    status := .pending, review_started := false }

def counterWitnessRow1 : StagedQuestion :=
  { question_id := "Q-1", upload_batch_id := "b", topic := "t", subtopic := "s",
    question := "q1", answer := "a1", status := .pending, duplicate_of := none,
    similarity_score := none }

def counterWitnessRow2 : StagedQuestion :=
  { question_id := "Q-2", upload_batch_id := "b", topic := "t", subtopic := "s",
    question := "q2", answer := "a2", status := .pending, duplicate_of := none,
    similarity_score := none }

def counterWitnessDB : DB :=
  { upload_batches := [counterWitnessBatch]
    staged_questions := [counterWitnessRow1, counterWitnessRow2]
    all_questions := []
    staging_duplicates := [] }

/-- The store after approving `Q-1` in the witness batch. -/
def counterWitnessDB' : DB :=
  (approve_questions "b" ["Q-1"] counterWitnessDB).getD counterWitnessDB

/-- Store for the C1 counterexample: one batch whose single staged row
is `Approved`, with counters currently matching. -/
def importCounterexampleBatch : UploadBatch :=
  { batch_id := "b", total_questions := 1, questions_pending := 0,
    questions_approved := 1, questions_rejected := 0, questions_duplicate := 0,
    status := .reviewing, review_started := true }

def importCounterexampleRow : StagedQuestion :=
  { question_id := "Q-1", upload_batch_id := "b", topic := "t", subtopic := "s",
    question := "q1", answer := "a1", status := .approved, duplicate_of := none,
    similarity_score := none }

def importCounterexampleDB : DB :=
  { upload_batches := [importCounterexampleBatch]
    staged_questions := [importCounterexampleRow]
    all_questions := []
    staging_duplicates := [] }

/-- Loop summary of `import_approved`: every processed row's id lands
in exactly the imported or the failed list, failures carry an error
entry, and earlier entries are never dropped. -/
lemma importRow_fold (rows : List StagedQuestion) : ∀ acc : DB × ImportResult,
    ((acc.2.errors.map Prod.fst = acc.2.failed_ids) →
      (rows.foldl importRow acc).2.errors.map Prod.fst =
        (rows.foldl importRow acc).2.failed_ids) ∧
    (∀ x ∈ acc.2.imported_ids, x ∈ (rows.foldl importRow acc).2.imported_ids) ∧
    (∀ x ∈ acc.2.failed_ids, x ∈ (rows.foldl importRow acc).2.failed_ids) ∧
    (∀ q ∈ rows, q.question_id ∈ (rows.foldl importRow acc).2.imported_ids ∨
      q.question_id ∈ (rows.foldl importRow acc).2.failed_ids) := by
  induction rows with
  | nil =>
    intro acc
    exact ⟨fun h => h, fun x hx => hx, fun x hx => hx, fun q hq => absurd hq (List.not_mem_nil q)⟩
  | cons r rows ih =>
    intro acc
    have hstep : (r :: rows).foldl importRow acc = rows.foldl importRow (importRow acc r) :=
      rfl
    obtain ⟨ihE, ihI, ihF, ihAll⟩ := ih (importRow acc r)
    rw [hstep]
    have hcase : ((importRow acc r).2.imported_ids = acc.2.imported_ids ∧
        (importRow acc r).2.failed_ids = acc.2.failed_ids ++ [r.question_id] ∧
        (importRow acc r).2.errors = acc.2.errors ++ [(r.question_id, "Insert failed")]) ∨
        ((importRow acc r).2.imported_ids = acc.2.imported_ids ++ [r.question_id] ∧
        (importRow acc r).2.failed_ids = acc.2.failed_ids ∧
        (importRow acc r).2.errors = acc.2.errors) := by
      unfold importRow
      split
      · exact Or.inl ⟨rfl, rfl, rfl⟩
      · exact Or.inr ⟨rfl, rfl, rfl⟩
    refine ⟨?_, ?_, ?_, ?_⟩
    · intro hE
      apply ihE
      rcases hcase with ⟨h1, h2, h3⟩ | ⟨h1, h2, h3⟩ <;>
        rw [h2, h3] <;> simp [hE]
    · intro x hx
      apply ihI
      rcases hcase with ⟨h1, _, _⟩ | ⟨h1, _, _⟩ <;> rw [h1] <;>
        first
          | exact hx
          | exact List.mem_append_left _ hx
    · intro x hx
      apply ihF
      rcases hcase with ⟨_, h2, _⟩ | ⟨_, h2, _⟩ <;> rw [h2] <;>
        first
          | exact hx
          | exact List.mem_append_left _ hx
    · intro q hq
      rcases List.mem_cons.1 hq with rfl | hq'
      · rcases hcase with ⟨_, h2, _⟩ | ⟨h1, _, _⟩
        · refine Or.inr (ihF _ ?_)
          rw [h2]
          exact List.mem_append_right _ (List.mem_singleton.2 rfl)
        · refine Or.inl (ihI _ ?_)
          rw [h1]
          exact List.mem_append_right _ (List.mem_singleton.2 rfl)
      · exact ihAll q hq'

/-- The final status write of `import_approved` sticks: after the
counts refresh, every batch row with the imported batch's id carries
the final status. -/
lemma updateBatch_batches (db : DB) (bid : String) (g : UploadBatch → UploadBatch) :
    (updateBatch db bid g).upload_batches =
      db.upload_batches.map (fun b => if b.batch_id == bid then g b else b) := rfl

lemma final_status_set (X : DB) (bid : String) (st : BatchStatus) :
    ∀ b ∈ (update_batch_counts bid
      (updateBatch X bid (fun b => { b with status := st }))).upload_batches,
      b.batch_id = bid → b.status = st := by
  have hbase : ∀ b1 ∈ (updateBatch X bid
      (fun b => { b with status := st })).upload_batches,
      b1.batch_id = bid → b1.status = st := by
    intro b1 hb1 hid
    simp only [updateBatch, List.mem_map] at hb1
    obtain ⟨b0, _, rfl⟩ := hb1
    by_cases hc : (b0.batch_id == bid) = true
    · rw [if_pos hc]
    · rw [if_neg hc] at hid ⊢
      exact absurd (by simp [hid]) hc
  intro b hb hbid
  unfold update_batch_counts at hb
  split at hb
  · exact hbase b hb hbid
  · rw [updateBatch_batches] at hb
    obtain ⟨b1, hb1, rfl⟩ := List.mem_map.1 hb
    by_cases hc : (b1.batch_id == bid) = true
    · rw [if_pos hc] at hbid ⊢
      exact hbase b1 hb1 (beq_iff_eq.1 hc)
    · rw [if_neg hc] at hbid ⊢
      exact hbase b1 hb1 hbid

/-- Store with a single already-`Imported` row, counters matching. -/
def importedRow : StagedQuestion :=
  { question_id := "Q-1", upload_batch_id := "b", topic := "t", subtopic := "s",
    question := "q1", answer := "a1", status := .imported, duplicate_of := none,
    similarity_score := none }

def importedRowBatch : UploadBatch :=
  { batch_id := "b", total_questions := 1, questions_pending := 0,
    questions_approved := 0, questions_rejected := 0, questions_duplicate := 0,
    status := .completed, review_started := true }

def importedRowDB : DB :=
  { upload_batches := [importedRowBatch]
    staged_questions := [importedRow]
    all_questions := [{ question_id := "Q-1", question := "q1" }]
    staging_duplicates := [] }

/-- Store whose batch has staged rows but none `Approved`. -/
def noApprovedRow : StagedQuestion :=
  { question_id := "Q-1", upload_batch_id := "b", topic := "t", subtopic := "s",
    question := "q1", answer := "a1", status := .pending, duplicate_of := none,
    similarity_score := none }

def noApprovedBatch : UploadBatch :=
  { batch_id := "b", total_questions := 1, questions_pending := 1,
    questions_approved := 0, questions_rejected := 0, questions_duplicate := 0,
    status := .pending, review_started := false }

def noApprovedDB : DB :=
  { upload_batches := [noApprovedBatch]
    staged_questions := [noApprovedRow]
    all_questions := []
    staging_duplicates := [] }

/-- Store for the C10 witness: two approved rows, one of which
collides with an existing production id. -/
def importWitnessRow1 : StagedQuestion :=
  { question_id := "Q-1", upload_batch_id := "b", topic := "t", subtopic := "s",
    question := "q1", answer := "a1", status := .approved, duplicate_of := none,
    similarity_score := none }

def importWitnessRow2 : StagedQuestion :=
  { question_id := "Q-2", upload_batch_id := "b", topic := "t", subtopic := "s",
    question := "q2", answer := "a2", status := .approved, duplicate_of := none,
    similarity_score := none }

def importWitnessBatch : UploadBatch :=
  { batch_id := "b", total_questions := 2, questions_pending := 0,
    questions_approved := 2, questions_rejected := 0, questions_duplicate := 0,
    status := .reviewing, review_started := true }

def importWitnessDB : DB :=
  { upload_batches := [importWitnessBatch]
    staged_questions := [importWitnessRow1, importWitnessRow2]
    all_questions := [{ question_id := "Q-2", question := "old" }]
    staging_duplicates := [] }

/-! ### `stage_questions` (C4) -/

/-- Input row of `stage_questions` (`StagedQuestionCreate`; audit
fields that no claim inspects are omitted). -/
structure StagedQuestionCreate where
  topic : String
  subtopic : String
  difficulty : String
  type : String
  question : String
  answer : String
  deriving Repr, DecidableEq

/-- The base id of one input question. -/
def baseOf (q : StagedQuestionCreate) : String :=
  IDGenerator.generate_question_id q.topic q.subtopic q.difficulty q.type

/-- `batch_id_tracker[base_id] := s`. -/
def bumpTracker (base : String) (s : Nat) (tracker : List (String × Nat)) :
    List (String × Nat) :=
  tracker.map (fun p => if p.1 == base then (p.1, s) else p)

/-- The id-assignment loop of `stage_questions`: the first question of
a base reads the next sequence from the two stores, later questions of
the same base increment the tracker. -/
def assignIds (all staged : List String) :
    List StagedQuestionCreate → List (String × Nat) → List String
  | [], _ => []
  | q :: qs, tracker =>
      match tracker.lookup (baseOf q) with
      | none =>
          IDGenerator.fmtId (baseOf q) (IDGenerator.get_next_sequence (baseOf q) all staged)
            :: assignIds all staged qs
              ((baseOf q, IDGenerator.get_next_sequence (baseOf q) all staged) :: tracker)
      | some s =>
          IDGenerator.fmtId (baseOf q) (s + 1)
            :: assignIds all staged qs (bumpTracker (baseOf q) (s + 1) tracker)

/-- One staged record prepared by the loop. -/
def buildRecord (batch_id : String) (q : StagedQuestionCreate) (id : String) :
    StagedQuestion :=
  { question_id := id, upload_batch_id := batch_id, topic := q.topic,
    subtopic := q.subtopic, question := q.question, answer := q.answer,
    status := .pending, duplicate_of := none, similarity_score := none }

/-- The duplicate-reporting scan of `stage_questions`: every occurrence
of an id after its first is collected. -/
def dupScan (seen : List String) : List String → List String
  | [] => []
  | id :: rest =>
      if seen.contains id then id :: dupScan (id :: seen) rest
      else dupScan (id :: seen) rest

inductive StageError
  | duplicateIds (dups : List String)
  | insertConflict
  deriving Repr, DecidableEq

/-- The check-and-insert phase of `stage_questions`
(staging_service.py:169-204), on an already prepared record list:
abort reporting the offending ids when the batch's ids contain a
duplicate (`len(ids) != len(set(ids))`), abort when the single bulk
insert violates the staged table's unique key (an id already present),
else append all records.  Errors return the store untouched — the
bulk insert is one all-or-nothing request. -/
def insertStagedRecords (records : List StagedQuestion) (db : DB) : Except StageError DB :=
  if (records.map (fun r => r.question_id)).length ≠
      (records.map (fun r => r.question_id)).dedup.length then
    .error (.duplicateIds (dupScan [] (records.map (fun r => r.question_id))))
  else if records.any (fun r =>
      (db.staged_questions.map (fun q => q.question_id)).contains r.question_id) then
    .error .insertConflict
  else .ok { db with staged_questions := db.staged_questions ++ records }

/-- `StagingService.stage_questions`: generate the batch's ids with
the tracker, then check and bulk-insert. -/
def stage_questions (batch_id : String) (questions : List StagedQuestionCreate)
    (db : DB) : Except StageError DB :=
  insertStagedRecords
    (List.zipWith (buildRecord batch_id) questions
      (assignIds (db.all_questions.map (fun e => e.question_id))
        (db.staged_questions.map (fun q => q.question_id)) questions []))
    db

lemma dupScan_eq_nil_iff : ∀ (l seen : List String),
    dupScan seen l = [] ↔ l.Nodup ∧ ∀ x ∈ l, x ∉ seen := by
  intro l
  induction l with
  | nil => simp [dupScan]
  | cons id rest ih =>
    intro seen
    unfold dupScan
    by_cases h : seen.contains id
    · simp only [if_pos h]
      constructor
      · intro hc
        exact absurd hc (List.cons_ne_nil _ _)
      · rintro ⟨_, hall⟩
        exact absurd (List.elem_iff.1 h) (hall id (List.mem_cons_self _ _))
    · simp only [if_neg h]
      rw [ih (id :: seen)]
      constructor
      · rintro ⟨hnd, hnotin⟩
        refine ⟨List.nodup_cons.2 ⟨?_, hnd⟩, ?_⟩
        · intro hc
          exact (hnotin id hc) (List.mem_cons_self _ _)
        · intro x hx
          rcases List.mem_cons.1 hx with h1 | h2
          · subst h1
            intro hc
            exact h (List.elem_iff.2 hc)
          · intro hc
            exact (hnotin x h2) (List.mem_cons_of_mem _ hc)
      · rintro ⟨hnd, hall⟩
        refine ⟨(List.nodup_cons.1 hnd).2, ?_⟩
        intro x hx hc
        rcases List.mem_cons.1 hc with rfl | hc'
        · exact (List.nodup_cons.1 hnd).1 hx
        · exact (hall x (List.mem_cons_of_mem _ hx)) hc'

lemma length_dedup_iff (l : List String) :
    l.length = l.dedup.length ↔ l.Nodup := by
  constructor
  · intro h
    have hsub : l.dedup.Sublist l := List.dedup_sublist l
    have : l.dedup = l := hsub.eq_of_length h.symm
    rw [← this]
    exact List.nodup_dedup l
  · intro h
    rw [List.dedup_eq_self.2 h]

lemma lookup_bumpTracker (tracker : List (String × Nat)) (base b : String) (s : Nat) :
    (bumpTracker base s tracker).lookup b =
      if b = base then (tracker.lookup b).map (fun _ => s) else tracker.lookup b := by
  induction tracker with
  | nil => simp [bumpTracker, List.lookup]
  | cons p tracker ih =>
    obtain ⟨a, v⟩ := p
    have hmap : bumpTracker base s ((a, v) :: tracker)
        = (if (a == base) = true then (a, s) else (a, v)) :: bumpTracker base s tracker := rfl
    by_cases hab : a = base
    · by_cases hba : b = a
      · subst hba
        subst hab
        rw [hmap, if_pos (beq_iff_eq.2 rfl)]
        have h1 : List.lookup b ((b, s) :: bumpTracker b s tracker) = some s := by
          simp [List.lookup]
        have h2 : List.lookup b ((b, v) :: tracker) = some v := by
          simp [List.lookup]
        rw [h1, if_pos rfl, h2]
        rfl
      · have hbB : ¬ b = base := fun hc => hba (hc.trans hab.symm)
        rw [hmap, if_pos (beq_iff_eq.2 hab)]
        have h1 : List.lookup b ((a, s) :: bumpTracker base s tracker)
            = List.lookup b (bumpTracker base s tracker) := by
          simp [List.lookup, beq_false_of_ne hba]
        have h2 : List.lookup b ((a, v) :: tracker) = List.lookup b tracker := by
          simp [List.lookup, beq_false_of_ne hba]
        rw [h1, ih, if_neg hbB, if_neg hbB, h2]
    · rw [hmap, if_neg (fun hc => hab (beq_iff_eq.1 hc))]
      by_cases hba : b = a
      · subst hba
        have hbB : ¬ b = base := hab
        have h1 : List.lookup b ((b, v) :: bumpTracker base s tracker) = some v := by
          simp [List.lookup]
        have h2 : List.lookup b ((b, v) :: tracker) = some v := by
          simp [List.lookup]
        rw [h1, if_neg hbB, h2]
      · have h1 : List.lookup b ((a, v) :: bumpTracker base s tracker)
            = List.lookup b (bumpTracker base s tracker) := by
          simp [List.lookup, beq_false_of_ne hba]
        have h2 : List.lookup b ((a, v) :: tracker) = List.lookup b tracker := by
          simp [List.lookup, beq_false_of_ne hba]
        rw [h1, ih, h2]

lemma assignIds_nodup_aux (all staged : List String) :
    ∀ (qs : List StagedQuestionCreate) (tracker : List (String × Nat)) (prev : List String),
      (∀ id ∈ prev, ∃ b t s, tracker.lookup b = some s ∧ t ≤ s ∧ id = IDGenerator.fmtId b t) →
      (assignIds all staged qs tracker).Nodup ∧
        ∀ id ∈ assignIds all staged qs tracker, id ∉ prev := by
  intro qs
  induction qs with
  | nil =>
    intro tracker prev _
    exact ⟨List.nodup_nil, by intro id h; cases h⟩
  | cons q rest ih =>
    intro tracker prev hinv
    cases hlk : tracker.lookup (baseOf q) with
    | none =>
      rw [show assignIds all staged (q :: rest) tracker
          = IDGenerator.fmtId (baseOf q)
              (IDGenerator.get_next_sequence (baseOf q) all staged)
            :: assignIds all staged rest
              ((baseOf q, IDGenerator.get_next_sequence (baseOf q) all staged) :: tracker)
          from by rw [assignIds, hlk]]
      have hinv' : ∀ id ∈ (IDGenerator.fmtId (baseOf q)
            (IDGenerator.get_next_sequence (baseOf q) all staged) :: prev),
          ∃ b t s, ((baseOf q, IDGenerator.get_next_sequence (baseOf q) all staged)
              :: tracker).lookup b = some s ∧ t ≤ s ∧ id = IDGenerator.fmtId b t := by
        intro id hid
        rcases List.mem_cons.1 hid with h1 | h2
        · exact ⟨baseOf q, IDGenerator.get_next_sequence (baseOf q) all staged,
            IDGenerator.get_next_sequence (baseOf q) all staged,
            by simp [List.lookup], le_refl _, h1⟩
        · obtain ⟨b, t, s', hlkb, hts, hid'⟩ := hinv id h2
          have hbB : ¬ b = baseOf q := by
            intro hc
            rw [hc, hlk] at hlkb
            cases hlkb
          exact ⟨b, t, s', by simp [List.lookup, beq_false_of_ne hbB, hlkb], hts, hid'⟩
      obtain ⟨hnd, hfresh⟩ := ih _ _ hinv'
      refine ⟨List.nodup_cons.2 ⟨?_, hnd⟩, ?_⟩
      · intro hc
        exact (hfresh _ hc) (List.mem_cons_self _ _)
      · intro id hid
        rcases List.mem_cons.1 hid with h1 | h2
        · subst h1
          intro hc
          obtain ⟨b, t, s', hlkb, hts, heq⟩ := hinv _ hc
          rw [← (IDGenerator.fmtId_inj heq).1, hlk] at hlkb
          cases hlkb
        · intro hc
          exact (hfresh id h2) (List.mem_cons_of_mem _ hc)
    | some seq =>
      rw [show assignIds all staged (q :: rest) tracker
          = IDGenerator.fmtId (baseOf q) (seq + 1)
            :: assignIds all staged rest (bumpTracker (baseOf q) (seq + 1) tracker)
          from by rw [assignIds, hlk]]
      have hinv' : ∀ id ∈ (IDGenerator.fmtId (baseOf q) (seq + 1) :: prev),
          ∃ b t s, (bumpTracker (baseOf q) (seq + 1) tracker).lookup b = some s
            ∧ t ≤ s ∧ id = IDGenerator.fmtId b t := by
        intro id hid
        rcases List.mem_cons.1 hid with h1 | h2
        · refine ⟨baseOf q, seq + 1, seq + 1, ?_, le_refl _, h1⟩
          rw [lookup_bumpTracker, if_pos rfl, hlk]
          rfl
        · obtain ⟨b, t, s', hlkb, hts, hid'⟩ := hinv id h2
          by_cases hbB : b = baseOf q
          · subst hbB
            have hs' : s' = seq := by
              rw [hlkb] at hlk
              exact Option.some.inj hlk
            refine ⟨baseOf q, t, seq + 1, ?_, by omega, hid'⟩
            rw [lookup_bumpTracker, if_pos rfl, hlk]
            rfl
          · refine ⟨b, t, s', ?_, hts, hid'⟩
            rw [lookup_bumpTracker, if_neg hbB]
            exact hlkb
      obtain ⟨hnd, hfresh⟩ := ih _ _ hinv'
      refine ⟨List.nodup_cons.2 ⟨?_, hnd⟩, ?_⟩
      · intro hc
        exact (hfresh _ hc) (List.mem_cons_self _ _)
      · intro id hid
        rcases List.mem_cons.1 hid with h1 | h2
        · subst h1
          intro hc
          obtain ⟨b, t, s', hlkb, hts, heq⟩ := hinv _ hc
          obtain ⟨hb, ht⟩ := IDGenerator.fmtId_inj heq
          rw [← hb] at hlkb
          rw [hlkb] at hlk
          have : s' = seq := Option.some.inj hlk
          omega
        · intro hc
          exact (hfresh id h2) (List.mem_cons_of_mem _ hc)

lemma assignIds_nodup (all staged : List String) (qs : List StagedQuestionCreate) :
    (assignIds all staged qs []).Nodup :=
  (assignIds_nodup_aux all staged qs [] [] (by intro id h; cases h)).1

lemma zipWith_buildRecord_ids (batch_id : String) :
    ∀ (qs : List StagedQuestionCreate) (ids : List String), qs.length = ids.length →
      (List.zipWith (buildRecord batch_id) qs ids).map (fun r => r.question_id) = ids := by
  intro qs
  induction qs with
  | nil =>
    intro ids h
    rw [show ids = [] from (List.length_eq_zero.1 h.symm)]
    rfl
  | cons q rest ih =>
    intro ids h
    cases ids with
    | nil => cases h
    | cons id ids =>
      rw [List.zipWith_cons_cons, List.map_cons, ih ids (by simpa using h)]
      rfl

lemma assignIds_length (all staged : List String) :
    ∀ (qs : List StagedQuestionCreate) (tracker : List (String × Nat)),
      (assignIds all staged qs tracker).length = qs.length := by
  intro qs
  induction qs with
  | nil => intro tracker; rfl
  | cons q rest ih =>
    intro tracker
    rw [assignIds]
    cases tracker.lookup (baseOf q) with
    | none => simp [ih]
    | some seq => simp [ih]

/-- The one question staged in the C4 counterexample (base id
`DCF-WAC-B-Q`). -/
def conflictQ : StagedQuestionCreate :=
  { topic := "DCF", subtopic := "WACC", difficulty := "Basic", type := "Question",
    question := "What is WACC?", answer := "Weighted average cost of capital." }

/-- The staged ids of the C4 counterexample: fifty two-digit ids
`DCF-WAC-B-Q-50 … DCF-WAC-B-Q-99`, which fill the 50-row descending
string-order window of `get_next_sequence` and hide the numerically
larger `DCF-WAC-B-Q-100`, making 100 the next sequence proposed. -/
def conflictStageStore : List String :=
  (List.range 50).map (fun k => "DCF-WAC-B-Q-" ++ toString (50 + k))
  ++ [IDGenerator.fmtId "DCF-WAC-B-Q" 100]

def conflictStagedRowOf (id : String) : StagedQuestion :=
  { question_id := id, upload_batch_id := "B0", topic := "DCF", subtopic := "WACC",
    question := "q", answer := "a", status := .imported, duplicate_of := none,
    similarity_score := none }

/-- Store of the C4 counterexample. -/
def conflictDB : DB :=
  { upload_batches := [], staged_questions := conflictStageStore.map conflictStagedRowOf,
    all_questions := [], staging_duplicates := [] }

end StagingService

/-! ## `difflib.SequenceMatcher` (CPython), as used by
`DuplicateServiceFallback._calculate_similarity`:
`SequenceMatcher(None, text1.lower(), text2.lower()).ratio()`.
With `isjunk = None` the junk set `bjunk` is empty, so the junk
purge of `__chain_b` and the junk extension loops of
`find_longest_match` are no-ops and `isbjunk` is constantly false;
they are elided below. -/

namespace Difflib

/-- The `b2j` map of `__chain_b` as a function: the ascending list of
positions of `c` in `b` (the dict-of-lists built by enumeration),
after the autojunk purge of popular elements: when `len(b) >= 200`,
an element with more than `len(b) // 100 + 1` occurrences is deleted
from the map, so reads find no occurrence. -/
def b2j (b : List Char) (c : Char) : List Nat :=
  if 200 ≤ b.length ∧
      ((List.range b.length).filter (fun j => b.getD j ' ' == c)).length
        > b.length / 100 + 1 then []
  else (List.range b.length).filter (fun j => b.getD j ' ' == c)

/-- `k = newj2len[j] = j2len.get(j-1, 0) + 1`; Python's `j-1` at
`j = 0` is `-1`, absent from the dict, hence 0. -/
def chainK (old : List (Nat × Nat)) (j : Nat) : Nat :=
  (if j = 0 then 0 else (old.lookup (j - 1)).getD 0) + 1

/-- `if k > bestsize: besti, bestj, bestsize = i-k+1, j-k+1, k`. -/
def bestUpd (i j k : Nat) (best : Nat × Nat × Nat) : Nat × Nat × Nat :=
  if best.2.2 < k then (i + 1 - k, j + 1 - k, k) else best

/-- The `for j in b2j.get(a[i], nothing)` loop of
`find_longest_match`: `continue` below `blo`, `break` at `bhi`
(occurrence lists ascend), chain lengths through the previous row and
update the best block on a strictly longer match.  Returns the new
row and best. -/
def innerLoop (blo bhi i : Nat) (old : List (Nat × Nat)) :
    List Nat → List (Nat × Nat) → (Nat × Nat × Nat) → List (Nat × Nat) × (Nat × Nat × Nat)
  | [], new, best => (new, best)
  | j :: js, new, best =>
      if j < blo then innerLoop blo bhi i old js new best
      else if bhi ≤ j then (new, best)
      else innerLoop blo bhi i old js (new ++ [(j, chainK old j)])
        (bestUpd i j (chainK old j) best)

/-- The `for i in range(alo, ahi)` loop of `find_longest_match`, fuel
= remaining indices; each step replaces `j2len` by the freshly built
row. -/
def flmOuter (a b : List Char) (blo bhi : Nat) :
    Nat → Nat → List (Nat × Nat) → (Nat × Nat × Nat) → (Nat × Nat × Nat)
  | 0, _, _, best => best
  | steps + 1, i, j2len, best =>
      flmOuter a b blo bhi steps (i + 1)
        (innerLoop blo bhi i j2len (b2j b (a.getD i ' ')) [] best).1
        (innerLoop blo bhi i j2len (b2j b (a.getD i ' ')) [] best).2

/-- The backward (non-junk) extension loop on `(besti, bestj,
bestsize)`.  Each iteration decrements `besti > alo`, so any fuel
`≥ besti` reaches the loop's exit condition. -/
def extendBack (a b : List Char) (alo blo : Nat) :
    Nat → (Nat × Nat × Nat) → (Nat × Nat × Nat)
  | 0, r => r
  | f + 1, r =>
      if alo < r.1 ∧ blo < r.2.1 ∧ a.getD (r.1 - 1) ' ' = b.getD (r.2.1 - 1) ' '
      then extendBack a b alo blo f (r.1 - 1, r.2.1 - 1, r.2.2 + 1)
      else r

/-- The forward (non-junk) extension loop.  Each iteration increments
`bestsize` while `besti + bestsize < ahi`, so any fuel `≥ ahi`
reaches the loop's exit condition. -/
def extendFwd (a b : List Char) (ahi bhi : Nat) :
    Nat → (Nat × Nat × Nat) → (Nat × Nat × Nat)
  | 0, r => r
  | f + 1, r =>
      if r.1 + r.2.2 < ahi ∧ r.2.1 + r.2.2 < bhi ∧
          a.getD (r.1 + r.2.2) ' ' = b.getD (r.2.1 + r.2.2) ' '
      then extendFwd a b ahi bhi f (r.1, r.2.1, r.2.2 + 1)
      else r

/-- `SequenceMatcher.find_longest_match` (junk loops elided, see
above): the dynamic program from `(alo, blo, 0)`, then the two
extension loops, with fuel `ahi + bhi` covering both loops' iteration
bounds. -/
def find_longest_match (a b : List Char) (alo ahi blo bhi : Nat) : Nat × Nat × Nat :=
  extendFwd a b ahi bhi (ahi + bhi)
    (extendBack a b alo blo (ahi + bhi)
      (flmOuter a b blo bhi (ahi - alo) alo [] (alo, blo, 0)))

/-- The total size of the matching blocks: `get_matching_blocks`
recurses left and right of each non-empty longest match (subranges
whose recursion guard fails are empty and contribute 0), and
`ratio()` only reads the sum of the block sizes.  The recursion depth
is bounded by the total range size, which the fuel covers. -/
def matchesSumFuel (a b : List Char) : Nat → Nat → Nat → Nat → Nat → Nat
  | 0, _, _, _, _ => 0
  | f + 1, alo, ahi, blo, bhi =>
      if (find_longest_match a b alo ahi blo bhi).2.2 = 0 then 0
      else
        matchesSumFuel a b f alo (find_longest_match a b alo ahi blo bhi).1 blo
            (find_longest_match a b alo ahi blo bhi).2.1
          + (find_longest_match a b alo ahi blo bhi).2.2
          + matchesSumFuel a b f
              ((find_longest_match a b alo ahi blo bhi).1
                + (find_longest_match a b alo ahi blo bhi).2.2) ahi
              ((find_longest_match a b alo ahi blo bhi).2.1
                + (find_longest_match a b alo ahi blo bhi).2.2) bhi

/-- `sum(triple[-1] for triple in self.get_matching_blocks())`. -/
def matchesTotal (a b : List Char) : Nat :=
  matchesSumFuel a b (a.length + b.length + 1) 0 a.length 0 b.length

/-- `SequenceMatcher.ratio()` (difflib `_calculate_ratio`): `2.0 *
matches / length` when `length` is non-zero, else `1.0`; exactly in
ℚ. -/
def ratioQ (a b : List Char) : ℚ :=
  if a.length + b.length = 0 then 1
  else 2 * (matchesTotal a b : ℚ) / ((a.length : ℚ) + (b.length : ℚ))

/-- The diagonal chain value of the self-comparison dynamic program
at position `i`: 1 where the previous character is purged from `b2j`,
else one more than at `i - 1`. -/
def dchain (s : List Char) : Nat → Nat
  | 0 => 1
  | i + 1 => if b2j s (s.getD i ' ') = [] then 1 else dchain s i + 1

lemma dchain_pos (s : List Char) : ∀ i, 1 ≤ dchain s i := by
  intro i
  cases i with
  | zero => exact le_refl 1
  | succ m =>
    rw [dchain]
    split
    · exact le_refl 1
    · omega

lemma mem_b2j {s : List Char} {c : Char} {j : Nat} (h : j ∈ b2j s c) :
    j < s.length ∧ s.getD j ' ' = c := by
  rw [b2j] at h
  split at h
  · cases h
  · have h' := List.mem_filter.1 h
    exact ⟨List.mem_range.1 h'.1, beq_iff_eq.1 h'.2⟩

lemma self_mem_b2j {s : List Char} {i : Nat} (hi : i < s.length)
    (hk : b2j s (s.getD i ' ') ≠ []) : i ∈ b2j s (s.getD i ' ') := by
  by_cases hc : 200 ≤ s.length ∧
      ((List.range s.length).filter (fun j => s.getD j ' ' == s.getD i ' ')).length
        > s.length / 100 + 1
  · exact absurd (by rw [b2j, if_pos hc]) hk
  · rw [b2j, if_neg hc]
    exact List.mem_filter.2 ⟨List.mem_range.2 hi, beq_iff_eq.2 rfl⟩

lemma b2j_pairwise (s : List Char) (c : Char) : (b2j s c).Pairwise (· < ·) := by
  rw [b2j]
  split
  · exact List.Pairwise.nil
  · exact List.Pairwise.sublist (List.filter_sublist _) (List.pairwise_lt_range _)

lemma keep_of_mem {s : List Char} {i j : Nat} (hj : j ∈ b2j s (s.getD i ' ')) :
    b2j s (s.getD j ' ') ≠ [] := by
  rw [(mem_b2j hj).2]
  exact fun hc => absurd (hc ▸ hj) (List.not_mem_nil j)

lemma lookup_append (a : Nat) :
    ∀ (l1 l2 : List (Nat × Nat)), (l1 ++ l2).lookup a
      = if (l1.lookup a).isSome then l1.lookup a else l2.lookup a := by
  intro l1
  induction l1 with
  | nil => intro l2; simp [List.lookup]
  | cons p l1 ih =>
    intro l2
    by_cases h : (a == p.1) = true
    · rw [show (p :: l1) ++ l2 = p :: (l1 ++ l2) from rfl]
      simp [List.lookup, h]
    · rw [show (p :: l1) ++ l2 = p :: (l1 ++ l2) from rfl]
      simp only [List.lookup, h]
      exact ih l2

/-- Hypothesis bundle: `old` is the row the self-comparison dynamic
program built at step `i - 1`. -/
def rowA (s : List Char) (i : Nat) (old : List (Nat × Nat)) : Prop :=
  ∀ j v, old.lookup j = some v →
    1 ≤ i ∧ b2j s (s.getD (i - 1) ' ') ≠ [] ∧ v ≤ dchain s (i - 1)

def rowB (s : List Char) (old : List (Nat × Nat)) : Prop :=
  ∀ j v, old.lookup j = some v →
    b2j s (s.getD j ' ') ≠ [] ∧ v ≤ dchain s j

def rowC (s : List Char) (i : Nat) (old : List (Nat × Nat)) : Prop :=
  1 ≤ i → b2j s (s.getD (i - 1) ' ') ≠ [] →
    old.lookup (i - 1) = some (dchain s (i - 1))

lemma chainK_le_b {s : List Char} {old : List (Nat × Nat)} (hB : rowB s old)
    (j : Nat) (hk : b2j s (s.getD j ' ') ≠ []) : chainK old j ≤ dchain s j := by
  cases j with
  | zero => exact le_refl _
  | succ m =>
    rw [chainK]
    simp only [Nat.succ_ne_zero, if_neg, Nat.add_sub_cancel]
    cases hl : old.lookup m with
    | none => simpa using dchain_pos s (m + 1)
    | some w =>
      obtain ⟨hkm, hwm⟩ := hB m w hl
      rw [dchain, if_neg hkm]
      simp [hl]
      omega

lemma chainK_le_a {s : List Char} {i : Nat} {old : List (Nat × Nat)}
    (hA : rowA s i old) (j : Nat) : chainK old j ≤ dchain s i := by
  cases j with
  | zero => exact dchain_pos s i
  | succ m =>
    rw [chainK]
    simp only [Nat.succ_ne_zero, if_neg, Nat.add_sub_cancel]
    cases hl : old.lookup m with
    | none => simpa using dchain_pos s i
    | some w =>
      obtain ⟨hi1, hki, hwi⟩ := hA m w hl
      have : i = (i - 1) + 1 := by omega
      rw [this, dchain, if_neg hki]
      simp [hl]
      omega

lemma chainK_diag {s : List Char} {i : Nat} {old : List (Nat × Nat)}
    (hB : rowB s old) (hC : rowC s i old) : chainK old i = dchain s i := by
  cases i with
  | zero => rfl
  | succ m =>
    rw [chainK]
    simp only [Nat.succ_ne_zero, if_neg, Nat.add_sub_cancel]
    by_cases hkm : b2j s (s.getD m ' ') = []
    · cases hl : old.lookup m with
      | none => rw [dchain, if_pos hkm]; simp [hl]
      | some w => exact absurd (hB m w hl).1 (by simpa using hkm)
    · have := hC (by omega) (by simpa using hkm)
      simp only [Nat.add_sub_cancel] at this
      rw [dchain, if_neg hkm]
      simp [this]

/-- What one full step of the self-comparison dynamic program
guarantees: a diagonal best covering every kept diagonal chain up to
`i`, and a row whose entries are kept positions with values bounded
by both diagonal chains, the diagonal entry exact. -/
def innerPost (s : List Char) (i : Nat) (r : List (Nat × Nat) × (Nat × Nat × Nat)) : Prop :=
  r.2.1 = r.2.2.1
  ∧ (∀ t, t < i + 1 → b2j s (s.getD t ' ') ≠ [] → dchain s t ≤ r.2.2.2)
  ∧ (∀ j v, r.1.lookup j = some v →
      b2j s (s.getD j ' ') ≠ [] ∧ v ≤ dchain s j ∧ v ≤ dchain s i)
  ∧ r.1.lookup i = some (dchain s i)

lemma innerLoop_self (s : List Char) (i : Nat) (old : List (Nat × Nat))
    (hA : rowA s i old) (hB : rowB s old) (hC : rowC s i old) :
    ∀ (js : List Nat) (new : List (Nat × Nat)) (best : Nat × Nat × Nat),
      (∀ j ∈ js, j ∈ b2j s (s.getD i ' ')) →
      js.Pairwise (fun x y => x < y) →
      (∀ j v, new.lookup j = some v →
        b2j s (s.getD j ' ') ≠ [] ∧ v ≤ dchain s j ∧ v ≤ dchain s i) →
      best.1 = best.2.1 →
      ((i ∈ js ∧ new.lookup i = none ∧
          (∀ t, t < i → b2j s (s.getD t ' ') ≠ [] → dchain s t ≤ best.2.2))
        ∨ ((∀ j ∈ js, i < j) ∧ new.lookup i = some (dchain s i) ∧
          (∀ t, t < i + 1 → b2j s (s.getD t ' ') ≠ [] → dchain s t ≤ best.2.2))) →
      innerPost s i (innerLoop 0 s.length i old js new best) := by
  intro js
  induction js with
  | nil =>
    intro new best _ _ hnew hdiag hbr
    rcases hbr with ⟨hiin, _, _⟩ | ⟨_, hlk, hD2⟩
    · cases hiin
    · exact ⟨hdiag, hD2, hnew, hlk⟩
  | cons j js ih =>
    intro new best hmem hsort hnew hdiag hbr
    have hjmem := hmem j (List.mem_cons_self _ _)
    have hjb := mem_b2j hjmem
    have hkj : b2j s (s.getD j ' ') ≠ [] := keep_of_mem hjmem
    have hkb := chainK_le_b hB j hkj
    have hka := chainK_le_a hA j
    have hred : innerLoop 0 s.length i old (j :: js) new best
        = innerLoop 0 s.length i old js (new ++ [(j, chainK old j)])
            (bestUpd i j (chainK old j) best) := by
      rw [innerLoop, if_neg (Nat.not_lt_zero j), if_neg (not_le.2 hjb.1)]
    rw [hred]
    have hpair := List.pairwise_cons.1 hsort
    rcases hbr with ⟨hiin, hlknone, hD2⟩ | ⟨hgt, hlksome, hD2⟩
    · rcases List.mem_cons.1 hiin with hji | hiin'
      · subst hji
        have hkdiag : chainK old i = dchain s i := chainK_diag hB hC
        have hnew' : ∀ j' v, (new ++ [(i, chainK old i)]).lookup j' = some v →
            b2j s (s.getD j' ' ') ≠ [] ∧ v ≤ dchain s j' ∧ v ≤ dchain s i := by
          intro j' v hl
          rw [lookup_append] at hl
          by_cases hs : (new.lookup j').isSome
          · rw [if_pos hs] at hl
            exact hnew j' v hl
          · rw [if_neg hs] at hl
            by_cases hji' : (j' == i) = true
            · have hveq : chainK old i = v := by
                simpa [List.lookup, hji'] using hl
              subst hveq
              rw [beq_iff_eq.1 hji']
              exact ⟨hkj, le_of_eq hkdiag, le_of_eq hkdiag⟩
            · simp [List.lookup, hji'] at hl
        have hlk' : (new ++ [(i, chainK old i)]).lookup i = some (dchain s i) := by
          rw [lookup_append, if_neg (by simp [hlknone])]
          simp [List.lookup, hkdiag]
        by_cases hup : best.2.2 < chainK old i
        · have hbu : bestUpd i i (chainK old i) best
              = (i + 1 - chainK old i, i + 1 - chainK old i, chainK old i) := by
            rw [bestUpd, if_pos hup]
          rw [hbu]
          refine ih _ _ (fun x hx => hmem x (List.mem_cons_of_mem _ hx)) hpair.2
            hnew' rfl (Or.inr ⟨hpair.1, hlk', ?_⟩)
          intro t ht hkt
          rcases Nat.lt_succ_iff_lt_or_eq.1 ht with ht' | ht'
          · exact le_trans (hD2 t ht' hkt) (le_of_lt hup)
          · subst ht'
            exact le_of_eq hkdiag.symm
        · have hbu : bestUpd i i (chainK old i) best = best := by
            rw [bestUpd, if_neg hup]
          rw [hbu]
          refine ih _ _ (fun x hx => hmem x (List.mem_cons_of_mem _ hx)) hpair.2
            hnew' hdiag (Or.inr ⟨hpair.1, hlk', ?_⟩)
          intro t ht hkt
          rcases Nat.lt_succ_iff_lt_or_eq.1 ht with ht' | ht'
          · exact hD2 t ht' hkt
          · subst ht'
            rw [← hkdiag]
            exact not_lt.1 hup
      · have hjlt : j < i := hpair.1 i hiin'
        have hnoup : ¬ best.2.2 < chainK old j :=
          not_lt.2 (le_trans hkb (hD2 j hjlt hkj))
        have hbu : bestUpd i j (chainK old j) best = best := by
          rw [bestUpd, if_neg hnoup]
        rw [hbu]
        have hnew' : ∀ j' v, (new ++ [(j, chainK old j)]).lookup j' = some v →
            b2j s (s.getD j' ' ') ≠ [] ∧ v ≤ dchain s j' ∧ v ≤ dchain s i := by
          intro j' v hl
          rw [lookup_append] at hl
          by_cases hs : (new.lookup j').isSome
          · rw [if_pos hs] at hl
            exact hnew j' v hl
          · rw [if_neg hs] at hl
            by_cases hji' : (j' == j) = true
            · have hveq : chainK old j = v := by
                simpa [List.lookup, hji'] using hl
              subst hveq
              rw [beq_iff_eq.1 hji']
              exact ⟨hkj, hkb, hka⟩
            · simp [List.lookup, hji'] at hl
        have hlk' : (new ++ [(j, chainK old j)]).lookup i = none := by
          rw [lookup_append, if_neg (by simp [hlknone])]
          simp [List.lookup, show (i == j) = false from
            beq_eq_false_iff_ne.2 (by omega)]
        exact ih _ _ (fun x hx => hmem x (List.mem_cons_of_mem _ hx)) hpair.2
          hnew' hdiag (Or.inl ⟨hiin', hlk', hD2⟩)
    · have hjgt : i < j := hgt j (List.mem_cons_self _ _)
      have hkeepi : b2j s (s.getD i ' ') ≠ [] := (hnew i (dchain s i) hlksome).1
      have hnoup : ¬ best.2.2 < chainK old j :=
        not_lt.2 (le_trans hka (hD2 i (by omega) hkeepi))
      have hbu : bestUpd i j (chainK old j) best = best := by
        rw [bestUpd, if_neg hnoup]
      rw [hbu]
      have hnew' : ∀ j' v, (new ++ [(j, chainK old j)]).lookup j' = some v →
          b2j s (s.getD j' ' ') ≠ [] ∧ v ≤ dchain s j' ∧ v ≤ dchain s i := by
        intro j' v hl
        rw [lookup_append] at hl
        by_cases hs : (new.lookup j').isSome
        · rw [if_pos hs] at hl
          exact hnew j' v hl
        · rw [if_neg hs] at hl
          by_cases hji' : (j' == j) = true
          · have hveq : chainK old j = v := by
              simpa [List.lookup, hji'] using hl
            subst hveq
            rw [beq_iff_eq.1 hji']
            exact ⟨hkj, hkb, hka⟩
          · simp [List.lookup, hji'] at hl
      have hlk' : (new ++ [(j, chainK old j)]).lookup i = some (dchain s i) := by
        rw [lookup_append, if_pos (by simp [hlksome])]
        exact hlksome
      exact ih _ _ (fun x hx => hmem x (List.mem_cons_of_mem _ hx)) hpair.2
        hnew' hdiag (Or.inr ⟨fun x hx => hgt x (List.mem_cons_of_mem _ hx), hlk', hD2⟩)

lemma flmOuter_self (s : List Char) :
    ∀ (steps i : Nat) (old : List (Nat × Nat)) (best : Nat × Nat × Nat),
      i + steps = s.length →
      rowA s i old → rowB s old → rowC s i old →
      best.1 = best.2.1 →
      (∀ t, t < i → b2j s (s.getD t ' ') ≠ [] → dchain s t ≤ best.2.2) →
      (flmOuter s s 0 s.length steps i old best).1
        = (flmOuter s s 0 s.length steps i old best).2.1 := by
  intro steps
  induction steps with
  | zero => intro i old best _ _ _ _ hdiag _; exact hdiag
  | succ steps ih =>
    intro i old best hlen hA hB hC hdiag hD2
    have hi : i < s.length := by omega
    rw [flmOuter]
    by_cases hjs : b2j s (s.getD i ' ') = []
    · have hinner : innerLoop 0 s.length i old (b2j s (s.getD i ' ')) [] best
          = ([], best) := by
        rw [hjs]
        rfl
      rw [hinner]
      refine ih (i + 1) [] best (by omega) ?_ ?_ ?_ hdiag ?_
      · intro j v h
        cases h
      · intro j v h
        cases h
      · intro _ hk
        exact absurd (by simpa using hk) (by simpa using hjs)
      · intro t ht hkt
        rcases Nat.lt_succ_iff_lt_or_eq.1 ht with ht' | ht'
        · exact hD2 t ht' hkt
        · subst ht'
          exact absurd hkt (by simpa using hjs)
    · obtain ⟨hdiag', hD2', hnew', hlk'⟩ :=
        innerLoop_self s i old hA hB hC (b2j s (s.getD i ' ')) [] best
          (fun j hj => hj) (b2j_pairwise s _)
          (by intro j v h; cases h) hdiag
          (Or.inl ⟨self_mem_b2j hi hjs, rfl, hD2⟩)
      refine ih (i + 1) _ _ (by omega) ?_ ?_ ?_ hdiag' hD2'
      · intro j v h
        obtain ⟨hkp, _, hvi⟩ := hnew' j v h
        exact ⟨by omega, by simpa using hjs, by simpa using hvi⟩
      · intro j v h
        obtain ⟨hkp, hvj, _⟩ := hnew' j v h
        exact ⟨hkp, hvj⟩
      · intro _ _
        simpa using hlk'

/-- Range bounds carried by the dynamic program's best block. -/
def bestOK (alo ahi blo bhi : Nat) (r : Nat × Nat × Nat) : Prop :=
  alo ≤ r.1 ∧ blo ≤ r.2.1 ∧ r.1 + r.2.2 ≤ ahi ∧ r.2.1 + r.2.2 ≤ bhi

/-- Range bounds carried by a `j2len` row while processing index `i`. -/
def rowOK (alo blo i : Nat) (m : List (Nat × Nat)) : Prop :=
  ∀ j v, m.lookup j = some v → v + alo ≤ i ∧ blo ≤ j ∧ v + blo ≤ j + 1

lemma chainK_bounds {alo blo i : Nat} {old : List (Nat × Nat)}
    (hold : rowOK alo blo i old) (hi1 : alo ≤ i) {j : Nat} (hbj : blo ≤ j) :
    chainK old j + alo ≤ i + 1 ∧ chainK old j + blo ≤ j + 1 := by
  cases j with
  | zero =>
    have : blo = 0 := by omega
    exact ⟨by simp [chainK]; omega, by simp [chainK]; omega⟩
  | succ m =>
    rw [chainK]
    simp only [Nat.succ_ne_zero, if_neg, Nat.add_sub_cancel]
    cases hl : old.lookup m with
    | none => simp; omega
    | some w =>
      obtain ⟨h1, h2, h3⟩ := hold m w hl
      simp [hl]
      omega

lemma innerLoop_bounds (alo ahi blo bhi i : Nat) (old : List (Nat × Nat))
    (hold : rowOK alo blo i old) (hi1 : alo ≤ i) (hi2 : i < ahi) :
    ∀ (js : List Nat) (new : List (Nat × Nat)) (best : Nat × Nat × Nat),
      rowOK alo blo (i + 1) new → bestOK alo ahi blo bhi best →
      rowOK alo blo (i + 1) (innerLoop blo bhi i old js new best).1
      ∧ bestOK alo ahi blo bhi (innerLoop blo bhi i old js new best).2 := by
  intro js
  induction js with
  | nil => intro new best hnew hbest; exact ⟨hnew, hbest⟩
  | cons j js ih =>
    intro new best hnew hbest
    rw [innerLoop]
    by_cases hlo : j < blo
    · rw [if_pos hlo]
      exact ih new best hnew hbest
    · rw [if_neg hlo]
      by_cases hhi : bhi ≤ j
      · rw [if_pos hhi]
        exact ⟨hnew, hbest⟩
      · rw [if_neg hhi]
        obtain ⟨hk1, hk2⟩ := chainK_bounds hold hi1 (not_lt.1 hlo)
        refine ih _ _ ?_ ?_
        · intro j' v hl
          rw [lookup_append] at hl
          by_cases hs : (new.lookup j').isSome
          · rw [if_pos hs] at hl
            exact hnew j' v hl
          · rw [if_neg hs] at hl
            by_cases hjj : (j' == j) = true
            · have hveq : chainK old j = v := by
                simpa [List.lookup, hjj] using hl
              subst hveq
              rw [beq_iff_eq.1 hjj]
              exact ⟨by omega, not_lt.1 hlo, hk2⟩
            · simp [List.lookup, hjj] at hl
        · rw [bestUpd]
          by_cases hup : best.2.2 < chainK old j
          · rw [if_pos hup]
            obtain ⟨hb1, hb2, hb3, hb4⟩ := hbest
            have hjlt : j < bhi := not_le.1 hhi
            have hjlo : blo ≤ j := not_lt.1 hlo
            refine ⟨?_, ?_, ?_, ?_⟩
            · show alo ≤ i + 1 - chainK old j
              omega
            · show blo ≤ j + 1 - chainK old j
              omega
            · show i + 1 - chainK old j + chainK old j ≤ ahi
              omega
            · show j + 1 - chainK old j + chainK old j ≤ bhi
              omega
          · rw [if_neg hup]
            exact hbest

lemma flmOuter_bounds (a b : List Char) (alo ahi blo bhi : Nat) :
    ∀ (steps i : Nat) (old : List (Nat × Nat)) (best : Nat × Nat × Nat),
      alo ≤ i → i + steps ≤ ahi →
      rowOK alo blo i old → bestOK alo ahi blo bhi best →
      bestOK alo ahi blo bhi (flmOuter a b blo bhi steps i old best) := by
  intro steps
  induction steps with
  | zero => intro i old best _ _ _ hbest; exact hbest
  | succ steps ih =>
    intro i old best hi1 hi2 hold hbest
    rw [flmOuter]
    obtain ⟨hrow', hbest'⟩ := innerLoop_bounds alo ahi blo bhi i old hold hi1
      (by omega) (b2j b (a.getD i ' ')) [] best (by intro j v h; cases h) hbest
    exact ih (i + 1) _ _ (by omega) (by omega) hrow' hbest'

lemma extendBack_bounds (a b : List Char) (alo ahi blo bhi : Nat) :
    ∀ (f : Nat) (r : Nat × Nat × Nat), bestOK alo ahi blo bhi r →
      bestOK alo ahi blo bhi (extendBack a b alo blo f r) := by
  intro f
  induction f with
  | zero => intro r h; exact h
  | succ f ih =>
    intro r hr
    rw [extendBack]
    by_cases hc : alo < r.1 ∧ blo < r.2.1 ∧
        a.getD (r.1 - 1) ' ' = b.getD (r.2.1 - 1) ' '
    · rw [if_pos hc]
      obtain ⟨h1, h2, h3, h4⟩ := hr
      obtain ⟨hc1, hc2, _⟩ := hc
      exact ih _ ⟨by show alo ≤ r.1 - 1; omega, by show blo ≤ r.2.1 - 1; omega,
        by show r.1 - 1 + (r.2.2 + 1) ≤ ahi; omega,
        by show r.2.1 - 1 + (r.2.2 + 1) ≤ bhi; omega⟩
    · rw [if_neg hc]
      exact hr

lemma extendFwd_bounds (a b : List Char) (alo ahi blo bhi : Nat) :
    ∀ (f : Nat) (r : Nat × Nat × Nat), bestOK alo ahi blo bhi r →
      bestOK alo ahi blo bhi (extendFwd a b ahi bhi f r) := by
  intro f
  induction f with
  | zero => intro r h; exact h
  | succ f ih =>
    intro r hr
    rw [extendFwd]
    by_cases hc : r.1 + r.2.2 < ahi ∧ r.2.1 + r.2.2 < bhi ∧
        a.getD (r.1 + r.2.2) ' ' = b.getD (r.2.1 + r.2.2) ' '
    · rw [if_pos hc]
      obtain ⟨h1, h2, h3, h4⟩ := hr
      obtain ⟨hc1, hc2, _⟩ := hc
      exact ih _ ⟨by show alo ≤ r.1; omega, by show blo ≤ r.2.1; omega,
        by show r.1 + (r.2.2 + 1) ≤ ahi; omega,
        by show r.2.1 + (r.2.2 + 1) ≤ bhi; omega⟩
    · rw [if_neg hc]
      exact hr

lemma find_longest_match_bounds (a b : List Char) (alo ahi blo bhi : Nat)
    (h1 : alo ≤ ahi) (h2 : blo ≤ bhi) :
    bestOK alo ahi blo bhi (find_longest_match a b alo ahi blo bhi) := by
  rw [find_longest_match]
  exact extendFwd_bounds a b alo ahi blo bhi _ _
    (extendBack_bounds a b alo ahi blo bhi _ _
      (flmOuter_bounds a b alo ahi blo bhi (ahi - alo) alo [] (alo, blo, 0)
        (le_refl _) (by omega) (by intro j v h; cases h)
        ⟨le_refl _, le_refl _, by simpa using h1, by simpa using h2⟩))

lemma extendBack_stop (a b : List Char) (alo blo : Nat) (r : Nat × Nat × Nat)
    (h : ¬(alo < r.1 ∧ blo < r.2.1 ∧ a.getD (r.1 - 1) ' ' = b.getD (r.2.1 - 1) ' ')) :
    ∀ f, extendBack a b alo blo f r = r := by
  intro f
  cases f with
  | zero => rfl
  | succ f => rw [extendBack, if_neg h]

lemma extendFwd_stop (a b : List Char) (ahi bhi : Nat) (r : Nat × Nat × Nat)
    (h : ¬(r.1 + r.2.2 < ahi ∧ r.2.1 + r.2.2 < bhi ∧
      a.getD (r.1 + r.2.2) ' ' = b.getD (r.2.1 + r.2.2) ' ')) :
    ∀ f, extendFwd a b ahi bhi f r = r := by
  intro f
  cases f with
  | zero => rfl
  | succ f => rw [extendFwd, if_neg h]

lemma extendBack_diag (s : List Char) :
    ∀ (f d m : Nat), d ≤ f → extendBack s s 0 0 f (d, d, m) = (0, 0, m + d) := by
  intro f
  induction f with
  | zero =>
    intro d m hd
    have : d = 0 := by omega
    subst this
    rfl
  | succ f ih =>
    intro d m hd
    cases d with
    | zero =>
      rw [extendBack, if_neg (by intro hc; exact absurd hc.1 (by omega)), Nat.add_zero]
    | succ d =>
      rw [extendBack, if_pos ⟨Nat.succ_pos d, Nat.succ_pos d, rfl⟩]
      rw [show ((d + 1 - 1 : Nat), (d + 1 - 1 : Nat), m + 1) = ((d : Nat), (d : Nat), m + 1)
        from by simp]
      rw [ih d (m + 1) (by omega), show m + 1 + d = m + (d + 1) from by omega]

lemma extendFwd_full (s : List Char) :
    ∀ (f M : Nat), s.length - M ≤ f → M ≤ s.length →
      extendFwd s s s.length s.length f (0, 0, M) = (0, 0, s.length) := by
  intro f
  induction f with
  | zero =>
    intro M h1 h2
    have : M = s.length := by omega
    subst this
    rfl
  | succ f ih =>
    intro M h1 h2
    by_cases hM : M < s.length
    · rw [extendFwd, if_pos ⟨by simpa using hM, by simpa using hM, rfl⟩]
      exact ih (M + 1) (by omega) (by omega)
    · have : M = s.length := by omega
      subst this
      rw [extendFwd, if_neg (by intro hc; exact absurd hc.1 (by simp))]

lemma find_longest_match_self (s : List Char) :
    find_longest_match s s 0 s.length 0 s.length = (0, 0, s.length) := by
  rw [find_longest_match, Nat.sub_zero]
  rcases hr : flmOuter s s 0 s.length s.length 0 [] (0, 0, 0) with ⟨d, q, m⟩
  have hdiag := flmOuter_self s s.length 0 [] (0, 0, 0) (by omega)
    (by intro j v h; cases h) (by intro j v h; cases h)
    (by intro h1 _; omega) rfl (by intro t ht; omega)
  rw [hr] at hdiag
  simp only [] at hdiag
  subst hdiag
  have hbok := flmOuter_bounds s s 0 s.length 0 s.length s.length 0 [] (0, 0, 0)
    (le_refl 0) (by omega) (by intro j v h; cases h)
    ⟨le_refl 0, le_refl 0, by simp, by simp⟩
  rw [hr] at hbok
  obtain ⟨_, _, hdm, _⟩ := hbok
  rw [extendBack_diag s (s.length + s.length) d m (by simp only [] at hdm; omega)]
  exact extendFwd_full s (s.length + s.length) (m + d)
    (by omega) (by simp only [] at hdm; omega)

lemma find_longest_match_empty (a b : List Char) (x y : Nat) :
    find_longest_match a b x x y y = (x, y, 0) := by
  rw [find_longest_match, Nat.sub_self]
  rw [show flmOuter a b y y 0 x [] (x, y, 0) = (x, y, 0) from rfl]
  rw [extendBack_stop a b x y (x, y, 0)
    (by intro hc; exact absurd hc.1 (by simp))]
  exact extendFwd_stop a b x y (x, y, 0)
    (by intro hc; exact absurd hc.1 (by simp)) _

lemma matchesSumFuel_empty (a b : List Char) (x y : Nat) :
    ∀ f, matchesSumFuel a b f x x y y = 0 := by
  intro f
  cases f with
  | zero => rfl
  | succ f =>
    rw [matchesSumFuel, find_longest_match_empty]
    simp

lemma matchesSumFuel_le (a b : List Char) :
    ∀ (f alo ahi blo bhi : Nat), alo ≤ ahi → blo ≤ bhi →
      matchesSumFuel a b f alo ahi blo bhi ≤ min (ahi - alo) (bhi - blo) := by
  intro f
  induction f with
  | zero => intro alo ahi blo bhi _ _; simp [matchesSumFuel]
  | succ f ih =>
    intro alo ahi blo bhi h1 h2
    rw [matchesSumFuel]
    by_cases hk : (find_longest_match a b alo ahi blo bhi).2.2 = 0
    · rw [if_pos hk]
      simp
    · rw [if_neg hk]
      obtain ⟨hb1, hb2, hb3, hb4⟩ := find_longest_match_bounds a b alo ahi blo bhi h1 h2
      have hL := ih alo (find_longest_match a b alo ahi blo bhi).1 blo
        (find_longest_match a b alo ahi blo bhi).2.1 hb1 hb2
      have hR := ih ((find_longest_match a b alo ahi blo bhi).1
          + (find_longest_match a b alo ahi blo bhi).2.2) ahi
        ((find_longest_match a b alo ahi blo bhi).2.1
          + (find_longest_match a b alo ahi blo bhi).2.2) bhi hb3 hb4
      obtain ⟨hL1, hL2⟩ := Nat.le_min.1 hL
      obtain ⟨hR1, hR2⟩ := Nat.le_min.1 hR
      refine Nat.le_min.2 ⟨?_, ?_⟩
      · omega
      · omega

lemma matchesTotal_le (a b : List Char) :
    matchesTotal a b ≤ min a.length b.length := by
  have := matchesSumFuel_le a b (a.length + b.length + 1) 0 a.length 0 b.length
    (by omega) (by omega)
  simpa using this

lemma ratioQ_nonneg (a b : List Char) : 0 ≤ ratioQ a b := by
  rw [ratioQ]
  split
  · norm_num
  · positivity

lemma ratioQ_le_one (a b : List Char) : ratioQ a b ≤ 1 := by
  rw [ratioQ]
  split
  · exact le_refl 1
  · rename_i hne
    have hpos : (0 : ℚ) < (a.length : ℚ) + (b.length : ℚ) := by
      exact_mod_cast Nat.pos_of_ne_zero hne
    rw [div_le_one hpos]
    have h := matchesTotal_le a b
    have h2 : 2 * matchesTotal a b ≤ a.length + b.length := by omega
    exact_mod_cast h2

lemma ratioQ_self (s : List Char) : ratioQ s s = 1 := by
  by_cases hn : s.length = 0
  · rw [ratioQ, if_pos (by omega)]
  · have hmt : matchesTotal s s = s.length := by
      rw [matchesTotal]
      obtain ⟨f, hf⟩ : ∃ f, s.length + s.length + 1 = f + 1 :=
        ⟨s.length + s.length, rfl⟩
      rw [hf, matchesSumFuel, find_longest_match_self]
      simp only []
      rw [if_neg hn]
      rw [show (0 : Nat) + s.length = s.length from by omega]
      rw [matchesSumFuel_empty, matchesSumFuel_empty]
      omega
    rw [ratioQ, if_neg (by omega), hmt]
    have hq : (s.length : ℚ) ≠ 0 := Nat.cast_ne_zero.2 hn
    field_simp
    ring

end Difflib

namespace DuplicateServiceFallback

/-- `DuplicateServiceFallback.SIMILARITY_THRESHOLD`. -/
def SIMILARITY_THRESHOLD : ℚ := 8 / 10

/-- `DuplicateServiceFallback._calculate_similarity`:
`SequenceMatcher(None, text1.lower(), text2.lower()).ratio()`. -/
def calculate_similarity (text1 text2 : String) : ℚ :=
  Difflib.ratioQ (pyLower text1).data (pyLower text2).data

/-- A row of `all_questions` as this service reads it. -/
structure FBRow where
  question_id : String
  question : String
  topic : String
  deriving Repr, DecidableEq

/-- One entry of `duplicate_pairs`. -/
structure DupPair where
  id1 : String
  text1 : String
  topic1 : String
  id2 : String
  text2 : String
  topic2 : String
  score : ℚ
  deriving Repr, DecidableEq

/-- The question details stored in `_group_duplicates`'s
`all_questions` map. -/
structure QInfo where
  id : String
  text : String
  topic : String
  deriving Repr, DecidableEq

structure Group where
  questions : List QInfo
  average_score : ℚ
  deriving Repr, DecidableEq

structure GroupsResult where
  count : Nat
  groups : List Group
  deriving Repr, DecidableEq

/-- `threshold = threshold or self.SIMILARITY_THRESHOLD`: Python `or`
treats `None` and `0.0` alike as falsy. -/
def effThreshold : Option ℚ → ℚ
  | none => SIMILARITY_THRESHOLD
  | some v => if v = 0 then SIMILARITY_THRESHOLD else v

/-- `tuple(sorted([x, y]))`. -/
def pairKey (x y : String) : String × String :=
  if IDGenerator.strLe x y then (x, y) else (y, x)

/-- Last-write-wins, first-insertion-order keyed map (a Python dict
comprehension). -/
def targetsAdd (m : List (String × FBRow)) (r : FBRow) : List (String × FBRow) :=
  if (m.lookup r.question_id).isSome then
    m.map (fun p => if p.1 == r.question_id then (p.1, r) else p)
  else m ++ [(r.question_id, r)]

/-- `target_questions = {q['question_id']: q for q in all_questions.data
if q['question_id'] in question_ids}`. -/
def target_questions (question_ids : List String) (rows : List FBRow) :
    List (String × FBRow) :=
  rows.foldl (fun m r =>
    if question_ids.contains r.question_id then targetsAdd m r else m) []

/-- The inner `for compare_q in all_questions.data` loop of
`detect_duplicates`: skip self and already processed pair keys, and on
similarity at or above the threshold record the pair and mark the key
processed (a miss leaves the key unmarked). -/
def scanCompare (threshold : ℚ) (target : String × FBRow)
    (acc : List DupPair × List (String × String)) (cq : FBRow) :
    List DupPair × List (String × String) :=
  if cq.question_id == target.1 then acc
  else if acc.2.contains (pairKey target.1 cq.question_id) then acc
  else if threshold ≤ calculate_similarity target.2.question cq.question then
    (acc.1 ++ [{ id1 := target.1, text1 := target.2.question, topic1 := target.2.topic,
                 id2 := cq.question_id, text2 := cq.question, topic2 := cq.topic,
                 score := calculate_similarity target.2.question cq.question }],
     acc.2 ++ [pairKey target.1 cq.question_id])
  else acc

/-- The double loop producing `duplicate_pairs`. -/
def scanPairs (threshold : ℚ) (question_ids : List String) (rows : List FBRow) :
    List DupPair :=
  ((target_questions question_ids rows).foldl
    (fun acc tq => rows.foldl (scanCompare threshold tq) acc) ([], [])).1

/-- `adjacency.setdefault`-style key creation. -/
def ensureKey (adj : List (String × List (String × ℚ))) (k : String) :
    List (String × List (String × ℚ)) :=
  if (adj.lookup k).isSome then adj else adj ++ [(k, [])]

/-- Append one neighbor entry to a key's list. -/
def appendAdj (adj : List (String × List (String × ℚ))) (k : String)
    (e : String × ℚ) : List (String × List (String × ℚ)) :=
  adj.map (fun p => if p.1 == k then (p.1, p.2 ++ [e]) else p)

/-- The adjacency map of `_group_duplicates`: both endpoints of every
pair become keys, and each pair adds the two directed neighbor
entries. -/
def buildAdj (pairs : List DupPair) : List (String × List (String × ℚ)) :=
  pairs.foldl (fun adj p =>
    appendAdj (appendAdj (ensureKey (ensureKey adj p.id1) p.id2)
      p.id1 (p.id2, p.score)) p.id2 (p.id1, p.score)) []

/-- The `all_questions` detail map of `_group_duplicates`
(last write wins). -/
def qmapAdd (m : List (String × QInfo)) (k : String) (v : QInfo) :
    List (String × QInfo) :=
  if (m.lookup k).isSome then m.map (fun p => if p.1 == k then (p.1, v) else p)
  else m ++ [(k, v)]

def buildQmap (pairs : List DupPair) : List (String × QInfo) :=
  pairs.foldl (fun m p =>
    qmapAdd (qmapAdd m p.id1 ⟨p.id1, p.text1, p.topic1⟩)
      p.id2 ⟨p.id2, p.text2, p.topic2⟩) []

/-- The DFS stack loop: `stack.pop()` takes the list's last element,
already visited nodes are skipped, a new node is visited, its details
appended to the group, and its not-yet-visited neighbors pushed.  Fuel
decreases with `stack.length` plus the total size of the unvisited
part of the adjacency map, so `dfsFuel` below always suffices. -/
def dfsLoop (adj : List (String × List (String × ℚ)))
    (qmap : List (String × QInfo)) :
    Nat → List String → List String → List QInfo → List String × List QInfo
  | 0, _, visited, group => (visited, group)
  | fuel + 1, stack, visited, group =>
      match stack.getLast? with
      | none => (visited, group)
      | some current =>
          if visited.contains current then
            dfsLoop adj qmap fuel stack.dropLast visited group
          else
            dfsLoop adj qmap fuel
              (stack.dropLast ++
                (((adj.lookup current).getD []).filter
                  (fun nb => ¬ (visited ++ [current]).contains nb.1)).map
                  (fun nb => nb.1))
              (visited ++ [current])
              (group ++ [((qmap.lookup current).getD ⟨current, "", ""⟩)])

/-- An upper bound on the DFS work remaining over the unvisited keys. -/
def dfsFuel (adj : List (String × List (String × ℚ))) (visited : List String) : Nat :=
  ((adj.filter (fun p => ¬ visited.contains p.1)).map (fun p => p.2.length + 1)).sum

/-- `average_score` of one finished group. -/
def avgScore (pairs : List DupPair) (group : List QInfo) : ℚ :=
  ((pairs.filter (fun p =>
    group.any (fun q => q.id == p.id1 || q.id == p.id2))).map
      (fun p => p.score)).sum / (group.length : ℚ)

/-- Stable descending insertion by `average_score`
(`sorted(..., key=..., reverse=True)`). -/
def insertScoreDesc (g : Group) : List Group → List Group
  | [] => [g]
  | h :: t => if h.average_score ≤ g.average_score then g :: h :: t
      else h :: insertScoreDesc g t

def sortScoreDesc (l : List Group) : List Group := l.foldr insertScoreDesc []

/-- The `for question_id in adjacency` loop of `_group_duplicates`:
DFS from each unvisited key, keeping groups of more than one
question. -/
def groupsLoop (pairs : List DupPair) (adj : List (String × List (String × ℚ)))
    (qmap : List (String × QInfo)) :
    List String → List String → List Group → List String × List Group
  | [], visited, groups => (visited, groups)
  | k :: keys, visited, groups =>
      if visited.contains k then groupsLoop pairs adj qmap keys visited groups
      else
        groupsLoop pairs adj qmap keys
          (dfsLoop adj qmap (1 + dfsFuel adj visited) [k] visited []).1
          (if 1 < (dfsLoop adj qmap (1 + dfsFuel adj visited) [k] visited []).2.length
           then groups ++
             [⟨(dfsLoop adj qmap (1 + dfsFuel adj visited) [k] visited []).2,
               avgScore pairs (dfsLoop adj qmap (1 + dfsFuel adj visited) [k] visited []).2⟩]
           else groups)

/-- `DuplicateServiceFallback._group_duplicates`. -/
def group_duplicates (pairs : List DupPair) : GroupsResult :=
  if pairs.isEmpty then ⟨0, []⟩
  else
    ⟨(groupsLoop pairs (buildAdj pairs) (buildQmap pairs)
        ((buildAdj pairs).map (fun p => p.1)) [] []).2.length,
     sortScoreDesc (groupsLoop pairs (buildAdj pairs) (buildQmap pairs)
        ((buildAdj pairs).map (fun p => p.1)) [] []).2⟩

/-- `DuplicateServiceFallback.detect_duplicates` (the success path:
the two early returns, then the pairwise scan and the grouping). -/
def detect_duplicates (question_ids : List String) (threshold : Option ℚ)
    (rows : List FBRow) : GroupsResult :=
  if question_ids.isEmpty then ⟨0, []⟩
  else if rows.isEmpty then ⟨0, []⟩
  else group_duplicates (scanPairs (effThreshold threshold) question_ids rows)

lemma sim_tide_diet : calculate_similarity "tide" "diet" = 1 / 4 := by
  show Difflib.ratioQ (pyLower "tide").data (pyLower "diet").data = 1 / 4
  rw [Difflib.ratioQ,
    show Difflib.matchesTotal (pyLower "tide").data (pyLower "diet").data = 1 from by decide,
    show (pyLower "tide").data.length = 4 from by decide,
    show (pyLower "diet").data.length = 4 from by decide]
  norm_num

lemma sim_diet_tide : calculate_similarity "diet" "tide" = 1 / 2 := by
  show Difflib.ratioQ (pyLower "diet").data (pyLower "tide").data = 1 / 2
  rw [Difflib.ratioQ,
    show Difflib.matchesTotal (pyLower "diet").data (pyLower "tide").data = 2 from by decide,
    show (pyLower "diet").data.length = 4 from by decide,
    show (pyLower "tide").data.length = 4 from by decide]
  norm_num

/-- The ids a key's adjacency list points at. -/
def adjNbrIds (adj : List (String × List (String × ℚ))) (x : String) : List String :=
  ((adj.lookup x).getD []).map (fun e => e.1)

/-- Two questions joined by one recorded pair, in either order. -/
def pairStep (pairs : List DupPair) (x y : String) : Prop :=
  ∃ p ∈ pairs, (p.id1 = x ∧ p.id2 = y) ∨ (p.id1 = y ∧ p.id2 = x)

lemma beq_false_of_not {a b : String} (h : ¬((a == b) = true)) : (a == b) = false := by
  cases hb : (a == b)
  · rfl
  · exact absurd hb h

lemma lookup_cons {β : Type} (p : String × β) (l : List (String × β)) (x : String) :
    (p :: l).lookup x = if (x == p.1) = true then some p.2 else l.lookup x := by
  obtain ⟨a, b⟩ := p
  by_cases h : (x == a) = true
  · simp [List.lookup, h]
  · simp [List.lookup, h]

lemma lookup_append_str {β : Type} (x : String) :
    ∀ (l1 l2 : List (String × β)), (l1 ++ l2).lookup x
      = if (l1.lookup x).isSome then l1.lookup x else l2.lookup x := by
  intro l1
  induction l1 with
  | nil => intro l2; simp [List.lookup]
  | cons p l1 ih =>
    intro l2
    rw [List.cons_append, lookup_cons, lookup_cons]
    by_cases h : (x == p.1) = true
    · rw [if_pos h, if_pos h]
      rfl
    · rw [if_neg h, if_neg h, ih]

lemma lookup_isSome_iff_mem_keys {β : Type} (l : List (String × β)) (k : String) :
    (l.lookup k).isSome ↔ k ∈ l.map (fun p => p.1) := by
  induction l with
  | nil => simp [List.lookup]
  | cons p l ih =>
    rw [lookup_cons]
    by_cases h : (k == p.1) = true
    · simp [h, beq_iff_eq.1 h]
    · rw [if_neg h]
      simp only [List.map_cons, List.mem_cons]
      rw [ih]
      constructor
      · exact Or.inr
      · rintro (hc | hc)
        · exact absurd (beq_iff_eq.2 hc) h
        · exact hc

lemma lookup_ensureKey (adj : List (String × List (String × ℚ))) (k x : String) :
    (ensureKey adj k).lookup x =
      if (adj.lookup x).isSome then adj.lookup x
      else if x = k then some [] else none := by
  rw [ensureKey]
  by_cases hk : (adj.lookup k).isSome
  · rw [if_pos hk]
    by_cases hx : (adj.lookup x).isSome
    · rw [if_pos hx]
    · rw [if_neg hx]
      by_cases hxk : x = k
      · subst hxk
        exact absurd hk hx
      · rw [if_neg hxk]
        exact Option.not_isSome_iff_eq_none.1 hx
  · rw [if_neg hk, lookup_append_str]
    by_cases hx : (adj.lookup x).isSome
    · rw [if_pos hx, if_pos hx]
    · rw [if_neg hx, if_neg hx]
      by_cases hxk : x = k
      · rw [if_pos hxk, lookup_cons, if_pos (beq_iff_eq.2 hxk)]
      · rw [if_neg hxk, lookup_cons,
          if_neg (by intro hc; exact hxk (beq_iff_eq.1 hc))]
        rfl

lemma lookup_appendAdj (adj : List (String × List (String × ℚ))) (k x : String)
    (e : String × ℚ) :
    (appendAdj adj k e).lookup x =
      if x = k then (adj.lookup x).map (fun l => l ++ [e]) else adj.lookup x := by
  induction adj with
  | nil =>
    by_cases hxk : x = k
    · rw [if_pos hxk]
      rfl
    · rw [if_neg hxk]
      rfl
  | cons p adj ih =>
    have hcons : appendAdj (p :: adj) k e
        = (if (p.1 == k) = true then (p.1, p.2 ++ [e]) else p) :: appendAdj adj k e := rfl
    by_cases hpk : (p.1 == k) = true
    · rw [hcons, if_pos hpk, lookup_cons, lookup_cons]
      by_cases hxp : (x == p.1) = true
      · have hxk : x = k := (beq_iff_eq.1 hxp).trans (beq_iff_eq.1 hpk)
        have hkp1 : k = p.1 := hxk ▸ (beq_iff_eq.1 hxp)
        simp [hxp, hxk, hkp1]
      · have hxk : ¬ x = k := fun hc =>
          hxp (beq_iff_eq.2 (hc.trans (beq_iff_eq.1 hpk).symm))
        simp [beq_false_of_not hxp, hxk, ih]
    · rw [hcons, if_neg hpk, lookup_cons, lookup_cons]
      by_cases hxp : (x == p.1) = true
      · have hxk : ¬ x = k := fun hc =>
          hpk (beq_iff_eq.2 ((beq_iff_eq.1 hxp).symm.trans hc))
        simp [hxp, hxk]
      · simp [beq_false_of_not hxp, ih]

lemma lookup_isSome_ensureKey (adj : List (String × List (String × ℚ))) (k x : String)
    (h : (adj.lookup x).isSome) : ((ensureKey adj k).lookup x).isSome := by
  rw [lookup_ensureKey, if_pos h]
  exact h

lemma lookup_isSome_ensureKey_self (adj : List (String × List (String × ℚ)))
    (k : String) : ((ensureKey adj k).lookup k).isSome := by
  rw [lookup_ensureKey]
  by_cases h : (adj.lookup k).isSome
  · rw [if_pos h]
    exact h
  · rw [if_neg h, if_pos rfl]
    rfl

lemma lookup_isSome_appendAdj (adj : List (String × List (String × ℚ))) (k x : String)
    (e : String × ℚ) (h : (adj.lookup x).isSome) :
    ((appendAdj adj k e).lookup x).isSome := by
  rw [lookup_appendAdj]
  by_cases hxk : x = k
  · rw [if_pos hxk]
    simpa using h
  · rw [if_neg hxk]
    exact h

lemma adjNbrIds_ensureKey (adj : List (String × List (String × ℚ))) (k x : String) :
    adjNbrIds (ensureKey adj k) x = adjNbrIds adj x := by
  rw [adjNbrIds, adjNbrIds, lookup_ensureKey]
  by_cases hx : (adj.lookup x).isSome
  · rw [if_pos hx]
  · rw [if_neg hx, Option.not_isSome_iff_eq_none.1 hx]
    by_cases hxk : x = k
    · rw [if_pos hxk]
      rfl
    · rw [if_neg hxk]

lemma adjNbrIds_appendAdj (adj : List (String × List (String × ℚ))) (k x e1 : String)
    (e2 : ℚ) (hk : (adj.lookup k).isSome) :
    adjNbrIds (appendAdj adj k (e1, e2)) x =
      if x = k then adjNbrIds adj x ++ [e1] else adjNbrIds adj x := by
  rw [adjNbrIds, adjNbrIds, lookup_appendAdj]
  by_cases hxk : x = k
  · subst hxk
    rw [if_pos rfl, if_pos rfl]
    obtain ⟨l, hl⟩ := Option.isSome_iff_exists.1 hk
    rw [hl]
    simp
  · rw [if_neg hxk, if_neg hxk]

/-- One `buildAdj` fold step. -/
def adjStepF (adj : List (String × List (String × ℚ))) (p : DupPair) :
    List (String × List (String × ℚ)) :=
  appendAdj (appendAdj (ensureKey (ensureKey adj p.id1) p.id2)
    p.id1 (p.id2, p.score)) p.id2 (p.id1, p.score)

lemma buildAdj_eq_foldl (pairs : List DupPair) :
    buildAdj pairs = pairs.foldl adjStepF [] := rfl

lemma mem_adjNbrIds_adjStepF (adj : List (String × List (String × ℚ))) (p : DupPair)
    (x y : String) :
    y ∈ adjNbrIds (adjStepF adj p) x ↔
      y ∈ adjNbrIds adj x ∨ (x = p.id1 ∧ y = p.id2) ∨ (x = p.id2 ∧ y = p.id1) := by
  have h1 : ((ensureKey (ensureKey adj p.id1) p.id2).lookup p.id1).isSome :=
    lookup_isSome_ensureKey _ _ _ (lookup_isSome_ensureKey_self adj p.id1)
  have h2 : ((appendAdj (ensureKey (ensureKey adj p.id1) p.id2) p.id1
      (p.id2, p.score)).lookup p.id2).isSome :=
    lookup_isSome_appendAdj _ _ _ _ (lookup_isSome_ensureKey_self _ p.id2)
  rw [adjStepF, adjNbrIds_appendAdj _ _ _ _ _ h2]
  by_cases hx2 : x = p.id2
  · rw [if_pos hx2, adjNbrIds_appendAdj _ _ _ _ _ h1]
    by_cases hx1 : x = p.id1
    · rw [if_pos hx1, adjNbrIds_ensureKey, adjNbrIds_ensureKey]
      simp only [List.append_assoc, List.mem_append, List.mem_singleton]
      constructor
      · rintro (h | h | h)
        · exact Or.inl h
        · exact Or.inr (Or.inl ⟨hx1, h⟩)
        · exact Or.inr (Or.inr ⟨hx2, h⟩)
      · rintro (h | ⟨_, h⟩ | ⟨_, h⟩)
        · exact Or.inl h
        · exact Or.inr (Or.inl h)
        · exact Or.inr (Or.inr h)
    · rw [if_neg hx1, adjNbrIds_ensureKey, adjNbrIds_ensureKey]
      simp only [List.mem_append, List.mem_singleton]
      constructor
      · rintro (h | h)
        · exact Or.inl h
        · exact Or.inr (Or.inr ⟨hx2, h⟩)
      · rintro (h | ⟨hc, _⟩ | ⟨_, h⟩)
        · exact Or.inl h
        · exact absurd hc hx1
        · exact Or.inr h
  · rw [if_neg hx2, adjNbrIds_appendAdj _ _ _ _ _ h1]
    by_cases hx1 : x = p.id1
    · rw [if_pos hx1, adjNbrIds_ensureKey, adjNbrIds_ensureKey]
      simp only [List.mem_append, List.mem_singleton]
      constructor
      · rintro (h | h)
        · exact Or.inl h
        · exact Or.inr (Or.inl ⟨hx1, h⟩)
      · rintro (h | ⟨_, h⟩ | ⟨hc, _⟩)
        · exact Or.inl h
        · exact Or.inr h
        · exact absurd hc hx2
    · rw [if_neg hx1, adjNbrIds_ensureKey, adjNbrIds_ensureKey]
      constructor
      · exact Or.inl
      · rintro (h | ⟨hc, _⟩ | ⟨hc, _⟩)
        · exact h
        · exact absurd hc hx1
        · exact absurd hc hx2

lemma adjNbrIds_foldl_mono (pairs : List DupPair) :
    ∀ (adj : List (String × List (String × ℚ))) (x y : String),
      y ∈ adjNbrIds adj x → y ∈ adjNbrIds (pairs.foldl adjStepF adj) x := by
  induction pairs with
  | nil => intro adj x y h; exact h
  | cons p pairs ih =>
    intro adj x y h
    exact ih _ x y ((mem_adjNbrIds_adjStepF adj p x y).2 (Or.inl h))

lemma foldl_edge (p : DupPair) :
    ∀ (pairs : List DupPair) (adj : List (String × List (String × ℚ))), p ∈ pairs →
      p.id2 ∈ adjNbrIds (pairs.foldl adjStepF adj) p.id1 ∧
      p.id1 ∈ adjNbrIds (pairs.foldl adjStepF adj) p.id2 := by
  intro pairs
  induction pairs with
  | nil => intro adj h; cases h
  | cons q pairs ih =>
    intro adj hp
    rcases List.mem_cons.1 hp with heq | hp'
    · subst heq
      rw [List.foldl_cons]
      constructor
      · exact adjNbrIds_foldl_mono pairs _ _ _
          ((mem_adjNbrIds_adjStepF adj p p.id1 p.id2).2 (Or.inr (Or.inl ⟨rfl, rfl⟩)))
      · exact adjNbrIds_foldl_mono pairs _ _ _
          ((mem_adjNbrIds_adjStepF adj p p.id2 p.id1).2 (Or.inr (Or.inr ⟨rfl, rfl⟩)))
    · rw [List.foldl_cons]
      exact ih _ hp'

lemma buildAdj_edge {pairs : List DupPair} {p : DupPair} (hp : p ∈ pairs) :
    p.id2 ∈ adjNbrIds (buildAdj pairs) p.id1 ∧
    p.id1 ∈ adjNbrIds (buildAdj pairs) p.id2 := by
  rw [buildAdj_eq_foldl]
  exact foldl_edge p pairs [] hp

lemma foldl_sym :
    ∀ (pairs : List DupPair) (adj : List (String × List (String × ℚ))),
      (∀ x y, y ∈ adjNbrIds adj x → x ∈ adjNbrIds adj y) →
      ∀ x y, y ∈ adjNbrIds (pairs.foldl adjStepF adj) x →
        x ∈ adjNbrIds (pairs.foldl adjStepF adj) y := by
  intro pairs
  induction pairs with
  | nil => intro adj h; exact h
  | cons p pairs ih =>
    intro adj hsym
    rw [List.foldl_cons]
    apply ih
    intro x y hy
    rcases (mem_adjNbrIds_adjStepF adj p x y).1 hy with h | ⟨h1, h2⟩ | ⟨h1, h2⟩
    · exact (mem_adjNbrIds_adjStepF adj p y x).2 (Or.inl (hsym x y h))
    · exact (mem_adjNbrIds_adjStepF adj p y x).2 (Or.inr (Or.inr ⟨h2, h1⟩))
    · exact (mem_adjNbrIds_adjStepF adj p y x).2 (Or.inr (Or.inl ⟨h2, h1⟩))

lemma buildAdj_sym (pairs : List DupPair) :
    ∀ x y, y ∈ adjNbrIds (buildAdj pairs) x → x ∈ adjNbrIds (buildAdj pairs) y := by
  rw [buildAdj_eq_foldl]
  refine foldl_sym pairs [] ?_
  intro x y h
  simp [adjNbrIds, List.lookup] at h

lemma lookup_isSome_adjStepF (adj : List (String × List (String × ℚ))) (p : DupPair)
    (y : String) (h : (adj.lookup y).isSome) : (((adjStepF adj p).lookup y).isSome) := by
  exact lookup_isSome_appendAdj _ _ _ _ (lookup_isSome_appendAdj _ _ _ _
    (lookup_isSome_ensureKey _ _ _ (lookup_isSome_ensureKey _ _ _ h)))

lemma lookup_isSome_adjStepF_id1 (adj : List (String × List (String × ℚ)))
    (p : DupPair) : (((adjStepF adj p).lookup p.id1).isSome) :=
  lookup_isSome_appendAdj _ _ _ _ (lookup_isSome_appendAdj _ _ _ _
    (lookup_isSome_ensureKey _ _ _ (lookup_isSome_ensureKey_self adj p.id1)))

lemma lookup_isSome_adjStepF_id2 (adj : List (String × List (String × ℚ)))
    (p : DupPair) : (((adjStepF adj p).lookup p.id2).isSome) :=
  lookup_isSome_appendAdj _ _ _ _ (lookup_isSome_appendAdj _ _ _ _
    (lookup_isSome_ensureKey_self _ p.id2))

lemma foldl_targets :
    ∀ (pairs : List DupPair) (adj : List (String × List (String × ℚ))),
      (∀ x y, y ∈ adjNbrIds adj x → (adj.lookup y).isSome) →
      ∀ x y, y ∈ adjNbrIds (pairs.foldl adjStepF adj) x →
        (((pairs.foldl adjStepF adj).lookup y).isSome) := by
  intro pairs
  induction pairs with
  | nil => intro adj h; exact h
  | cons p pairs ih =>
    intro adj htg
    rw [List.foldl_cons]
    apply ih
    intro x y hy
    rcases (mem_adjNbrIds_adjStepF adj p x y).1 hy with h | ⟨_, h2⟩ | ⟨_, h2⟩
    · exact lookup_isSome_adjStepF adj p y (htg x y h)
    · rw [h2]
      exact lookup_isSome_adjStepF_id2 adj p
    · rw [h2]
      exact lookup_isSome_adjStepF_id1 adj p

lemma buildAdj_targets (pairs : List DupPair) :
    ∀ x y, y ∈ adjNbrIds (buildAdj pairs) x → (((buildAdj pairs).lookup y).isSome) := by
  rw [buildAdj_eq_foldl]
  refine foldl_targets pairs [] ?_
  intro x y h
  simp [adjNbrIds, List.lookup] at h

lemma ensureKey_keys_nodup (adj : List (String × List (String × ℚ))) (k : String)
    (h : (adj.map (fun p => p.1)).Nodup) :
    (((ensureKey adj k).map (fun p => p.1)).Nodup) := by
  rw [ensureKey]
  by_cases hk : (adj.lookup k).isSome
  · rw [if_pos hk]
    exact h
  · rw [if_neg hk, List.map_append]
    rw [List.nodup_append]
    refine ⟨h, List.nodup_singleton k, ?_⟩
    intro a ha hc
    rw [show (([(k, [])] : List (String × List (String × ℚ))).map (fun p => p.1)) = [k]
      from rfl] at hc
    rw [List.mem_singleton.1 hc] at ha
    exact hk ((lookup_isSome_iff_mem_keys adj k).2 ha)

lemma appendAdj_keys (adj : List (String × List (String × ℚ))) (k : String)
    (e : String × ℚ) :
    (appendAdj adj k e).map (fun p => p.1) = adj.map (fun p => p.1) := by
  induction adj with
  | nil => rfl
  | cons p adj ih =>
    rw [show appendAdj (p :: adj) k e
        = (if (p.1 == k) = true then (p.1, p.2 ++ [e]) else p) :: appendAdj adj k e from rfl,
      List.map_cons, List.map_cons, ih]
    by_cases h : (p.1 == k) = true
    · rw [if_pos h]
    · rw [if_neg h]

lemma buildAdj_keys_nodup (pairs : List DupPair) :
    (((buildAdj pairs).map (fun p => p.1)).Nodup) := by
  rw [buildAdj_eq_foldl]
  have : ∀ (l : List DupPair) (adj : List (String × List (String × ℚ))),
      ((adj.map (fun p => p.1)).Nodup) →
      (((l.foldl adjStepF adj).map (fun p => p.1)).Nodup) := by
    intro l
    induction l with
    | nil => intro adj h; exact h
    | cons p l ih =>
      intro adj h
      rw [List.foldl_cons]
      refine ih _ ?_
      rw [adjStepF, appendAdj_keys, appendAdj_keys]
      exact ensureKey_keys_nodup _ _ (ensureKey_keys_nodup _ _ h)
  exact this pairs [] List.nodup_nil

lemma contains_append_single_iff (v : List String) (c a : String) :
    (v ++ [c]).contains a = true ↔ a ∈ v ∨ a = c := by
  rw [List.elem_iff]
  simp

lemma dfsFuel_insert (adj : List (String × List (String × ℚ)))
    (hnd : ((adj.map (fun p => p.1)).Nodup)) (visited : List String) (current : String)
    (hcur : ((adj.lookup current).isSome)) (hnv : current ∉ visited) :
    dfsFuel adj (visited ++ [current]) + (((adj.lookup current).getD []).length + 1)
      = dfsFuel adj visited := by
  induction adj with
  | nil => simp [List.lookup] at hcur
  | cons p adj ih =>
    rw [List.map_cons, List.nodup_cons] at hnd
    rw [dfsFuel, dfsFuel, List.filter_cons, List.filter_cons]
    by_cases hpc : p.1 = current
    · have hold : (decide ¬(visited.contains p.1 = true)) = true := by
        rw [decide_eq_true_eq, hpc]
        intro hc
        exact hnv (List.elem_iff.1 hc)
      have hnew : ¬ ((decide ¬((visited ++ [current]).contains p.1 = true)) = true) := by
        rw [decide_eq_true_eq]
        intro hc
        exact hc ((contains_append_single_iff _ _ _).2 (Or.inr hpc))
      rw [if_pos hold, if_neg hnew]
      have hlk : (p :: adj).lookup current = some p.2 := by
        rw [lookup_cons, if_pos (beq_iff_eq.2 hpc.symm)]
      rw [hlk]
      have hfilter : adj.filter (fun q => ¬((visited ++ [current]).contains q.1 = true))
          = adj.filter (fun q => ¬(visited.contains q.1 = true)) := by
        apply List.filter_congr
        intro q hq
        have hqc : q.1 ≠ current := by
          intro hc
          exact hnd.1 (List.mem_map.2 ⟨q, hq, hc.trans hpc.symm⟩)
        rw [decide_eq_decide]
        constructor
        · intro h hc
          exact h ((contains_append_single_iff _ _ _).2 (Or.inl (List.elem_iff.1 hc)))
        · intro h hc
          rcases (contains_append_single_iff _ _ _).1 hc with hm | he
          · exact h (List.elem_iff.2 hm)
          · exact hqc he
      rw [hfilter]
      simp only [List.map_cons, List.sum_cons, Option.getD_some]
      omega
    · have hsame : (decide ¬((visited ++ [current]).contains p.1 = true))
          = (decide ¬(visited.contains p.1 = true)) := by
        rw [decide_eq_decide]
        constructor
        · intro h hc
          exact h ((contains_append_single_iff _ _ _).2 (Or.inl (List.elem_iff.1 hc)))
        · intro h hc
          rcases (contains_append_single_iff _ _ _).1 hc with hm | he
          · exact h (List.elem_iff.2 hm)
          · exact hpc he
      have hlk : (p :: adj).lookup current = adj.lookup current := by
        rw [lookup_cons, if_neg (by
          intro hc
          exact hpc (beq_iff_eq.1 hc).symm)]
      rw [hlk] at hcur ⊢
      rw [hsame]
      by_cases hkeep : (decide ¬(visited.contains p.1 = true)) = true
      · rw [if_pos hkeep, if_pos hkeep]
        simp only [List.map_cons, List.sum_cons]
        have hih := ih hnd.2 hcur
        rw [dfsFuel, dfsFuel] at hih
        omega
      · rw [if_neg hkeep, if_neg hkeep]
        exact ih hnd.2 hcur

lemma lookup_mem {β : Type} :
    ∀ (m : List (String × β)) (k : String) (v : β), m.lookup k = some v → (k, v) ∈ m := by
  intro m
  induction m with
  | nil => intro k v h; cases h
  | cons p m ih =>
    intro k v h
    rw [lookup_cons] at h
    by_cases hk : (k == p.1) = true
    · rw [if_pos hk] at h
      have hv : v = p.2 := (Option.some.inj h).symm
      rw [beq_iff_eq.1 hk, hv]
      exact List.mem_cons_self _ _
    · rw [if_neg hk] at h
      exact List.mem_cons_of_mem _ (ih k v h)

lemma qmapAdd_entries (m : List (String × QInfo)) (k : String) (v : QInfo)
    (hm : ∀ p ∈ m, (p : String × QInfo).2.id = p.1) (hv : v.id = k) :
    ∀ p ∈ qmapAdd m k v, (p : String × QInfo).2.id = p.1 := by
  intro p hp
  rw [qmapAdd] at hp
  by_cases hs : (m.lookup k).isSome
  · rw [if_pos hs] at hp
    obtain ⟨q, hq, hqe⟩ := List.mem_map.1 hp
    by_cases hqk : (q.1 == k) = true
    · rw [if_pos hqk] at hqe
      rw [← hqe]
      show v.id = q.1
      rw [hv, beq_iff_eq.1 hqk]
    · rw [if_neg hqk] at hqe
      rw [← hqe]
      exact hm q hq
  · rw [if_neg hs] at hp
    rcases List.mem_append.1 hp with h | h
    · exact hm p h
    · rw [List.mem_singleton.1 h]
      exact hv

lemma buildQmap_id (pairs : List DupPair) :
    ∀ (k : String) (v : QInfo), (buildQmap pairs).lookup k = some v → v.id = k := by
  have hent : ∀ p ∈ buildQmap pairs, (p : String × QInfo).2.id = p.1 := by
    rw [buildQmap]
    have : ∀ (l : List DupPair) (m : List (String × QInfo)),
        (∀ p ∈ m, (p : String × QInfo).2.id = p.1) →
        ∀ p ∈ l.foldl (fun m p =>
          qmapAdd (qmapAdd m p.id1 ⟨p.id1, p.text1, p.topic1⟩)
            p.id2 ⟨p.id2, p.text2, p.topic2⟩) m,
          (p : String × QInfo).2.id = p.1 := by
      intro l
      induction l with
      | nil => intro m hm; exact hm
      | cons q l ih =>
        intro m hm
        rw [List.foldl_cons]
        exact ih _ (qmapAdd_entries _ _ _ (qmapAdd_entries _ _ _ hm rfl) rfl)
    exact this pairs [] (by intro p hp; cases hp)
  intro k v hl
  exact hent (k, v) (lookup_mem _ k v hl)

lemma getLast?_split {l : List String} {c : String} (h : l.getLast? = some c) :
    l = l.dropLast ++ [c] := by
  cases l with
  | nil => cases h
  | cons a l =>
    have hne : (a :: l) ≠ [] := by simp
    rw [List.getLast?_eq_getLast _ hne] at h
    rw [← Option.some.inj h] at *
    exact (List.dropLast_append_getLast hne).symm

lemma dfsLoop_spec (adj : List (String × List (String × ℚ)))
    (qmap : List (String × QInfo))
    (hnd : ((adj.map (fun p => p.1)).Nodup))
    (htg : ∀ x y, y ∈ adjNbrIds adj x → ((adj.lookup y).isSome))
    (hq : ∀ k v, qmap.lookup k = some v → v.id = k) :
    ∀ (fuel : Nat) (stack visited : List String) (group : List QInfo),
      stack.length + dfsFuel adj visited ≤ fuel →
      (∀ x ∈ stack, ((adj.lookup x).isSome)) →
      (∀ v ∈ visited, ∀ y ∈ adjNbrIds adj v, y ∈ visited ∨ y ∈ stack) →
      (∀ v ∈ visited, v ∈ (dfsLoop adj qmap fuel stack visited group).1)
      ∧ (∀ x ∈ stack, x ∈ (dfsLoop adj qmap fuel stack visited group).1)
      ∧ (∀ v ∈ (dfsLoop adj qmap fuel stack visited group).1,
          ∀ y ∈ adjNbrIds adj v, y ∈ (dfsLoop adj qmap fuel stack visited group).1)
      ∧ (∀ x, (∃ q ∈ (dfsLoop adj qmap fuel stack visited group).2, q.id = x) ↔
          ((∃ q ∈ group, q.id = x)
            ∨ (x ∈ (dfsLoop adj qmap fuel stack visited group).1 ∧ x ∉ visited))) := by
  intro fuel
  induction fuel with
  | zero =>
    intro stack visited group hfuel hstack hCL
    have hstack0 : stack = [] := List.length_eq_zero.1 (by omega)
    subst hstack0
    refine ⟨fun v hv => hv, fun x hx => absurd hx (List.not_mem_nil x), ?_, ?_⟩
    · intro v hv y hy
      rcases hCL v hv y hy with h | h
      · exact h
      · cases h
    · intro x
      constructor
      · intro hx
        exact Or.inl hx
      · rintro (hx | ⟨h1, h2⟩)
        · exact hx
        · exact absurd h1 h2
  | succ fuel ih =>
    intro stack visited group hfuel hstack hCL
    cases hlast : stack.getLast? with
    | none =>
      have hstack0 : stack = [] := by
        cases stack with
        | nil => rfl
        | cons a l =>
          rw [List.getLast?_eq_getLast _ (by simp)] at hlast
          cases hlast
      subst hstack0
      have hred : dfsLoop adj qmap (fuel + 1) [] visited group = (visited, group) := rfl
      rw [hred]
      refine ⟨fun v hv => hv, fun x hx => absurd hx (List.not_mem_nil x), ?_, ?_⟩
      · intro v hv y hy
        rcases hCL v hv y hy with h | h
        · exact h
        · cases h
      · intro x
        constructor
        · intro hx
          exact Or.inl hx
        · rintro (hx | ⟨h1, h2⟩)
          · exact hx
          · exact absurd h1 h2
    | some current =>
      have hsplit := getLast?_split hlast
      have hcurmem : current ∈ stack := by
        rw [hsplit]
        exact List.mem_append.2 (Or.inr (List.mem_singleton.2 rfl))
      have hlen : stack.length = stack.dropLast.length + 1 := by
        conv_lhs => rw [hsplit]
        simp
      by_cases hc : (visited.contains current) = true
      · have hred : dfsLoop adj qmap (fuel + 1) stack visited group
            = dfsLoop adj qmap fuel stack.dropLast visited group := by
          rw [dfsLoop, hlast]
          exact if_pos hc
        rw [hred]
        obtain ⟨A, B, C, D⟩ := ih stack.dropLast visited group
          (by omega)
          (fun x hx => hstack x ((List.dropLast_sublist stack).subset hx))
          (by
            intro v hv y hy
            rcases hCL v hv y hy with h | h
            · exact Or.inl h
            · rw [hsplit] at h
              rcases List.mem_append.1 h with h' | h'
              · exact Or.inr h'
              · rw [List.mem_singleton.1 h']
                exact Or.inl (List.elem_iff.1 hc))
        refine ⟨A, ?_, C, D⟩
        intro x hx
        rw [hsplit] at hx
        rcases List.mem_append.1 hx with h' | h'
        · exact B x h'
        · rw [List.mem_singleton.1 h']
          exact A current (List.elem_iff.1 hc)
      · have hnv : current ∉ visited := fun hm => hc (List.elem_iff.2 hm)
        have hcur : ((adj.lookup current).isSome) := hstack current hcurmem
        have hred : dfsLoop adj qmap (fuel + 1) stack visited group
            = dfsLoop adj qmap fuel
                (stack.dropLast ++
                  ((((adj.lookup current).getD []).filter
                    (fun nb => ¬ ((visited ++ [current]).contains nb.1 = true))).map
                    (fun nb => nb.1)))
                (visited ++ [current])
                (group ++ [((qmap.lookup current).getD ⟨current, "", ""⟩)]) := by
          rw [dfsLoop, hlast]
          exact if_neg hc
        rw [hred]
        have hjs_sub : ∀ y ∈ (((adj.lookup current).getD []).filter
            (fun nb => ¬ ((visited ++ [current]).contains nb.1 = true))).map
            (fun nb => nb.1), y ∈ adjNbrIds adj current := by
          intro y hy
          obtain ⟨nb, hnb, hnbe⟩ := List.mem_map.1 hy
          exact List.mem_map.2 ⟨nb, List.mem_filter.1 hnb |>.1, hnbe⟩
        have hfuel' : (stack.dropLast ++
            ((((adj.lookup current).getD []).filter
              (fun nb => ¬ ((visited ++ [current]).contains nb.1 = true))).map
              (fun nb => nb.1))).length + dfsFuel adj (visited ++ [current]) ≤ fuel := by
          have hins := dfsFuel_insert adj hnd visited current hcur hnv
          have hjslen : ((((adj.lookup current).getD []).filter
              (fun nb => ¬ ((visited ++ [current]).contains nb.1 = true))).map
              (fun nb => nb.1)).length ≤ ((adj.lookup current).getD []).length := by
            rw [List.length_map]
            exact List.length_filter_le _ _
          rw [List.length_append]
          omega
        obtain ⟨A, B, C, D⟩ := ih _ (visited ++ [current]) _
          hfuel'
          (by
            intro x hx
            rcases List.mem_append.1 hx with h' | h'
            · exact hstack x ((List.dropLast_sublist stack).subset h')
            · exact htg current x (hjs_sub x h'))
          (by
            intro v hv y hy
            rcases List.mem_append.1 hv with hv' | hv'
            · rcases hCL v hv' y hy with h | h
              · exact Or.inl (List.mem_append.2 (Or.inl h))
              · rw [hsplit] at h
                rcases List.mem_append.1 h with h' | h'
                · exact Or.inr (List.mem_append.2 (Or.inl h'))
                · exact Or.inl (List.mem_append.2 (Or.inr h'))
            · rw [List.mem_singleton.1 hv'] at hy
              by_cases hyv : ((visited ++ [current]).contains y = true)
              · exact Or.inl (List.elem_iff.1 hyv)
              · refine Or.inr (List.mem_append.2 (Or.inr ?_))
                obtain ⟨nb, hnb, hnbe⟩ := List.mem_map.1 hy
                refine List.mem_map.2 ⟨nb, List.mem_filter.2 ⟨hnb, ?_⟩, hnbe⟩
                rw [decide_eq_true_eq]
                rw [hnbe]
                exact fun hcc => hyv hcc)
        have hqid : ((qmap.lookup current).getD ⟨current, "", ""⟩).id = current := by
          cases hql : qmap.lookup current with
          | none => rfl
          | some v =>
            rw [Option.getD_some]
            exact hq current v hql
        refine ⟨?_, ?_, C, ?_⟩
        · intro v hv
          exact A v (List.mem_append.2 (Or.inl hv))
        · intro x hx
          rw [hsplit] at hx
          rcases List.mem_append.1 hx with h' | h'
          · exact B x (List.mem_append.2 (Or.inl h'))
          · rw [List.mem_singleton.1 h']
            exact A current (List.mem_append.2 (Or.inr (List.mem_singleton.2 rfl)))
        · intro x
          rw [D x]
          constructor
          · rintro (hg | ⟨h1, h2⟩)
            · obtain ⟨q, hq', hqe⟩ := hg
              rcases List.mem_append.1 hq' with hq'' | hq''
              · exact Or.inl ⟨q, hq'', hqe⟩
              · rw [List.mem_singleton.1 hq''] at hqe
                have hxc : x = current := hqe ▸ hqid
                rw [hxc]
                exact Or.inr ⟨A current
                  (List.mem_append.2 (Or.inr (List.mem_singleton.2 rfl))), hnv⟩
            · refine Or.inr ⟨h1, fun hm => h2 (List.mem_append.2 (Or.inl hm))⟩
          · rintro (hg | ⟨h1, h2⟩)
            · obtain ⟨q, hq', hqe⟩ := hg
              exact Or.inl ⟨q, List.mem_append.2 (Or.inl hq'), hqe⟩
            · by_cases hxc : x = current
              · refine Or.inl ⟨(qmap.lookup current).getD ⟨current, "", ""⟩,
                  List.mem_append.2 (Or.inr (List.mem_singleton.2 rfl)), ?_⟩
                rw [hqid, hxc]
              · refine Or.inr ⟨h1, ?_⟩
                intro hm
                rcases List.mem_append.1 hm with hm' | hm'
                · exact h2 hm'
                · exact hxc (List.mem_singleton.1 hm')

lemma chain_delta (adj : List (String × List (String × ℚ)))
    (hsym : ∀ x y, y ∈ adjNbrIds adj x → x ∈ adjNbrIds adj y)
    (vis r1 : List String)
    (hclV : ∀ v ∈ vis, ∀ y ∈ adjNbrIds adj v, y ∈ vis)
    (hclR : ∀ v ∈ r1, ∀ y ∈ adjNbrIds adj v, y ∈ r1) :
    ∀ x y, Relation.ReflTransGen (fun u w => w ∈ adjNbrIds adj u) x y →
      x ∈ r1 → x ∉ vis → y ∈ r1 ∧ y ∉ vis := by
  intro x y h
  induction h with
  | refl => exact fun h1 h2 => ⟨h1, h2⟩
  | tail hxz hstep ih =>
    intro hx1 hx2
    obtain ⟨hz1, hz2⟩ := ih hx1 hx2
    refine ⟨hclR _ hz1 _ hstep, ?_⟩
    intro hcv
    exact hz2 (hclV _ hcv _ (hsym _ _ hstep))

lemma length_lt_of_two_mem {α : Type} {l : List α} {a b : α}
    (ha : a ∈ l) (hb : b ∈ l) (hne : a ≠ b) : 1 < l.length := by
  cases l with
  | nil => cases ha
  | cons x t =>
    cases t with
    | nil =>
      rw [List.mem_singleton.1 ha, List.mem_singleton.1 hb] at hne
      exact absurd rfl hne
    | cons y t => simp

lemma groupsLoop_spec (pairs : List DupPair)
    (adj : List (String × List (String × ℚ))) (qmap : List (String × QInfo))
    (hnd : ((adj.map (fun p => p.1)).Nodup))
    (htg : ∀ x y, y ∈ adjNbrIds adj x → ((adj.lookup y).isSome))
    (hq : ∀ k v, qmap.lookup k = some v → v.id = k)
    (hsym : ∀ x y, y ∈ adjNbrIds adj x → x ∈ adjNbrIds adj y) :
    ∀ (keys visited : List String) (groups : List Group),
      (∀ k ∈ keys, ((adj.lookup k).isSome)) →
      (∀ v ∈ visited, ∀ y ∈ adjNbrIds adj v, y ∈ visited) →
      (∀ g ∈ groups, g ∈ (groupsLoop pairs adj qmap keys visited groups).2)
      ∧ (∀ x y, Relation.ReflTransGen (fun u w => w ∈ adjNbrIds adj u) x y → x ≠ y →
          x ∈ keys → x ∉ visited →
          ∃ g ∈ (groupsLoop pairs adj qmap keys visited groups).2,
            (∃ q ∈ g.questions, q.id = x) ∧ (∃ q ∈ g.questions, q.id = y)) := by
  intro keys
  induction keys with
  | nil =>
    intro visited groups hkeys hcl
    exact ⟨fun g hg => hg, fun x y _ _ hx _ => absurd hx (List.not_mem_nil x)⟩
  | cons k keys ih =>
    intro visited groups hkeys hcl
    by_cases hkv : (visited.contains k) = true
    · have hred : groupsLoop pairs adj qmap (k :: keys) visited groups
          = groupsLoop pairs adj qmap keys visited groups := by
        rw [groupsLoop]
        exact if_pos hkv
      rw [hred]
      obtain ⟨R4, R5⟩ := ih visited groups
        (fun k' hk' => hkeys k' (List.mem_cons_of_mem _ hk')) hcl
      refine ⟨R4, ?_⟩
      intro x y hch hne hx hxv
      rcases List.mem_cons.1 hx with hxk | hxk
      · exact absurd (hxk ▸ List.elem_iff.1 hkv) hxv
      · exact R5 x y hch hne hxk hxv
    · obtain ⟨A, B, C, Dd⟩ := dfsLoop_spec adj qmap hnd htg hq
        (1 + dfsFuel adj visited) [k] visited []
        (by simp)
        (by
          intro x hx
          rw [List.mem_singleton.1 hx]
          exact hkeys k (List.mem_cons_self _ _))
        (by
          intro v hv y hy
          exact Or.inl (hcl v hv y hy))
      have hred : groupsLoop pairs adj qmap (k :: keys) visited groups
          = groupsLoop pairs adj qmap keys
              (dfsLoop adj qmap (1 + dfsFuel adj visited) [k] visited []).1
              (if 1 < (dfsLoop adj qmap (1 + dfsFuel adj visited) [k] visited []).2.length
               then groups ++
                 [⟨(dfsLoop adj qmap (1 + dfsFuel adj visited) [k] visited []).2,
                   avgScore pairs
                     (dfsLoop adj qmap (1 + dfsFuel adj visited) [k] visited []).2⟩]
               else groups) := by
        rw [groupsLoop]
        exact if_neg hkv
      rw [hred]
      set d := dfsLoop adj qmap (1 + dfsFuel adj visited) [k] visited [] with hd
      obtain ⟨R4, R5⟩ := ih d.1
        (if 1 < d.2.length
         then groups ++ [⟨d.2, avgScore pairs d.2⟩] else groups)
        (fun k' hk' => hkeys k' (List.mem_cons_of_mem _ hk')) C
      constructor
      · intro g hg
        refine R4 g ?_
        by_cases hlen : 1 < d.2.length
        · rw [if_pos hlen]
          exact List.mem_append.2 (Or.inl hg)
        · rw [if_neg hlen]
          exact hg
      · intro x y hch hne hx hxv
        by_cases hxin : x ∈ d.1 ∧ x ∉ visited
        · obtain ⟨hy1, hy2⟩ := chain_delta adj hsym visited d.1 hcl C x y hch
            hxin.1 hxin.2
          have hgx : ∃ q ∈ d.2, q.id = x := (Dd x).2 (Or.inr hxin)
          have hgy : ∃ q ∈ d.2, q.id = y := (Dd y).2 (Or.inr ⟨hy1, hy2⟩)
          have hlen : 1 < d.2.length := by
            obtain ⟨qx, hqx, hqxe⟩ := hgx
            obtain ⟨qy, hqy, hqye⟩ := hgy
            exact length_lt_of_two_mem hqx hqy
              (fun hc => hne (by rw [← hqxe, hc, hqye]))
          refine ⟨⟨d.2, avgScore pairs d.2⟩, R4 _ ?_, hgx, hgy⟩
          rw [if_pos hlen]
          exact List.mem_append.2 (Or.inr (List.mem_singleton.2 rfl))
        · have hxr : x ∉ d.1 := fun hc => hxin ⟨hc, hxv⟩
          have hxk' : x ∈ keys := by
            rcases List.mem_cons.1 hx with hxk | h
            · exact absurd (hxk ▸ B k (List.mem_singleton.2 rfl)) hxr
            · exact h
          exact R5 x y hch hne hxk' hxr

lemma mem_insertScoreDesc (g : Group) :
    ∀ (l : List Group) (x : Group), x ∈ insertScoreDesc g l ↔ x = g ∨ x ∈ l := by
  intro l
  induction l with
  | nil => intro x; simp [insertScoreDesc]
  | cons h t ih =>
    intro x
    rw [insertScoreDesc]
    by_cases hc : h.average_score ≤ g.average_score
    · rw [if_pos hc]
      simp only [List.mem_cons]
    · rw [if_neg hc]
      simp only [List.mem_cons, ih]
      tauto

lemma mem_sortScoreDesc (l : List Group) (x : Group) :
    x ∈ sortScoreDesc l ↔ x ∈ l := by
  induction l with
  | nil => simp [sortScoreDesc]
  | cons h t ih =>
    rw [show sortScoreDesc (h :: t) = insertScoreDesc h (sortScoreDesc t) from rfl,
      mem_insertScoreDesc, ih]
    simp

/-- The spec's transitive-clustering example: the two above-threshold
pairs A–B and B–C (similarity 0.9 each at threshold 0.8; A–C at 0.3
is below threshold and produces no pair). -/
def c6pairs : List DupPair :=
  [{ id1 := "A", text1 := "qa", topic1 := "t", id2 := "B", text2 := "qb",
     topic2 := "t", score := 9 / 10 },
   { id1 := "B", text1 := "qb", topic1 := "t", id2 := "C", text2 := "qc",
     topic2 := "t", score := 9 / 10 }]

end DuplicateServiceFallback

namespace ValidationService

/-- `content.split('\n')` (empty pieces kept). -/
def splitNl : List Char → List (List Char)
  | [] => [[]]
  | c :: rest =>
      if c = '\n' then [] :: splitNl rest
      else
        match splitNl rest with
        | [] => [[c]]
        | l :: ls => (c :: l) :: ls

/-- Python substring containment (`'x' in s`). -/
def containsSub (needle : List Char) : List Char → Bool
  | [] => needle.isPrefixOf []
  | c :: rest => needle.isPrefixOf (c :: rest) || containsSub needle rest

/-- `'\n'.join(...)`. -/
def joinNl (ls : List (List Char)) : List Char := List.intercalate ['\n'] ls

/-- `\s*(.+)$` applied to a non-empty remainder `c`: the greedy
whitespace run backs off one character when it would leave `(.+)`
nothing to match. -/
def wsBacktrack (c : List Char) : List Char :=
  if c.dropWhile Char.isWhitespace = [] then c.drop (c.length - 1)
  else c.dropWhile Char.isWhitespace

/-- The non-greedy `.*?:` search inside
`^## (?:Subtopic.*?:\s*)?(.+)$`: the first `':'` followed by a
non-empty remainder (a trailing `':'` forces further extension). -/
def groupAfterColon : List Char → Option (List Char)
  | [] => none
  | c :: rest =>
      if c = ':' ∧ rest ≠ [] then some rest else groupAfterColon rest

/-- `re.match(r'^## (?:Subtopic.*?:\s*)?(.+)$', line)` followed by
`.group(1).strip()` (`\s` is modelled by `Char.isWhitespace`). -/
def subtopicMatch (line : List Char) : Option (List Char) :=
  if "## ".data.isPrefixOf line then
    if line.drop 3 = [] then none
    else if "Subtopic".data.isPrefixOf (line.drop 3) then
      match groupAfterColon ((line.drop 3).drop 8) with
      | some c => some (IDGenerator.stripL (wsBacktrack c))
      | none => some (IDGenerator.stripL (line.drop 3))
    else some (IDGenerator.stripL (line.drop 3))
  else none

/-- `re.match(r'^### Difficulty:\s*(Basic|Advanced)$', line)`: both
alternatives start with a non-whitespace character, so the greedy
`\s*` never backtracks. -/
def difficultyMatch (line : List Char) : Option (List Char) :=
  if "### Difficulty:".data.isPrefixOf line then
    if (line.drop 15).dropWhile Char.isWhitespace = "Basic".data
        ∨ (line.drop 15).dropWhile Char.isWhitespace = "Advanced".data then
      some ((line.drop 15).dropWhile Char.isWhitespace)
    else none
  else none

/-- `re.match(r'^#### Type:\s*(.+)$', line)`, the raw group. -/
def typeMatch (line : List Char) : Option (List Char) :=
  if "#### Type:".data.isPrefixOf line then
    if line.drop 10 = [] then none
    else some (wsBacktrack (line.drop 10))
  else none

/-- Python truthiness of the `Optional[str]` context fields. -/
def optTruthy : Option (List Char) → Bool
  | none => false
  | some s => ¬ s.isEmpty

/-- The parser state of `_extract_question_blocks`. -/
structure ExtractState where
  blocks : List (List Char)
  current_subtopic : List Char
  current_difficulty : Option (List Char)
  current_type : Option (List Char)
  current_question_block : List (List Char)
  in_question_block : Bool

/-- `save_current_block()`: append the accumulated block when one is
open, longer than three lines, and carries both markers. -/
def save_current_block (st : ExtractState) : List (List Char) :=
  if st.in_question_block ∧ 3 < st.current_question_block.length
      ∧ (containsSub "**Question:**".data (joinNl st.current_question_block))
      ∧ (containsSub "**Answer:**".data (joinNl st.current_question_block)) then
    st.blocks ++ [joinNl st.current_question_block]
  else st.blocks

/-- One line of the `for line in lines` loop: the three heading
matchers (on the raw line, in source order) save and reset; a line
containing the Question marker (after strip) saves, and opens a new
block only when both context fields are truthy — the question branch
leaves the block state untouched otherwise; other lines are collected
while a block is open. -/
def extractLine (st : ExtractState) (line : List Char) : ExtractState :=
  match subtopicMatch line with
  | some sub =>
      { st with blocks := save_current_block st, current_subtopic := sub,
                in_question_block := false, current_question_block := [] }
  | none =>
  match difficultyMatch line with
  | some d =>
      { st with blocks := save_current_block st, current_difficulty := some d,
                in_question_block := false, current_question_block := [] }
  | none =>
  match typeMatch line with
  | some t =>
      { st with blocks := save_current_block st,
                current_type := some (IDGenerator.stripL t),
                in_question_block := false, current_question_block := [] }
  | none =>
  if containsSub "**Question:**".data (IDGenerator.stripL line) then
    if optTruthy st.current_difficulty ∧ optTruthy st.current_type then
      { st with blocks := save_current_block st, in_question_block := true,
                current_question_block :=
                  ["## Subtopic: ".data ++ st.current_subtopic,
                   "### Difficulty: ".data ++ (st.current_difficulty.getD []),
                   "#### Type: ".data ++ (st.current_type.getD []),
                   line] }
    else { st with blocks := save_current_block st }
  else if st.in_question_block then
    { st with current_question_block := st.current_question_block ++ [line] }
  else st

def initExtract : ExtractState :=
  { blocks := [], current_subtopic := "Unknown".data, current_difficulty := none,
    current_type := none, current_question_block := [], in_question_block := false }

/-- `ValidationService._extract_question_blocks`. -/
def extract_question_blocks (content : List Char) : List (List Char) :=
  save_current_block ((splitNl content).foldl extractLine initExtract)

/-- SPEC-SIDE variant (from the spec's words, for the C9 comparison —
not translated from the source): "a block begins at a Question marker
(only if difficulty+type context already set) and ends when the next
context-changing heading appears or the document ends", so a Question
marker met while a block is open is ordinary block content and ends
nothing. -/
def specExtractLine (st : ExtractState) (line : List Char) : ExtractState :=
  match subtopicMatch line with
  | some sub =>
      { st with blocks := save_current_block st, current_subtopic := sub,
                in_question_block := false, current_question_block := [] }
  | none =>
  match difficultyMatch line with
  | some d =>
      { st with blocks := save_current_block st, current_difficulty := some d,
                in_question_block := false, current_question_block := [] }
  | none =>
  match typeMatch line with
  | some t =>
      { st with blocks := save_current_block st,
                current_type := some (IDGenerator.stripL t),
                in_question_block := false, current_question_block := [] }
  | none =>
  if st.in_question_block then
    { st with current_question_block := st.current_question_block ++ [line] }
  else if containsSub "**Question:**".data (IDGenerator.stripL line) then
    if optTruthy st.current_difficulty ∧ optTruthy st.current_type then
      { st with in_question_block := true,
                current_question_block :=
                  ["## Subtopic: ".data ++ st.current_subtopic,
                   "### Difficulty: ".data ++ (st.current_difficulty.getD []),
                   "#### Type: ".data ++ (st.current_type.getD []),
                   line] }
    else st
  else st

def specExtract (content : List Char) : List (List Char) :=
  save_current_block ((splitNl content).foldl specExtractLine initExtract)

/-- The C9 counterexample document: one heading run with two
question/answer runs under it. -/
def c9doc : List Char :=
  ("## S\n### Difficulty: Basic\n#### Type: Question\n**Question:** q1\n**Answer:** a1\n**Question:** q2\n**Answer:** a2").data

lemma save_current_block_marked (st : ExtractState)
    (h : ∀ b ∈ st.blocks, (containsSub "**Question:**".data b) = true
      ∧ (containsSub "**Answer:**".data b) = true) :
    ∀ b ∈ save_current_block st, (containsSub "**Question:**".data b) = true
      ∧ (containsSub "**Answer:**".data b) = true := by
  intro b hb
  rw [save_current_block] at hb
  split at hb
  · rename_i hcond
    rcases List.mem_append.1 hb with h1 | h1
    · exact h b h1
    · rw [List.mem_singleton.1 h1]
      exact ⟨hcond.2.2.1, hcond.2.2.2⟩
  · exact h b hb

lemma extractLine_blocks_shape (st : ExtractState) (line : List Char) :
    (extractLine st line).blocks = save_current_block st
    ∨ (extractLine st line).blocks = st.blocks := by
  rw [extractLine]
  cases subtopicMatch line with
  | some sub => exact Or.inl rfl
  | none =>
    cases difficultyMatch line with
    | some d => exact Or.inl rfl
    | none =>
      cases typeMatch line with
      | some t => exact Or.inl rfl
      | none =>
        by_cases hq : (containsSub "**Question:**".data (IDGenerator.stripL line)) = true
        · rw [if_pos hq]
          by_cases hc : (optTruthy st.current_difficulty = true
              ∧ optTruthy st.current_type = true)
          · rw [if_pos hc]
            exact Or.inl rfl
          · rw [if_neg hc]
            exact Or.inl rfl
        · rw [if_neg hq]
          by_cases hin : st.in_question_block = true
          · rw [if_pos hin]
            exact Or.inr rfl
          · rw [if_neg hin]
            exact Or.inr rfl

lemma foldl_blocks_marked :
    ∀ (lines : List (List Char)) (st : ExtractState),
      (∀ b ∈ st.blocks, (containsSub "**Question:**".data b) = true
        ∧ (containsSub "**Answer:**".data b) = true) →
      ∀ b ∈ (lines.foldl extractLine st).blocks,
        (containsSub "**Question:**".data b) = true
        ∧ (containsSub "**Answer:**".data b) = true := by
  intro lines
  induction lines with
  | nil => intro st h; exact h
  | cons l lines ih =>
    intro st h
    rw [List.foldl_cons]
    refine ih (extractLine st l) ?_
    rcases extractLine_blocks_shape st l with hs | hs
    · rw [hs]
      exact save_current_block_marked st h
    · rw [hs]
      exact h

lemma extract_blocks_marked (content : List Char) :
    ∀ b ∈ extract_question_blocks content,
      (containsSub "**Question:**".data b) = true
      ∧ (containsSub "**Answer:**".data b) = true := by
  rw [extract_question_blocks]
  exact save_current_block_marked _
    (foldl_blocks_marked (splitNl content) initExtract (by intro b hb; cases hb))

lemma extractLine_no_difficulty (st : ExtractState) (line : List Char)
    (hnd : difficultyMatch line = none) (h1 : st.current_difficulty = none)
    (h2 : st.in_question_block = false) (h3 : st.blocks = []) :
    (extractLine st line).current_difficulty = none
    ∧ (extractLine st line).in_question_block = false
    ∧ (extractLine st line).blocks = [] := by
  have hsave : save_current_block st = [] := by
    rw [save_current_block, if_neg]
    · exact h3
    · intro hc
      rw [h2] at hc
      cases hc.1
  have hopt : ¬ (optTruthy st.current_difficulty = true
      ∧ optTruthy st.current_type = true) := by
    rintro ⟨ha, _⟩
    rw [h1] at ha
    cases ha
  rw [extractLine]
  cases subtopicMatch line with
  | some sub => exact ⟨h1, rfl, hsave⟩
  | none =>
    rw [hnd]
    cases typeMatch line with
    | some t => exact ⟨h1, rfl, hsave⟩
    | none =>
      by_cases hq : (containsSub "**Question:**".data (IDGenerator.stripL line)) = true
      · rw [if_pos hq, if_neg hopt]
        exact ⟨h1, h2, hsave⟩
      · rw [if_neg hq]
        by_cases hin : st.in_question_block = true
        · rw [h2] at hin
          cases hin
        · rw [if_neg hin]
          exact ⟨h1, h2, h3⟩

lemma extractLine_no_type (st : ExtractState) (line : List Char)
    (hnt : typeMatch line = none) (h1 : st.current_type = none)
    (h2 : st.in_question_block = false) (h3 : st.blocks = []) :
    (extractLine st line).current_type = none
    ∧ (extractLine st line).in_question_block = false
    ∧ (extractLine st line).blocks = [] := by
  have hsave : save_current_block st = [] := by
    rw [save_current_block, if_neg]
    · exact h3
    · intro hc
      rw [h2] at hc
      cases hc.1
  have hopt : ¬ (optTruthy st.current_difficulty = true
      ∧ optTruthy st.current_type = true) := by
    rintro ⟨_, hb⟩
    rw [h1] at hb
    cases hb
  rw [extractLine]
  cases subtopicMatch line with
  | some sub => exact ⟨h1, rfl, hsave⟩
  | none =>
    cases difficultyMatch line with
    | some d => exact ⟨h1, rfl, hsave⟩
    | none =>
      rw [hnt]
      by_cases hq : (containsSub "**Question:**".data (IDGenerator.stripL line)) = true
      · rw [if_pos hq, if_neg hopt]
        exact ⟨h1, h2, hsave⟩
      · rw [if_neg hq]
        by_cases hin : st.in_question_block = true
        · rw [h2] at hin
          cases hin
        · rw [if_neg hin]
          exact ⟨h1, h2, h3⟩

lemma extract_no_difficulty (content : List Char)
    (hl : ∀ l ∈ splitNl content, difficultyMatch l = none) :
    extract_question_blocks content = [] := by
  rw [extract_question_blocks]
  have hfold : ∀ (lines : List (List Char)) (st : ExtractState),
      (∀ l ∈ lines, difficultyMatch l = none) →
      st.current_difficulty = none → st.in_question_block = false → st.blocks = [] →
      (lines.foldl extractLine st).current_difficulty = none
      ∧ (lines.foldl extractLine st).in_question_block = false
      ∧ (lines.foldl extractLine st).blocks = [] := by
    intro lines
    induction lines with
    | nil => intro st _ ha hb hc; exact ⟨ha, hb, hc⟩
    | cons l lines ih =>
      intro st hml ha hb hc
      rw [List.foldl_cons]
      obtain ⟨hA, hB, hC⟩ := extractLine_no_difficulty st l
        (hml l (List.mem_cons_self _ _)) ha hb hc
      exact ih _ (fun l' hl' => hml l' (List.mem_cons_of_mem _ hl')) hA hB hC
  obtain ⟨_, hB, hC⟩ := hfold (splitNl content) initExtract hl rfl rfl rfl
  rw [save_current_block, if_neg]
  · exact hC
  · intro hcond
    rw [hB] at hcond
    cases hcond.1

lemma extract_no_type (content : List Char)
    (hl : ∀ l ∈ splitNl content, typeMatch l = none) :
    extract_question_blocks content = [] := by
  rw [extract_question_blocks]
  have hfold : ∀ (lines : List (List Char)) (st : ExtractState),
      (∀ l ∈ lines, typeMatch l = none) →
      st.current_type = none → st.in_question_block = false → st.blocks = [] →
      (lines.foldl extractLine st).current_type = none
      ∧ (lines.foldl extractLine st).in_question_block = false
      ∧ (lines.foldl extractLine st).blocks = [] := by
    intro lines
    induction lines with
    | nil => intro st _ ha hb hc; exact ⟨ha, hb, hc⟩
    | cons l lines ih =>
      intro st hml ha hb hc
      rw [List.foldl_cons]
      obtain ⟨hA, hB, hC⟩ := extractLine_no_type st l
        (hml l (List.mem_cons_self _ _)) ha hb hc
      exact ih _ (fun l' hl' => hml l' (List.mem_cons_of_mem _ hl')) hA hB hC
  obtain ⟨_, hB, hC⟩ := hfold (splitNl content) initExtract hl rfl rfl rfl
  rw [save_current_block, if_neg]
  · exact hC
  · intro hcond
    rw [hB] at hcond
    cases hcond.1

end ValidationService

namespace StagingService

/-- SPEC-SIDE definition (from the spec's words, for the C5
refinement comparison — not translated from the source): the fallback
is described as "an O(n²) in-process pairwise scan using the identical
metric/threshold, producing equivalent clusters", so a pending staged
row is to be marked when some existing question reaches the metric's
threshold. -/
def specFallbackMarks (threshold : ℚ) (db : DB) (q : StagedQuestion) : Prop :=
  ∃ e ∈ db.all_questions,
    threshold ≤ DuplicateServiceFallback.calculate_similarity q.question e.question

/-- The staged row of the C5 counterexample: a near-duplicate (one
extra question mark) of the existing question. -/
def c5Row : StagedQuestion :=
  { question_id := "S-1", upload_batch_id := "B1", topic := "DCF", subtopic := "WACC",
    question := "What is WACC??", answer := "a", status := .pending,
    duplicate_of := none, similarity_score := none }

def c5Existing : ProductionQuestion :=
  { question_id := "Q-1", question := "What is WACC?" }

def c5DB : DB :=
  { upload_batches := [], staged_questions := [c5Row],
    all_questions := [c5Existing], staging_duplicates := [] }

end StagingService

/-- C8: `validate_question_content` returns `is_valid = true` iff its
error list is empty; the error list is empty iff every question passes
the fixed checks (difficulty/type in the allowed sets, subtopic ≤ 100,
question ≤ 5000, answer ≤ 10000, question/answer non-empty after
trimming); the warning list is empty iff no question is longer than
1000 chars and no answer longer than 2000 chars, so over-length
questions/answers inside the limits yield warnings only and warnings
play no role in `is_valid`. -/
theorem validate_question_content_spec (qs : List ValidationService.ParsedQuestion) :
    ((ValidationService.validate_question_content qs).is_valid = true ↔
      (ValidationService.validate_question_content qs).errors = [])
    ∧ ((ValidationService.validate_question_content qs).is_valid = true ↔
      ∀ q ∈ qs, ValidationService.contentOk q)
    ∧ ((ValidationService.validate_question_content qs).warnings = [] ↔
      ∀ q ∈ qs, q.question.length ≤ 1000 ∧ q.answer.length ≤ 2000) := by
  have herr : ∀ i j (q : ValidationService.ParsedQuestion),
      ValidationService.questionErrors i q = [] →
      ValidationService.questionErrors j q = [] := by
    intro i j q h
    exact (ValidationService.questionErrors_eq_nil_iff j q).2
      ((ValidationService.questionErrors_eq_nil_iff i q).1 h)
  have hwarn : ∀ i j (q : ValidationService.ParsedQuestion),
      ValidationService.questionWarnings i q = [] →
      ValidationService.questionWarnings j q = [] := by
    intro i j q h
    exact (ValidationService.questionWarnings_eq_nil_iff j q).2
      ((ValidationService.questionWarnings_eq_nil_iff i q).1 h)
  refine ⟨?_, ?_, ?_⟩
  · rw [ValidationService.validate_is_valid_eq, ValidationService.validate_errors_eq,
      List.isEmpty_iff]
  · rw [ValidationService.validate_is_valid_eq, List.isEmpty_iff,
      ValidationService.enumBind_eq_nil_iff _ herr]
    exact forall₂_congr fun q _ => ValidationService.questionErrors_eq_nil_iff 1 q
  · rw [ValidationService.validate_warnings_eq,
      ValidationService.enumBind_eq_nil_iff _ hwarn]
    exact forall₂_congr fun q _ => ValidationService.questionWarnings_eq_nil_iff 1 q

set_option maxRecDepth 100000 in
/-- C3 (counterexample): a store in which every id
`DCF-WAC-B-Q-100 … DCF-WAC-B-Q-109` tried by the ten bounded attempts
of `ensure_unique_id` already exists — yet the call does not fail with
a "sequence exhausted" error: it returns `DCF-WAC-B-Q-110`, an id that
itself already exists in the staged store. -/
theorem ensure_unique_id_exhaustion_counterexample :
    (∀ k < 10, IDGenerator.fmtId "DCF-WAC-B-Q"
        (IDGenerator.get_next_sequence "DCF-WAC-B-Q" [] IDGenerator.exhaustedStore + k)
        ∈ IDGenerator.exhaustedStore)
    ∧ IDGenerator.ensure_unique_id "DCF-WAC-B-Q" [] IDGenerator.exhaustedStore
        = "DCF-WAC-B-Q-110"
    ∧ "DCF-WAC-B-Q-110" ∈ IDGenerator.exhaustedStore := by
  decide

/-- C3 (amended): when all bounded attempts are exhausted,
`ensure_unique_id` raises no error at all: every call returns either an
id absent from both stores, or — after the ten failed attempts — the
eleventh candidate `base-(s₀+10)` unchecked, which may collide with an
existing id; conflict detection is left to the store's unique
constraint. -/
theorem ensure_unique_id_exhaustion_behavior (base : String) (all staged : List String) :
    (IDGenerator.ensure_unique_id base all staged ∉ all ∧
      IDGenerator.ensure_unique_id base all staged ∉ staged) ∨
    IDGenerator.ensure_unique_id base all staged =
      IDGenerator.fmtId base (IDGenerator.get_next_sequence base all staged + 10) := by
  simpa [IDGenerator.ensure_unique_id] using
    IDGenerator.ensureLoop_spec all staged base 10
      (IDGenerator.get_next_sequence base all staged)

/-- C1 (counterexample): a batch with one `Approved` staged question
and correct counters (`0+1+0+0 = 1 = total_questions`); after
`import_approved` the row is `Imported`, which none of the four
counters counts, so `questions_pending + questions_approved +
questions_rejected + questions_duplicate = 0 ≠ 1 = total_questions`
although `import_approved` is a staging-workflow operation that ends
by refreshing the counters. -/
theorem batch_counters_sum_counterexample :
    StagingService.countersInv StagingService.importCounterexampleDB ∧
    StagingService.wellFormed StagingService.importCounterexampleDB ∧
    ∃ b ∈ (StagingService.import_approved "b"
        StagingService.importCounterexampleDB).1.upload_batches,
      b.questions_pending + b.questions_approved + b.questions_rejected +
        b.questions_duplicate ≠ b.total_questions := by
  decide

/-- C1 (amended): provided every batch's counters agree with its
rows' status counts and the staged/production primary keys hold,
every staging-workflow operation (approve, reject, duplicate
detection on either path, duplicate resolution, import) preserves
both, and afterwards every batch's four counters sum to the number of
its staged rows whose status is not `Imported` — hence to
`total_questions` exactly as long as total matches the row count and
no row has been imported. -/
theorem batch_counters_sum_amended (op : StagingService.Op) (db db' : StagingService.DB)
    (hwf : StagingService.wellFormed db) (hinv : StagingService.countersInv db)
    (hstep : StagingService.step op db = some db') :
    StagingService.countersInv db' ∧ StagingService.wellFormed db' ∧
    ∀ b ∈ db'.upload_batches,
      b.questions_pending + b.questions_approved + b.questions_rejected +
        b.questions_duplicate
      = ((StagingService.rowsOfL db'.staged_questions b.batch_id).filter
          (fun q => !(q.status == .imported))).length := by
  obtain ⟨hinv', hwf'⟩ := StagingService.step_inv op db db' hwf hinv hstep
  refine ⟨hinv', hwf', ?_⟩
  intro b hb
  obtain ⟨h1, h2, h3, h4⟩ := hinv' b hb
  rw [h1, h2, h3, h4]
  exact StagingService.countStatus_sum _

/-- C1 (witness): the amended theorem applied to a concrete approve
call on a two-row batch. -/
theorem batch_counters_sum_amended_witness :
    StagingService.step (.approve "b" ["Q-1"]) StagingService.counterWitnessDB
        = some StagingService.counterWitnessDB' ∧
    (StagingService.countersInv StagingService.counterWitnessDB' ∧
      StagingService.wellFormed StagingService.counterWitnessDB' ∧
      ∀ b ∈ StagingService.counterWitnessDB'.upload_batches,
        b.questions_pending + b.questions_approved + b.questions_rejected +
          b.questions_duplicate
        = ((StagingService.rowsOfL StagingService.counterWitnessDB'.staged_questions
            b.batch_id).filter (fun q => !(q.status == .imported))).length) := by
  have hstep : StagingService.step (.approve "b" ["Q-1"]) StagingService.counterWitnessDB
      = some StagingService.counterWitnessDB' := by decide
  exact ⟨hstep, batch_counters_sum_amended (.approve "b" ["Q-1"])
    StagingService.counterWitnessDB StagingService.counterWitnessDB'
    (by decide) (by decide) hstep⟩

/-- C2 (counterexample): a staged question whose status is `Imported`
is listed in an `approve_questions` call for its batch: the call
succeeds and reverts the question's status to `Approved`. -/
theorem imported_revert_counterexample :
    StagingService.importedRowDB.staged_questions.map (fun q => q.status)
        = [.imported] ∧
    (StagingService.approve_questions "b" ["Q-1"] StagingService.importedRowDB).map
        (fun db => db.staged_questions.map (fun q => q.status)) = some [.approved] := by
  decide

/-- C2 (amended): under the staged primary key and correct counters,
an `Imported` row is left completely unchanged by `detect_duplicates`
(either path) and by `import_approved` — these filter by status — but
`approve_questions` and `reject_questions` update every targeted row
unconditionally, so an `Imported` question whose id is listed is
reverted to `Approved` resp. `Rejected`. -/
theorem imported_status_mutability (db : StagingService.DB)
    (hwf : StagingService.wellFormed db) (hinv : StagingService.countersInv db)
    (i : Nat) (q : StagingService.StagedQuestion)
    (hq : db.staged_questions.get? i = some q) (himp : q.status = .imported) :
    (∀ bid sim,
      (StagingService.detect_duplicates bid sim db).staged_questions.get? i = some q) ∧
    (∀ bid t,
      (StagingService.detect_duplicates_fallback bid t db).staged_questions.get? i = some q) ∧
    (∀ bid,
      (StagingService.import_approved bid db).1.staged_questions.get? i = some q) ∧
    (∀ bid ids db2, q.upload_batch_id = bid → q.question_id ∈ ids →
      StagingService.approve_questions bid ids db = some db2 →
      db2.staged_questions.get? i = some { q with status := .approved }) ∧
    (∀ bid ids db2, q.upload_batch_id = bid → q.question_id ∈ ids →
      StagingService.reject_questions bid ids db = some db2 →
      db2.staged_questions.get? i = some { q with status := .rejected }) := by
  have hqmem : q ∈ db.staged_questions := List.get?_mem hq
  have keepRow : ∀ (h : StagingService.StagedQuestion → StagingService.StagedQuestion)
      (S : List String) (snap : List StagingService.StagedQuestion)
      (hsnap : ∀ q1 ∈ snap, q1 ∈ db.staged_questions ∧ q1.status ≠ .imported)
      (hS : S = snap.map (fun q => q.question_id)),
      StagingService.RowTransform db.staged_questions h S →
      h q = q := by
    intro h S snap hsnap hS ht
    apply ht.off q hqmem
    rw [hS]
    intro hin
    obtain ⟨q1, hq1, hq1id⟩ := List.mem_map.1 hin
    obtain ⟨hq1mem, hq1st⟩ := hsnap q1 hq1
    have : q1 = q := List.inj_on_of_nodup_map hwf.1 hq1mem hqmem hq1id
    rw [this] at hq1st
    exact hq1st himp
  have hpend : ∀ bid q1, q1 ∈ StagingService.pendingSnapshot db bid →
      q1 ∈ db.staged_questions ∧ q1.status ≠ .imported := by
    intro bid q1 hq1
    have hmem : q1 ∈ StagingService.rowsOf db bid := List.mem_of_mem_filter hq1
    refine ⟨List.mem_of_mem_filter hmem, ?_⟩
    have := List.of_mem_filter hq1
    rw [beq_iff_eq.1 this]
    intro hc
    cases hc
  have happr : ∀ bid q1, q1 ∈ StagingService.approvedSnapshot db bid →
      q1 ∈ db.staged_questions ∧ q1.status ≠ .imported := by
    intro bid q1 hq1
    have hmem : q1 ∈ StagingService.rowsOf db bid := List.mem_of_mem_filter hq1
    refine ⟨List.mem_of_mem_filter hmem, ?_⟩
    have := List.of_mem_filter hq1
    rw [beq_iff_eq.1 this]
    intro hc
    cases hc
  have reviewGet : ∀ bid ids (st : StagingService.QuestionStatus)
      (f : StagingService.StagedQuestion → StagingService.StagedQuestion),
      q.upload_batch_id = bid → q.question_id ∈ ids →
      (StagingService.updateStaged db (StagingService.reviewTarget bid ids)
          f).staged_questions.get? i = some (f q) := by
    intro bid ids st f hbid hidin
    have htgt : StagingService.reviewTarget bid ids q = true := by
      have hc : ids.contains q.question_id = true := List.elem_iff.2 hidin
      unfold StagingService.reviewTarget
      rw [hbid, hc]
      simp
    show (db.staged_questions.map
      (fun q => if StagingService.reviewTarget bid ids q then f q else q)).get? i = _
    rw [List.get?_map, hq]
    simp [htgt]
  refine ⟨?_, ?_, ?_, ?_, ?_⟩
  · intro bid sim
    obtain ⟨_, _, h, ht, hs⟩ := StagingService.detect_duplicates_inv bid sim db hwf hinv
    rw [hs, List.get?_map, hq]
    simp [keepRow h _ (StagingService.pendingSnapshot db bid) (hpend bid) rfl ht]
  · intro bid t
    obtain ⟨_, _, h, ht, hs⟩ :=
      StagingService.detect_duplicates_fallback_inv bid t db hwf hinv
    rw [hs, List.get?_map, hq]
    simp [keepRow h _ (StagingService.pendingSnapshot db bid) (hpend bid) rfl ht]
  · intro bid
    obtain ⟨_, _, h, ht, hs⟩ := StagingService.import_approved_inv bid db hwf hinv
    rw [hs, List.get?_map, hq]
    simp [keepRow h _ (StagingService.approvedSnapshot db bid) (happr bid) rfl ht]
  · intro bid ids db2 hbid hidin hcall
    obtain ⟨_, rfl⟩ := StagingService.approve_questions_eq bid ids db db2 hcall
    rw [StagingService.markReviewStarted_staged, StagingService.update_batch_counts_staged]
    exact reviewGet bid ids .approved _ hbid hidin
  · intro bid ids db2 hbid hidin hcall
    obtain ⟨_, rfl⟩ := StagingService.reject_questions_eq bid ids db db2 hcall
    rw [StagingService.update_batch_counts_staged]
    exact reviewGet bid ids .rejected _ hbid hidin

/-- C2 (witness): the amended theorem applied to a one-row store: the
imported row survives a detection pass untouched and is reverted to
`Approved` by an approve call listing it. -/
theorem imported_status_mutability_witness :
    (StagingService.detect_duplicates "b" (fun _ => [])
        StagingService.importedRowDB).staged_questions.get? 0
      = some StagingService.importedRow ∧
    ((StagingService.approve_questions "b" ["Q-1"] StagingService.importedRowDB).getD
        StagingService.importedRowDB).staged_questions.get? 0
      = some { StagingService.importedRow with status := .approved } := by
  have happly := imported_status_mutability StagingService.importedRowDB (by decide)
    (by decide) 0 StagingService.importedRow (by decide) (by decide)
  refine ⟨happly.1 "b" (fun _ => []), ?_⟩
  have hcall : StagingService.approve_questions "b" ["Q-1"] StagingService.importedRowDB
      = some ((StagingService.approve_questions "b" ["Q-1"]
          StagingService.importedRowDB).getD StagingService.importedRowDB) := by decide
  exact happly.2.2.2.1 "b" ["Q-1"] _ (by decide) (by decide) hcall

/-- C10 (counterexample): `import_approved` on a batch that has staged
rows but none `Approved` completes with a failure count of zero, yet
the batch is left in `Reviewing` — not set to `Completed` as the claim
requires for a zero-failure completion. -/
theorem import_no_approved_counterexample :
    (StagingService.import_approved "b" StagingService.noApprovedDB).2.failed_ids = [] ∧
    (StagingService.import_approved "b" StagingService.noApprovedDB).2.imported_ids = [] ∧
    (∃ b ∈ (StagingService.import_approved "b"
        StagingService.noApprovedDB).1.upload_batches, b.batch_id = "b") ∧
    ∀ b ∈ (StagingService.import_approved "b" StagingService.noApprovedDB).1.upload_batches,
      b.status = .reviewing ∧ b.status ≠ .completed := by
  decide

/-- C10 (amended): when the batch has at least one `Approved` row,
`import_approved` attempts every one of them — each approved id lands
in the imported or the failed list — records an error entry for
exactly the failed ids without stopping the pass, and finally sets
the batch status to `Completed` iff the failed list is empty and to
`Cancelled` otherwise.  (With no `Approved` rows the call returns a
zero summary and leaves the batch in `Reviewing`.) -/
theorem import_approved_amended (bid : String) (db : StagingService.DB)
    (hne : StagingService.approvedSnapshot db bid ≠ []) :
    (∀ q ∈ StagingService.approvedSnapshot db bid,
      q.question_id ∈ (StagingService.import_approved bid db).2.imported_ids ∨
      q.question_id ∈ (StagingService.import_approved bid db).2.failed_ids) ∧
    ((StagingService.import_approved bid db).2.errors.map Prod.fst =
      (StagingService.import_approved bid db).2.failed_ids) ∧
    (∀ b ∈ (StagingService.import_approved bid db).1.upload_batches, b.batch_id = bid →
      b.status = (if (StagingService.import_approved bid db).2.failed_ids.isEmpty
        then StagingService.BatchStatus.completed else .cancelled)) := by
  unfold StagingService.import_approved
  rw [if_neg (by simpa [List.isEmpty_iff] using hne)]
  obtain ⟨hE, hI, hF, hAll⟩ := StagingService.importRow_fold
    (StagingService.approvedSnapshot db bid)
    (StagingService.importReviewing bid db, ⟨[], [], []⟩)
  exact ⟨fun q hq => hAll q hq, hE rfl, StagingService.final_status_set _ bid _⟩

/-- C10 (witness): the amended theorem applied to a two-row batch in
which one approved id collides with an existing production id: one row
imports, one fails, the batch is cancelled. -/
theorem import_approved_amended_witness :
    StagingService.approvedSnapshot StagingService.importWitnessDB "b" ≠ [] ∧
    ((∀ q ∈ StagingService.approvedSnapshot StagingService.importWitnessDB "b",
      q.question_id ∈ (StagingService.import_approved "b"
        StagingService.importWitnessDB).2.imported_ids ∨
      q.question_id ∈ (StagingService.import_approved "b"
        StagingService.importWitnessDB).2.failed_ids) ∧
    ((StagingService.import_approved "b" StagingService.importWitnessDB).2.errors.map
        Prod.fst =
      (StagingService.import_approved "b" StagingService.importWitnessDB).2.failed_ids) ∧
    (∀ b ∈ (StagingService.import_approved "b"
        StagingService.importWitnessDB).1.upload_batches, b.batch_id = "b" →
      b.status = (if (StagingService.import_approved "b"
          StagingService.importWitnessDB).2.failed_ids.isEmpty
        then StagingService.BatchStatus.completed else .cancelled))) :=
  ⟨by decide, import_approved_amended "b" StagingService.importWitnessDB (by decide)⟩

set_option maxRecDepth 100000 in
/-- **C4 counterexample.** One staged question against a store whose
50-row descending window hides the id `DCF-WAC-B-Q-100`: the batch's
generated ids are duplicate-free, yet the call does not insert the
rows — it aborts with the store-conflict error because the generated
id already exists in the staged store, refuting "otherwise all rows
are inserted". -/
theorem stage_questions_conflict_counterexample :
    (StagingService.assignIds
        (StagingService.conflictDB.all_questions.map (fun e => e.question_id))
        (StagingService.conflictDB.staged_questions.map (fun q => q.question_id))
        [StagingService.conflictQ] []).Nodup
    ∧ StagingService.stage_questions "batch-1" [StagingService.conflictQ]
        StagingService.conflictDB
      = .error .insertConflict := by
  constructor
  · decide
  · rfl

/-- **C4 (amended).** `stage_questions` checks the batch's generated
ids for intra-batch duplicates and would abort reporting the repeated
ids, but the per-batch tracker makes the generated ids provably
duplicate-free, so that branch never fires; an error can still occur:
the single bulk insert is all-or-nothing, and a generated id already
present in the staged store aborts the whole call with a
store-conflict error, leaving the store untouched.  On success all
rows are appended.  The conjuncts: (1) the duplicate-ids error is
unreachable from `stage_questions`; (2) on a duplicate-carrying
record list the insert phase aborts reporting the non-empty repeated
ids; (3) success appends exactly the call's records and changes
nothing else; (4) the id-assignment loop always yields duplicate-free
ids; (5) the duplicate scan is empty exactly on duplicate-free
input. -/
theorem stage_questions_all_or_nothing :
    (∀ (batch_id : String) (questions : List StagingService.StagedQuestionCreate)
        (db : StagingService.DB) (dups : List String),
        StagingService.stage_questions batch_id questions db
          ≠ .error (.duplicateIds dups))
    ∧ (∀ (records : List StagingService.StagedQuestion) (db : StagingService.DB),
        ¬ (records.map (fun r => r.question_id)).Nodup →
          StagingService.insertStagedRecords records db
            = .error (.duplicateIds
                (StagingService.dupScan [] (records.map (fun r => r.question_id))))
          ∧ StagingService.dupScan [] (records.map (fun r => r.question_id)) ≠ [])
    ∧ (∀ (records : List StagingService.StagedQuestion) (db db' : StagingService.DB),
        StagingService.insertStagedRecords records db = .ok db' →
          db'.staged_questions = db.staged_questions ++ records
          ∧ db'.all_questions = db.all_questions
          ∧ db'.upload_batches = db.upload_batches
          ∧ db'.staging_duplicates = db.staging_duplicates)
    ∧ (∀ (all staged : List String) (qs : List StagingService.StagedQuestionCreate),
        (StagingService.assignIds all staged qs []).Nodup)
    ∧ (∀ (l seen : List String),
        StagingService.dupScan seen l = [] ↔ l.Nodup ∧ ∀ x ∈ l, x ∉ seen) := by
  refine ⟨?_, ?_, ?_, ?_, ?_⟩
  · intro batch_id questions db dups hc
    unfold StagingService.stage_questions StagingService.insertStagedRecords at hc
    rw [StagingService.zipWith_buildRecord_ids batch_id questions _
      (StagingService.assignIds_length _ _ questions []).symm] at hc
    have hnd := StagingService.assignIds_nodup
      (db.all_questions.map (fun e => e.question_id))
      (db.staged_questions.map (fun q => q.question_id)) questions
    have hlen := (StagingService.length_dedup_iff _).2 hnd
    rw [if_neg (not_not.2 hlen)] at hc
    split at hc
    · cases hc
    · cases hc
  · intro records db hnd
    have hlen : (records.map (fun r => r.question_id)).length
        ≠ (records.map (fun r => r.question_id)).dedup.length :=
      fun hc => hnd ((StagingService.length_dedup_iff _).1 hc)
    constructor
    · unfold StagingService.insertStagedRecords
      rw [if_pos hlen]
    · intro hc
      exact hnd ((StagingService.dupScan_eq_nil_iff _ _).1 hc).1
  · intro records db db' hc
    unfold StagingService.insertStagedRecords at hc
    split at hc
    · cases hc
    · split at hc
      · cases hc
      · cases hc
        exact ⟨rfl, rfl, rfl, rfl⟩
  · exact fun all staged qs => StagingService.assignIds_nodup all staged qs
  · exact StagingService.dupScan_eq_nil_iff

/-- **C7 counterexample.** The metric is not symmetric:
`SequenceMatcher` is order-sensitive, and on the pair `tide` / `diet`
the two orders give 1/4 and 1/2. -/
theorem calculate_similarity_symmetry_counterexample :
    DuplicateServiceFallback.calculate_similarity "tide" "diet" = 1 / 4
    ∧ DuplicateServiceFallback.calculate_similarity "diet" "tide" = 1 / 2
    ∧ DuplicateServiceFallback.calculate_similarity "tide" "diet"
      ≠ DuplicateServiceFallback.calculate_similarity "diet" "tide" := by
  refine ⟨DuplicateServiceFallback.sim_tide_diet,
    DuplicateServiceFallback.sim_diet_tide, ?_⟩
  rw [DuplicateServiceFallback.sim_tide_diet, DuplicateServiceFallback.sim_diet_tide]
  norm_num

/-- **C7 (amended).** The similarity metric is bounded in `[0, 1]`,
depends only on the lowercased texts (case-insensitive), and returns
exactly 1 when the lowercased texts coincide; it is NOT symmetric:
`sim "tide" "diet" = 1/4` while `sim "diet" "tide" = 1/2`. -/
theorem calculate_similarity_properties :
    (∀ a b : String, 0 ≤ DuplicateServiceFallback.calculate_similarity a b
      ∧ DuplicateServiceFallback.calculate_similarity a b ≤ 1)
    ∧ (∀ a a' b b' : String, pyLower a = pyLower a' → pyLower b = pyLower b' →
        DuplicateServiceFallback.calculate_similarity a b
          = DuplicateServiceFallback.calculate_similarity a' b')
    ∧ (∀ a b : String, pyLower a = pyLower b →
        DuplicateServiceFallback.calculate_similarity a b = 1)
    ∧ ¬ (∀ a b : String, DuplicateServiceFallback.calculate_similarity a b
        = DuplicateServiceFallback.calculate_similarity b a) := by
  refine ⟨?_, ?_, ?_, ?_⟩
  · intro a b
    exact ⟨Difflib.ratioQ_nonneg _ _, Difflib.ratioQ_le_one _ _⟩
  · intro a a' b b' ha hb
    unfold DuplicateServiceFallback.calculate_similarity
    rw [ha, hb]
  · intro a b h
    unfold DuplicateServiceFallback.calculate_similarity
    rw [h]
    exact Difflib.ratioQ_self _
  · intro h
    have hc := h "tide" "diet"
    rw [DuplicateServiceFallback.sim_tide_diet,
      DuplicateServiceFallback.sim_diet_tide] at hc
    norm_num at hc

/-- Similarity of the C5 near-duplicate pair. -/
lemma sim_wacc : DuplicateServiceFallback.calculate_similarity
    "What is WACC??" "What is WACC?" = 26 / 27 := by
  show Difflib.ratioQ (pyLower "What is WACC??").data (pyLower "What is WACC?").data = 26 / 27
  rw [Difflib.ratioQ,
    show Difflib.matchesTotal (pyLower "What is WACC??").data
      (pyLower "What is WACC?").data = 13 from by decide,
    show (pyLower "What is WACC??").data.length = 14 from by decide,
    show (pyLower "What is WACC?").data.length = 13 from by decide]
  norm_num

/-- **C5 counterexample.** A pending staged question that is a
near-duplicate of an existing question (similarity 26/27, above the
0.65 threshold of the primary path): the spec's fallback — identical
metric and threshold — marks it, but the code's fallback, an exact
`lower().strip()` match, leaves the staged store untouched, so the
two paths do not mark the same questions. -/
theorem detect_fallback_metric_counterexample :
    (65 / 100 : ℚ) ≤ DuplicateServiceFallback.calculate_similarity
      StagingService.c5Row.question StagingService.c5Existing.question
    ∧ StagingService.specFallbackMarks (65 / 100) StagingService.c5DB StagingService.c5Row
    ∧ (StagingService.detect_duplicates_fallback "B1" (65 / 100)
        StagingService.c5DB).staged_questions = StagingService.c5DB.staged_questions
    ∧ (StagingService.detect_duplicates_fallback "B1" (65 / 100)
        StagingService.c5DB).staging_duplicates = [] := by
  have hsim : (65 / 100 : ℚ) ≤ DuplicateServiceFallback.calculate_similarity
      StagingService.c5Row.question StagingService.c5Existing.question := by
    show (65 / 100 : ℚ) ≤ DuplicateServiceFallback.calculate_similarity
      "What is WACC??" "What is WACC?"
    rw [sim_wacc]
    norm_num
  refine ⟨hsim, ⟨StagingService.c5Existing, List.mem_singleton.2 rfl, hsim⟩, ?_, ?_⟩
  · rfl
  · rfl

/-- **C5 (amended).** The code's fallback is not the spec's: it
ignores its `threshold` parameter entirely, and it marks a pending
row `Duplicate` (with score fixed at 1.0) only on an exact match of
the lowercased, stripped question text against some existing
question; when no existing question matches exactly the row is left
untouched, so near-duplicates above the threshold are missed. -/
theorem detect_fallback_exact_match :
    (∀ (bid : String) (t t' : ℚ) (db : StagingService.DB),
        StagingService.detect_duplicates_fallback bid t db
          = StagingService.detect_duplicates_fallback bid t' db)
    ∧ (∀ (existing : List StagingService.ProductionQuestion)
        (acc : StagingService.DB × List StagingService.StagingDuplicate)
        (srow : StagingService.StagedQuestion),
        (∀ e ∈ existing, pyStrip (pyLower srow.question) ≠ pyStrip (pyLower e.question)) →
          StagingService.fallbackBody existing acc srow = acc)
    ∧ (∀ (existing : List StagingService.ProductionQuestion)
        (acc : StagingService.DB × List StagingService.StagingDuplicate)
        (srow : StagingService.StagedQuestion),
        (∃ e ∈ existing, pyStrip (pyLower srow.question) = pyStrip (pyLower e.question)) →
          ∃ e ∈ existing, pyStrip (pyLower srow.question) = pyStrip (pyLower e.question)
            ∧ (StagingService.fallbackBody existing acc srow).1
              = StagingService.updateStaged acc.1
                  (fun q => q.question_id == srow.question_id)
                  (fun q => { q with status := .duplicate, duplicate_of := some e.question_id, similarity_score := some 1 })) := by
  refine ⟨?_, ?_, ?_⟩
  · intro bid t t' db
    rfl
  · intro existing acc srow hall
    have hnone : existing.find? (fun e =>
        pyStrip (pyLower srow.question) == pyStrip (pyLower e.question)) = none := by
      rw [List.find?_eq_none]
      intro e he
      simpa using hall e he
    rw [StagingService.fallbackBody, hnone]
  · intro existing acc srow hex
    obtain ⟨e0, he0, heq0⟩ := hex
    have hsome : (existing.find? (fun e =>
        pyStrip (pyLower srow.question) == pyStrip (pyLower e.question))).isSome := by
      rw [List.find?_isSome]
      exact ⟨e0, he0, by simpa using heq0⟩
    obtain ⟨e, he⟩ := Option.isSome_iff_exists.1 hsome
    refine ⟨e, List.mem_of_find?_eq_some he, by simpa using List.find?_some he, ?_⟩
    rw [StagingService.fallbackBody, he]

/-- **C6.** `_group_duplicates` clusters by connected components:
whenever two distinct questions are linked by a chain of recorded
similarity pairs, some returned group contains both — even when no
single pair links them directly.  The second conjunct checks the
spec's own instance: pairs A–B and B–C (0.9 each, threshold 0.8, A–C
at 0.3 unrecorded) yield the single cluster {A, B, C}. -/
theorem group_duplicates_transitive :
    (∀ (pairs : List DuplicateServiceFallback.DupPair) (x y : String),
        Relation.ReflTransGen (DuplicateServiceFallback.pairStep pairs) x y → x ≠ y →
        ∃ g ∈ (DuplicateServiceFallback.group_duplicates pairs).groups,
          (∃ q ∈ g.questions, q.id = x) ∧ (∃ q ∈ g.questions, q.id = y))
    ∧ (DuplicateServiceFallback.group_duplicates
        DuplicateServiceFallback.c6pairs).groups.map
          (fun g => g.questions.map (fun q => q.id)) = [["A", "B", "C"]]
    ∧ (DuplicateServiceFallback.group_duplicates
        DuplicateServiceFallback.c6pairs).count = 1 := by
  refine ⟨?_, by decide, by decide⟩
  intro pairs x y hch hne
  rcases Relation.ReflTransGen.cases_head hch with heq | ⟨z, hstep0, _⟩
  · exact absurd heq hne
  obtain ⟨p, hp, hpor⟩ := hstep0
  have hne_pairs : ¬ (pairs.isEmpty = true) := by
    intro hc
    rw [List.isEmpty_iff] at hc
    rw [hc] at hp
    cases hp
  have hch' : Relation.ReflTransGen
      (fun u w => w ∈ DuplicateServiceFallback.adjNbrIds
        (DuplicateServiceFallback.buildAdj pairs) u) x y := by
    refine Relation.ReflTransGen.mono ?_ hch
    intro u w hs
    obtain ⟨p', hp', hor⟩ := hs
    rcases hor with ⟨h1, h2⟩ | ⟨h1, h2⟩
    · rw [← h1, ← h2]
      exact (DuplicateServiceFallback.buildAdj_edge hp').1
    · rw [← h1, ← h2]
      exact (DuplicateServiceFallback.buildAdj_edge hp').2
  have hxkey : (((DuplicateServiceFallback.buildAdj pairs).lookup x).isSome) := by
    rcases hpor with ⟨h1, _⟩ | ⟨_, h2⟩
    · rw [← h1]
      exact DuplicateServiceFallback.buildAdj_targets pairs p.id2 p.id1
        (DuplicateServiceFallback.buildAdj_edge hp).2
    · rw [← h2]
      exact DuplicateServiceFallback.buildAdj_targets pairs p.id1 p.id2
        (DuplicateServiceFallback.buildAdj_edge hp).1
  obtain ⟨R4, R5⟩ := DuplicateServiceFallback.groupsLoop_spec pairs
    (DuplicateServiceFallback.buildAdj pairs) (DuplicateServiceFallback.buildQmap pairs)
    (DuplicateServiceFallback.buildAdj_keys_nodup pairs)
    (DuplicateServiceFallback.buildAdj_targets pairs)
    (DuplicateServiceFallback.buildQmap_id pairs)
    (DuplicateServiceFallback.buildAdj_sym pairs)
    ((DuplicateServiceFallback.buildAdj pairs).map (fun p => p.1)) [] []
    (fun k hk => (DuplicateServiceFallback.lookup_isSome_iff_mem_keys _ _).2 hk)
    (by intro v hv; cases hv)
  obtain ⟨g, hgmem, hgx, hgy⟩ := R5 x y hch' hne
    ((DuplicateServiceFallback.lookup_isSome_iff_mem_keys _ _).1 hxkey)
    (List.not_mem_nil x)
  refine ⟨g, ?_, hgx, hgy⟩
  show g ∈ (DuplicateServiceFallback.group_duplicates pairs).groups
  rw [DuplicateServiceFallback.group_duplicates, if_neg hne_pairs]
  exact (DuplicateServiceFallback.mem_sortScoreDesc _ _).2 hgmem

/-- **C9 counterexample.** Two question/answer runs under one heading
run: the code's parser ends the first block at the second `Question`
marker and emits two blocks, while the spec's reading — blocks end
only at the next context-changing heading or end of document — yields
a single block. -/
theorem extract_blocks_boundary_counterexample :
    (ValidationService.extract_question_blocks ValidationService.c9doc).length = 2
    ∧ (ValidationService.specExtract ValidationService.c9doc).length = 1
    ∧ ValidationService.extract_question_blocks ValidationService.c9doc
      ≠ ValidationService.specExtract ValidationService.c9doc := by
  exact ⟨by decide, by decide, by decide⟩

/-- **C9 (amended).** Every emitted block carries both the Question
and the Answer marker (anything else accumulated is discarded); with
no difficulty heading — or no type heading — in the document no block
is ever started, so the output is empty; and a block also ends at the
next `Question` marker, not only at context-changing headings or end
of document: on the two-question document the first emitted block
stops before the second question. -/
theorem extract_question_blocks_amended :
    (∀ (content : List Char), ∀ b ∈ ValidationService.extract_question_blocks content,
        (ValidationService.containsSub "**Question:**".data b) = true
        ∧ (ValidationService.containsSub "**Answer:**".data b) = true)
    ∧ (∀ content : List Char,
        (∀ l ∈ ValidationService.splitNl content,
          ValidationService.difficultyMatch l = none) →
        ValidationService.extract_question_blocks content = [])
    ∧ (∀ content : List Char,
        (∀ l ∈ ValidationService.splitNl content,
          ValidationService.typeMatch l = none) →
        ValidationService.extract_question_blocks content = [])
    ∧ (ValidationService.extract_question_blocks ValidationService.c9doc).length = 2
    ∧ ValidationService.containsSub "q2".data
        ((ValidationService.extract_question_blocks ValidationService.c9doc).getD 0 [])
      = false := by
  exact ⟨ValidationService.extract_blocks_marked,
    ValidationService.extract_no_difficulty, ValidationService.extract_no_type,
    by decide, by decide⟩

end QALoader
